import Mathlib

/-! # ChaiAurCode-CLI: the page mirroring engine of `src/agent.js`

A shallow embedding of `cloneWebsiteLandingPage` (asset discovery, URL rewriting and the
download batch) and of the helpers it closes over, followed by theorems about them.

Conventions of the embedding.

* A JavaScript string is a `List Char` (`Str`), a well-formed string without lone
  surrogates.  The indices and lengths of the pattern matcher, which runs over style texts
  of any content, are counted in UTF-16 code units (`utf16Length`, `execUrl`); every other
  string the engine slices is a component of a serialised URL, hence ASCII, where code
  points and code units coincide.
* The platform classes the source relies on (`URL`, `URLSearchParams`, `path`, `RegExp`,
  `String.prototype.replace`, `fs`, `fetch`) are not code of this repository.  They are
  modelled in the sections named `Platform`, each definition stating the fragment of the
  platform behaviour it covers.
* A JavaScript exception is a `none` or `Run.thrown` result; a loop that may not end is
  given fuel, one unit for each turn, and `Run.loops` or `none` when the fuel is used up.
-/

set_option autoImplicit false

namespace ChaiClone

/-- A JavaScript string, as the list of its characters. -/
abbrev Str := List Char

/-! ## Platform: characters and strings -/

/-- The double quote character. -/
def dquote : Char := Char.ofNat 34

/-- The single quote character. -/
def squote : Char := Char.ofNat 39

/-- The backslash character. -/
def backslash : Char := Char.ofNat 92

/-- The backtick character. -/
def backtick : Char := Char.ofNat 96

/-- The method `String.prototype.startsWith`. -/
def startsWith (s p : Str) : Bool := p.isPrefixOf s

/-- The method `String.prototype.includes`: `p` occurs in `s` as a contiguous substring. -/
def includes : Str → Str → Bool
  | [], p => p.isEmpty
  | c :: cs, p => p.isPrefixOf (c :: cs) || includes cs p

/-- ECMAScript `WhiteSpace` and `LineTerminator` code points: the class `\s` of a regular
expression and the characters removed by `String.prototype.trim`. -/
def isJsSpace (c : Char) : Bool :=
  let n := c.toNat
  (9 ≤ n && n ≤ 13) || n == 0x20 || n == 0xA0 || n == 0x1680 || (0x2000 ≤ n && n ≤ 0x200A) ||
  n == 0x2028 || n == 0x2029 || n == 0x202F || n == 0x205F || n == 0x3000 || n == 0xFEFF

/-- The method `String.prototype.trim`. -/
def jsTrim (s : Str) : Str :=
  ((s.dropWhile isJsSpace).reverse.dropWhile isJsSpace).reverse

/-- Split on one separator character, as `String.prototype.split` does for a one-character
separator: the result always has at least one piece. -/
def splitOnChar (sep : Char) : Str → List Str
  | [] => [[]]
  | c :: cs =>
    if c = sep then [] :: splitOnChar sep cs
    else
      match splitOnChar sep cs with
      | [] => [[c]]
      | p :: ps => (c :: p) :: ps

/-- Upper-case hexadecimal digit of a number below 16. -/
def hexDigit (n : Nat) : Char :=
  if n < 10 then Char.ofNat (48 + n) else Char.ofNat (55 + n)

/-- The UTF-8 encoding of a code point, as a list of byte values. -/
def utf8Bytes (c : Char) : List Nat :=
  let n := c.toNat
  if n < 0x80 then [n]
  else if n < 0x800 then [0xC0 + n / 64, 0x80 + n % 64]
  else if n < 0x10000 then [0xE0 + n / 4096, 0x80 + (n / 64) % 64, 0x80 + n % 64]
  else [0xF0 + n / 262144, 0x80 + (n / 4096) % 64, 0x80 + (n / 64) % 64, 0x80 + n % 64]

/-- Percent-encoding of one byte: `%` and two upper-case hexadecimal digits. -/
def pctByte (b : Nat) : Str := ['%', hexDigit (b / 16), hexDigit (b % 16)]

/-- Percent-encode every character of `s` that lies in the set `inSet`
(WHATWG URL, "UTF-8 percent-encode"). -/
def pctEncode (inSet : Char → Bool) (s : Str) : Str :=
  s.flatMap fun c => if inSet c then (utf8Bytes c).flatMap pctByte else [c]

/-! ## Platform: the `URL` class

The engine reads six getters of a parsed URL.  `URL` is the record of their values;
`parseURL` models the parser behind `new URL(input, base)`. -/

/-- The getters of a platform `URL` object that `src/agent.js` reads. -/
structure URL where
  /-- The serialised URL. -/
  href : Str
  /-- The scheme followed by a colon. -/
  protocol : Str
  /-- The host without the port; empty when the URL has no host. -/
  hostname : Str
  /-- The path: it begins with a slash for every http and https URL. -/
  pathname : Str
  /-- The query with its leading question mark; empty when the query is absent or empty. -/
  search : Str
  /-- The serialised origin; the text null for a scheme without a tuple origin. -/
  origin : Str
deriving DecidableEq, Repr

/-- The URL record of the WHATWG standard (section 4.1) restricted to the parts the parser
below fills in.  A path is either flat (one string; what the standard calls a path that
cannot be a base) or a list of segments. -/
structure UrlRec where
  /-- Lower-case scheme, without the colon. -/
  scheme : Str
  /-- The user name of the credentials. -/
  username : Str
  /-- The password of the credentials. -/
  password : Str
  /-- The serialised host, when there is one. -/
  host : Option Str
  /-- The port, as decimal digits, when it is not the default of the scheme. -/
  port : Option Str
  /-- Whether the path is a single string. -/
  flat : Bool
  /-- The single-string path when `flat`, unused otherwise. -/
  flatPath : Str
  /-- The path segments when the path is not flat. -/
  segments : List Str
  /-- The query, without the question mark. -/
  query : Option Str
  /-- The fragment, without the hash sign. -/
  fragment : Option Str
deriving DecidableEq, Repr

/-- The special schemes that the model parses (the `file` scheme is not modelled). -/
def isSpecialScheme (s : Str) : Bool :=
  s == "http".toList || s == "https".toList || s == "ws".toList || s == "wss".toList ||
  s == "ftp".toList

/-- The default port of a special scheme, as decimal digits. -/
def defaultPort (s : Str) : Option Str :=
  if s == "http".toList || s == "ws".toList then some "80".toList
  else if s == "https".toList || s == "wss".toList then some "443".toList
  else if s == "ftp".toList then some "21".toList
  else none

/-- The C0 control percent-encode set. -/
def inC0Set (c : Char) : Bool := c.toNat ≤ 0x1F || 0x7E < c.toNat

/-- The fragment percent-encode set. -/
def inFragmentSet (c : Char) : Bool :=
  inC0Set c || c == ' ' || c == dquote || c == '<' || c == '>' || c == backtick

/-- The query percent-encode set. -/
def inQuerySet (c : Char) : Bool :=
  inC0Set c || c == ' ' || c == dquote || c == '#' || c == '<' || c == '>'

/-- The special-query percent-encode set. -/
def inSpecialQuerySet (c : Char) : Bool := inQuerySet c || c == squote

/-- The path percent-encode set. -/
def inPathSet (c : Char) : Bool :=
  inQuerySet c || c == '?' || c == '^' || c == backtick || c == '\x7b' || c == '\x7d'

/-- The userinfo percent-encode set. -/
def inUserinfoSet (c : Char) : Bool :=
  inPathSet c || c == '/' || c == ':' || c == ';' || c == '=' || c == '@' || c == '[' ||
  c == backslash || c == ']' || c == '|'

/-- Forbidden host code points. -/
def isForbiddenHost (c : Char) : Bool :=
  c.toNat == 0 || c == '\t' || c == '\n' || c == '\r' || c == ' ' || c == '#' || c == '/' ||
  c == ':' || c == '<' || c == '>' || c == '?' || c == '@' || c == '[' || c == backslash ||
  c == ']' || c == '^' || c == '|'

/-- Forbidden domain code points. -/
def isForbiddenDomain (c : Char) : Bool :=
  isForbiddenHost c || c.toNat ≤ 0x1F || c == '%' || c.toNat == 0x7F

/-- Characters allowed in a scheme after its first letter. -/
def isSchemeChar (c : Char) : Bool :=
  c.isAlphanum || c == '+' || c == '-' || c == '.'

/-- Leading and trailing C0 controls and spaces are removed, then every tab and newline. -/
def preprocess (s : Str) : Str :=
  let isC0Space := fun (c : Char) => decide (c.toNat ≤ 0x20)
  let t := ((s.dropWhile isC0Space).reverse.dropWhile isC0Space).reverse
  t.filter fun c => !(c == '\t' || c == '\n' || c == '\r')

/-- Scheme start and scheme states: the lower-cased scheme and what follows the colon. -/
def splitScheme : Str → Option (Str × Str)
  | [] => none
  | c :: rest =>
    if c.isAlpha then
      match rest.dropWhile isSchemeChar with
      | ':' :: r => some ((c :: rest.takeWhile isSchemeChar).map Char.toLower, r)
      | _ => none
    else none

/-- A path segment that stands for the current directory. -/
def isSingleDot (seg : Str) : Bool :=
  let l := seg.map Char.toLower
  l == ".".toList || l == "%2e".toList

/-- A path segment that stands for the parent directory. -/
def isDoubleDot (seg : Str) : Bool :=
  let l := seg.map Char.toLower
  l == "..".toList || l == ".%2e".toList || l == "%2e.".toList || l == "%2e%2e".toList

/-- Cut the input of the path state into raw segments; the second component is the rest of
the input, starting at the question mark or hash sign that ended the path. -/
def splitPath (special : Bool) : Str → Str → List Str × Str
  | buf, [] => ([buf.reverse], [])
  | buf, c :: cs =>
    if c = '?' ∨ c = '#' then ([buf.reverse], c :: cs)
    else if c = '/' ∨ (special = true ∧ c = backslash) then
      let r := splitPath special [] cs
      (buf.reverse :: r.1, r.2)
    else splitPath special (c :: buf) cs

/-- The path state applied to raw segments in order: dot segments act on the path built so
far, every other segment is percent-encoded and appended. -/
def pathSteps : List Str → List Str → List Str
  | path, [] => path
  | path, seg :: more =>
    let isLast := more.isEmpty
    let path1 :=
      if isDoubleDot seg then (if isLast then path.dropLast ++ [[]] else path.dropLast)
      else if isSingleDot seg then (if isLast then path ++ [[]] else path)
      else path ++ [pctEncode inPathSet seg]
    pathSteps path1 more

/-- Query and fragment states on the input that follows the path. -/
def parseQueryFragment (special : Bool) (keepQuery : Option Str) :
    Str → Option Str × Option Str
  | '?' :: r =>
    let q := r.takeWhile (· != '#')
    let enc := pctEncode (if special then inSpecialQuerySet else inQuerySet) q
    match r.dropWhile (· != '#') with
    | _ :: f => (some enc, some (pctEncode inFragmentSet f))
    | [] => (some enc, none)
  | '#' :: f => (keepQuery, some (pctEncode inFragmentSet f))
  | _ => (keepQuery, none)

/-- The value of a string of decimal digits. -/
def digitsValue (ds : Str) : Nat := ds.foldl (fun acc c => 10 * acc + (c.toNat - 48)) 0

/-- Port state: digits only, at most 65535, leading zeros dropped, the default port of the
scheme dropped. -/
def parsePort (scheme : Str) (ds : Str) : Option (Option Str) :=
  if ds.isEmpty then some none
  else if ds.all Char.isDigit then
    if digitsValue ds ≤ 65535 then
      let norm := match ds.dropWhile (· == '0') with
        | [] => ['0']
        | d => d
      if defaultPort scheme = some norm then some none else some (some norm)
    else none
  else none

/-- Host parsing for the hosts the model covers: an ASCII domain is lower-cased and must hold
no forbidden domain code point; a host of a non-special scheme must hold no forbidden host code point.
IP-address hosts, percent-encoded hosts and internationalised domain names are outside the
model (they are passed through this same rule). -/
def parseHost (special : Bool) (h : Str) : Option Str :=
  if special then
    if h.isEmpty then none
    else if h.any isForbiddenDomain then none
    else some (h.map Char.toLower)
  else
    if h.any isForbiddenHost then none
    else some (pctEncode inC0Set h)

/-- Split at the last occurrence of a character. -/
def splitLast (sep : Char) (s : Str) : Option (Str × Str) :=
  match (s.reverse.dropWhile (· != sep)) with
  | [] => none
  | _ :: before => some (before.reverse, (s.reverse.takeWhile (· != sep)).reverse)

/-- Authority and host states: credentials before the last at sign, then host and port.
The result is user name, password, host and port. -/
def parseAuthority (scheme : Str) (special : Bool) (auth : Str) :
    Option (Str × Str × Str × Option Str) :=
  let cred := splitLast '@' auth
  let hostport := match cred with
    | some (_, hp) => hp
    | none => auth
  let user := match cred with
    | some (c, _) => pctEncode inUserinfoSet (c.takeWhile (· != ':'))
    | none => []
  let pass := match cred with
    | some (c, _) => pctEncode inUserinfoSet ((c.dropWhile (· != ':')).drop 1)
    | none => []
  if cred.isSome && hostport.isEmpty then none
  else
    let h := hostport.takeWhile (· != ':')
    let p := (hostport.dropWhile (· != ':')).drop 1
    match parseHost special h, parsePort scheme p with
    | some host, some port => some (user, pass, host, port)
    | _, _ => none

/-- The end of the authority: the first slash, question mark or hash sign, and for a special
scheme also the first backslash. -/
def isAuthorityEnd (special : Bool) (c : Char) : Bool :=
  c == '/' || c == '?' || c == '#' || (special && c == backslash)

/-- Path start, path, query and fragment states for a URL whose authority is known. -/
def finishHierarchical (scheme : Str) (special : Bool) (user pass : Str) (host : Option Str)
    (port : Option Str) (basePath : List Str) (rest : Str) : UrlRec :=
  match rest with
  | [] =>
    { scheme := scheme, username := user, password := pass, host := host, port := port,
      flat := false, flatPath := [],
      segments := if special then pathSteps basePath [[]] else basePath,
      query := none, fragment := none }
  | c :: cs =>
    if !special && (c == '?' || c == '#') then
      let qf := parseQueryFragment special none (c :: cs)
      { scheme := scheme, username := user, password := pass, host := host, port := port,
        flat := false, flatPath := [], segments := basePath,
        query := qf.1, fragment := qf.2 }
    else
      let body := if c == '/' || (special && c == backslash) then cs else c :: cs
      let sp := splitPath special [] body
      let qf := parseQueryFragment special none sp.2
      { scheme := scheme, username := user, password := pass, host := host, port := port,
        flat := false, flatPath := [], segments := pathSteps basePath sp.1,
        query := qf.1, fragment := qf.2 }

/-- Authority state followed by the rest of the URL. -/
def parseFromAuthority (scheme : Str) (special : Bool) (afterSlashes : Str) : Option UrlRec :=
  let auth := afterSlashes.takeWhile fun c => !isAuthorityEnd special c
  let rest := afterSlashes.dropWhile fun c => !isAuthorityEnd special c
  match parseAuthority scheme special auth with
  | some (user, pass, host, port) =>
    some (finishHierarchical scheme special user pass (some host) port [] rest)
  | none => none

/-- Relative state: a reference without a scheme, resolved against a base whose path is not
flat. -/
def parseRelative (base : UrlRec) (input : Str) : Option UrlRec :=
  let special := isSpecialScheme base.scheme
  match input with
  | [] => some { base with fragment := none }
  | c :: cs =>
    if c == '/' || (special && c == backslash) then
      match cs with
      | d :: ds =>
        if d == '/' || (special && d == backslash) then
          parseFromAuthority base.scheme special
            (if special then ds.dropWhile (fun x => x == '/' || x == backslash) else ds)
        else
          some (finishHierarchical base.scheme special base.username base.password base.host
            base.port [] (c :: cs))
      | [] =>
        some (finishHierarchical base.scheme special base.username base.password base.host
          base.port [] (c :: cs))
    else if c == '?' || c == '#' then
      let qf := parseQueryFragment special base.query (c :: cs)
      some { base with query := qf.1, fragment := qf.2 }
    else
      let sp := splitPath special [] (c :: cs)
      let qf := parseQueryFragment special none sp.2
      some { base with segments := pathSteps base.segments.dropLast sp.1,
                       query := qf.1, fragment := qf.2 }

/-- The basic URL parser on preprocessed input (WHATWG URL, section 4.4), for the schemes and
hosts the model covers.  `none` is the parser's failure. -/
def parseRec (input : Str) (base : Option UrlRec) : Option UrlRec :=
  match splitScheme input with
  | some (scheme, rest) =>
    if isSpecialScheme scheme then
      let sameBase := match base with
        | some b => b.scheme == scheme && !b.flat
        | none => false
      let twoSlashes := match rest with
        | a :: b :: _ => (a == '/' || a == backslash) && (b == '/' || b == backslash)
        | _ => false
      if sameBase && !twoSlashes then
        match base with
        | some b => parseRelative b rest
        | none => none
      else
        parseFromAuthority scheme true (rest.dropWhile fun x => x == '/' || x == backslash)
    else
      match rest with
      | '/' :: '/' :: r => parseFromAuthority scheme false r
      | '/' :: r => some (finishHierarchical scheme false [] [] none none [] ('/' :: r))
      | _ =>
        let p := rest.takeWhile fun c => !(c == '?' || c == '#')
        let qf := parseQueryFragment false none (rest.dropWhile fun c => !(c == '?' || c == '#'))
        some { scheme := scheme, username := [], password := [], host := none, port := none,
               flat := true, flatPath := pctEncode inC0Set p, segments := [],
               query := qf.1, fragment := qf.2 }
  | none =>
    match base with
    | none => none
    | some b =>
      if b.flat then
        match input with
        | '#' :: f => some { b with fragment := some (pctEncode inFragmentSet f) }
        | _ => none
      else parseRelative b input

/-- The path serialiser. -/
def UrlRec.pathname (r : UrlRec) : Str :=
  if r.flat then r.flatPath else r.segments.flatMap fun s => '/' :: s

/-- The host with its port, as in the `host` getter. -/
def UrlRec.hostPort (r : UrlRec) : Str :=
  match r.host, r.port with
  | some h, some p => h ++ ':' :: p
  | some h, none => h
  | none, _ => []

/-- The URL serialiser. -/
def UrlRec.href (r : UrlRec) : Str :=
  let cred :=
    if r.username.isEmpty && r.password.isEmpty then []
    else r.username ++ (if r.password.isEmpty then [] else ':' :: r.password) ++ ['@']
  let auth := match r.host with
    | some _ => "//".toList ++ cred ++ r.hostPort
    | none =>
      match r.flat, r.segments with
      | false, [] :: _ :: _ => "/.".toList
      | _, _ => []
  let q := match r.query with
    | some q => '?' :: q
    | none => []
  let f := match r.fragment with
    | some f => '#' :: f
    | none => []
  r.scheme ++ ':' :: auth ++ r.pathname ++ q ++ f

/-- The origin serialiser: a tuple origin for the special schemes of the model, the text
null for the others (the `blob` scheme is not modelled). -/
def UrlRec.origin (r : UrlRec) : Str :=
  if isSpecialScheme r.scheme then r.scheme ++ "://".toList ++ r.hostPort else "null".toList

/-- The getters of a parsed URL. -/
def UrlRec.view (r : UrlRec) : URL :=
  { href := r.href
    protocol := r.scheme ++ [':']
    hostname := r.host.getD []
    pathname := r.pathname
    search := match r.query with
      | some (c :: q) => '?' :: c :: q
      | _ => []
    origin := r.origin }

/-- The constructor `new URL(input, base)`; `none` stands for the `TypeError` it throws. -/
def parseURL (input : Str) (base : Option Str) : Option URL :=
  match base with
  | none => (parseRec (preprocess input) none).map UrlRec.view
  | some b =>
    match parseRec (preprocess b) none with
    | none => none
    | some br => (parseRec (preprocess input) (some br)).map UrlRec.view

/-! ## Platform: the `path` module (POSIX flavour) -/

/-- The helper `normalizeString` of the `path` module, on the segments between slashes: empty
and single-dot segments are dropped, a double-dot segment removes the segment before it, or is
kept when there is none to remove and the path is relative.  The first argument is the stack
of segments kept so far, last one first. -/
def normalizeSegs (allowAboveRoot : Bool) : List Str → List Str → List Str
  | stack, [] => stack.reverse
  | stack, seg :: more =>
    if seg = [] ∨ seg = ['.'] then normalizeSegs allowAboveRoot stack more
    else if seg = ['.', '.'] then
      match stack with
      | top :: below =>
        if top = ['.', '.'] then
          normalizeSegs allowAboveRoot (if allowAboveRoot then seg :: stack else stack) more
        else normalizeSegs allowAboveRoot below more
      | [] => normalizeSegs allowAboveRoot (if allowAboveRoot then [seg] else []) more
    else normalizeSegs allowAboveRoot (seg :: stack) more

/-- The function `path.normalize`. -/
def pathNormalize (p : Str) : Str :=
  if p.isEmpty then ['.']
  else
    let isAbs := p.head? == some '/'
    let trailing := p.getLast? == some '/'
    let body := List.intercalate ['/'] (normalizeSegs (!isAbs) [] (splitOnChar '/' p))
    if body.isEmpty then (if isAbs then ['/'] else if trailing then ['.', '/'] else ['.'])
    else (if isAbs then ['/'] else []) ++ body ++ (if trailing then ['/'] else [])

/-- The function `path.join` on two arguments: the non-empty arguments are joined with a
slash and the result is normalised. -/
def pathJoin (a b : Str) : Str :=
  if a.isEmpty && b.isEmpty then ['.']
  else if a.isEmpty then pathNormalize b
  else if b.isEmpty then pathNormalize a
  else pathNormalize (a ++ '/' :: b)

/-- The function `path.dirname`: the path up to the slash that precedes its last segment,
trailing slashes ignored; the first character is never taken for that slash. -/
def pathDirname (p : Str) : Str :=
  match p with
  | [] => ['.']
  | c0 :: rest =>
    let noTrail := rest.reverse.dropWhile (· == '/')
    let upToSlash := noTrail.dropWhile (· != '/')
    match upToSlash with
    | [] => if c0 == '/' then ['/'] else ['.']
    | _ :: before =>
      if c0 == '/' && before.isEmpty then ['/', '/'] else c0 :: before.reverse

/-- The segments of `path.resolve(p)` for a process whose working directory has the segments
`cwd`. -/
def resolveSegs (cwd : List Str) (p : Str) : List Str :=
  if p.head? == some '/' then normalizeSegs false [] (splitOnChar '/' p)
  else normalizeSegs false [] (cwd ++ splitOnChar '/' p)

/-- Drop the longest common prefix of two segment lists. -/
def dropCommon : List Str → List Str → List Str × List Str
  | a :: as, b :: bs => if a = b then dropCommon as bs else (a :: as, b :: bs)
  | as, bs => (as, bs)

/-- The function `path.relative(from, to)`: one double-dot segment for every segment of the
resolved `from` below the common ancestor, then the segments of the resolved `to` below it. -/
def pathRelative (cwd : List Str) (src dst : Str) : Str :=
  let d := dropCommon (resolveSegs cwd src) (resolveSegs cwd dst)
  List.intercalate ['/'] (d.1.map (fun _ => ['.', '.']) ++ d.2)

/-! ## Platform: `URLSearchParams` -/

/-- The value of a hexadecimal digit. -/
def hexVal (c : Char) : Option Nat :=
  let n := c.toNat
  if 48 ≤ n ∧ n ≤ 57 then some (n - 48)
  else if 97 ≤ n ∧ n ≤ 102 then some (n - 87)
  else if 65 ≤ n ∧ n ≤ 70 then some (n - 55)
  else none

/-- Percent-decoding (WHATWG URL, "percent-decode"), from the characters of a string to
bytes: a percent sign followed by two hexadecimal digits is one byte, every other character
gives the bytes of its UTF-8 encoding.  The first argument counts the characters still to be
skipped because they were the digits of a byte already produced. -/
def pctDecodeAux : Nat → Str → List Nat
  | _, [] => []
  | skip + 1, _ :: rest => pctDecodeAux skip rest
  | 0, c :: rest =>
    if c = '%' then
      match rest.head? >>= hexVal, (rest.drop 1).head? >>= hexVal with
      | some x, some y => (16 * x + y) :: pctDecodeAux 2 rest
      | _, _ => 37 :: pctDecodeAux 0 rest
    else utf8Bytes c ++ pctDecodeAux 0 rest

/-- Percent-decoding of a whole string. -/
def pctDecodeBytes (s : Str) : List Nat := pctDecodeAux 0 s

/-- The state of the UTF-8 decoder of the Encoding standard. -/
structure Utf8State where
  /-- The code point being assembled. -/
  cp : Nat
  /-- The number of continuation bytes the lead byte announced. -/
  needed : Nat
  /-- The number of continuation bytes seen. -/
  seen : Nat
  /-- The least value allowed for the next byte. -/
  lower : Nat
  /-- The greatest value allowed for the next byte. -/
  upper : Nat

/-- The decoder state between two code points. -/
def utf8Init : Utf8State := { cp := 0, needed := 0, seen := 0, lower := 0x80, upper := 0xBF }

/-- The replacement character U+FFFD. -/
def replacementChar : Char := Char.ofNat 0xFFFD

/-- The decoder on a byte read between two code points: the character emitted, if any, and
the next state. -/
def utf8Lead (b : Nat) : Option Char × Utf8State :=
  if b ≤ 0x7F then (some (Char.ofNat b), utf8Init)
  else if 0xC2 ≤ b ∧ b ≤ 0xDF then
    (none, { cp := b % 32, needed := 1, seen := 0, lower := 0x80, upper := 0xBF })
  else if 0xE0 ≤ b ∧ b ≤ 0xEF then
    (none, { cp := b % 16, needed := 2, seen := 0,
             lower := if b = 0xE0 then 0xA0 else 0x80,
             upper := if b = 0xED then 0x9F else 0xBF })
  else if 0xF0 ≤ b ∧ b ≤ 0xF4 then
    (none, { cp := b % 8, needed := 3, seen := 0,
             lower := if b = 0xF0 then 0x90 else 0x80,
             upper := if b = 0xF4 then 0x8F else 0xBF })
  else (some replacementChar, utf8Init)

/-- The algorithm "UTF-8 decode without BOM": malformed input gives U+FFFD. -/
def utf8Decode : Utf8State → List Nat → Str
  | st, [] => if st.needed = 0 then [] else [replacementChar]
  | st, b :: bs =>
    if st.needed = 0 then
      match utf8Lead b with
      | (some c, st1) => c :: utf8Decode st1 bs
      | (none, st1) => utf8Decode st1 bs
    else if b < st.lower ∨ st.upper < b then
      match utf8Lead b with
      | (some c, st1) => replacementChar :: c :: utf8Decode st1 bs
      | (none, st1) => replacementChar :: utf8Decode st1 bs
    else if st.seen + 1 = st.needed then
      Char.ofNat (st.cp * 64 + b % 64) :: utf8Decode utf8Init bs
    else
      utf8Decode { cp := st.cp * 64 + b % 64, needed := st.needed, seen := st.seen + 1,
                   lower := 0x80, upper := 0xBF } bs

/-- Decoding of a name or a value by the `application/x-www-form-urlencoded` parser: a plus
sign is a space, then percent-decoding, then UTF-8 decoding. -/
def formDecode (s : Str) : Str :=
  utf8Decode utf8Init (pctDecodeBytes (s.map fun c => if c = '+' then ' ' else c))

/-- One sequence between ampersands, as a pair of name and value; an empty sequence gives
no pair. -/
def formPair (seq : Str) : Option (Str × Str) :=
  if seq.isEmpty then none
  else some (formDecode (seq.takeWhile (· != '=')), formDecode ((seq.dropWhile (· != '=')).drop 1))

/-- The `application/x-www-form-urlencoded` parser. -/
def parseFormUrlencoded (s : Str) : List (Str × Str) :=
  (splitOnChar '&' s).filterMap formPair

/-- The expression `new URLSearchParams(init).get(key)`; `init` is `none` for `undefined`,
which gives an empty list of pairs.  A leading question mark of `init` is dropped. -/
def searchParamsGet (init : Option Str) (key : Str) : Option Str :=
  match init with
  | none => none
  | some s =>
    let body := match s with
      | '?' :: r => r
      | _ => s
    ((parseFormUrlencoded body).find? fun p => p.1 == key).map Prod.snd

/-! ## Platform: the regular expression `/url\s*\(\s*(['"]?)([^'")\s]+)\1\s*\)/gi` and
`String.prototype.replace`

Every quantifier of the pattern is followed by something its own class excludes, so the
backtracking matcher of the platform finds a match at a position exactly when the greedy
left-to-right reading below does, and finds the same one. -/

/-- The class `[^'")\s]` of the second group. -/
def isRefChar (c : Char) : Bool :=
  !(c == squote || c == dquote || c == ')' || isJsSpace c)

/-- The remainder of the pattern after the text `url`: the result is the second group and
the input left after the closing parenthesis. -/
def matchUrlTail (t1 : Str) : Option (Str × Str) :=
  match t1.dropWhile isJsSpace with
  | '(' :: t3 =>
    let t4 := t3.dropWhile isJsSpace
    let quote : Option Char := match t4 with
      | c :: _ => if c == squote || c == dquote then some c else none
      | [] => none
    let t5 := if quote.isSome then t4.drop 1 else t4
    let g2 := t5.takeWhile isRefChar
    let t6 := t5.dropWhile isRefChar
    if g2.isEmpty then none
    else
      let t7 : Option Str := match quote with
        | none => some t6
        | some q =>
          match t6 with
          | d :: t => if d = q then some t else none
          | [] => none
      match t7 with
      | none => none
      | some t =>
        match t.dropWhile isJsSpace with
        | ')' :: t9 => some (g2, t9)
        | _ => none
  | _ => none

/-- A match of the pattern at the head of the input: the matched text `match[0]` and the
second group `match[2]`.  The flag `i` lets each of the three letters be of either case. -/
def matchUrlToken (s : Str) : Option (Str × Str) :=
  match s with
  | u :: r :: l :: t1 =>
    if u.toLower = 'u' ∧ r.toLower = 'r' ∧ l.toLower = 'l' then
      match matchUrlTail t1 with
      | some (g2, t9) => some (s.take (s.length - t9.length), g2)
      | none => none
    else none
  | _ => none

/-- The number of UTF-16 code units of a character: one in the basic plane, two (a surrogate
pair) outside it. -/
def utf16Units (c : Char) : Nat := if c.toNat < 65536 then 1 else 2

/-- The property `length` of a string: its number of UTF-16 code units. -/
def utf16Length : Str → Nat
  | [] => 0
  | c :: cs => utf16Units c + utf16Length cs

/-- The first match at or after the head of the input, whose head has index `i`, counted in
code units: the index of the match, `match[0]` and `match[2]`. -/
def scanUrl : Str → Nat → Option (Nat × Str × Str)
  | [], _ => none
  | c :: cs, i =>
    match matchUrlToken (c :: cs) with
    | some (m, g2) => some (i, m, g2)
    | none => scanUrl cs (i + utf16Units c)

/-- The input from the code unit of index `n` on, for `n` at most the length.  An index
between the two halves of a surrogate pair leaves a lone low surrogate at the head, at which
the pattern, which begins with a letter, cannot match: the matcher steps over it, and so
does this function, which returns `1` for that step and `0` otherwise. -/
def dropUnits : Nat → Str → Nat × Str
  | 0, s => (0, s)
  | _ + 1, [] => (0, [])
  | n + 1, c :: cs =>
    if utf16Units c ≤ n + 1 then dropUnits (n + 1 - utf16Units c) cs else (1, cs)

/-- The call `cssUrlRegex.exec(s)` of the global pattern whose `lastIndex` is given: the
index of the match, `match[0]` and `match[2]`, or `none` for `null`.  Indices are counted in
UTF-16 code units, as the platform counts them.  After a match the new `lastIndex` is the
index plus the length of `match[0]`. -/
def execUrl (s : Str) (lastIndex : Nat) : Option (Nat × Str × Str) :=
  if utf16Length s < lastIndex then none
  else scanUrl (dropUnits lastIndex s).2 (lastIndex + (dropUnits lastIndex s).1)

/-- The first occurrence of `pat` in `s`: what is before it and what is after it. -/
def findSub (pat : Str) : Str → Option (Str × Str)
  | [] => if pat.isEmpty then some ([], []) else none
  | c :: cs =>
    if pat.isPrefixOf (c :: cs) then some ([], (c :: cs).drop pat.length)
    else
      match findSub pat cs with
      | some (before, after) => some (c :: before, after)
      | none => none

/-- The abstract operation `GetSubstitution` for a string pattern: in the replacement text
the dollar sequences `$$`, `$&`, dollar-backtick and dollar-quote stand for a dollar sign,
the matched text, the text before the match and the text after it; there are no captures,
so every other dollar sign is literal.  The flag tells that the character at the head was
the second character of a sequence already expanded. -/
def expandAux (matched before after : Str) : Bool → Str → Str
  | _, [] => []
  | true, _ :: rest => expandAux matched before after false rest
  | false, c :: rest =>
    if c = '$' then
      match rest.head? with
      | some d =>
        if d = '$' then '$' :: expandAux matched before after true rest
        else if d = '&' then matched ++ expandAux matched before after true rest
        else if d = backtick then before ++ expandAux matched before after true rest
        else if d = squote then after ++ expandAux matched before after true rest
        else '$' :: expandAux matched before after false rest
      | none => ['$']
    else c :: expandAux matched before after false rest

/-- The expansion of a whole replacement text. -/
def expandReplacement (matched before after repl : Str) : Str :=
  expandAux matched before after false repl

/-- The call `s.replace(pat, repl)` with a string pattern: the first occurrence of `pat` is
replaced; `s` is returned when there is none. -/
def jsReplace (s pat repl : Str) : Str :=
  match findSub pat s with
  | some (before, after) => before ++ expandReplacement pat before after repl ++ after
  | none => s

/-- Split on runs of white space, as `split(/\s+/)`; the flag tells that the character
before the input was white space. -/
def splitWsAux : Bool → Str → List Str
  | _, [] => [[]]
  | prev, c :: cs =>
    if isJsSpace c then
      if prev then splitWsAux true cs else [] :: splitWsAux true cs
    else
      match splitWsAux false cs with
      | p :: ps => (c :: p) :: ps
      | [] => [[c]]

/-- The call `s.split(/\s+/)`. -/
def splitWs (s : Str) : List Str := splitWsAux false s

/-! ## The closure `toLocalAssetPath` (src/agent.js, lines 37-53) -/

/-- The replacement `.replace(/[?&=]/g, "_")` on one character. -/
def sanitizeChar (c : Char) : Char :=
  if c = '?' ∨ c = '&' ∨ c = '=' then '_' else c

/-- The value `safeQuery`: `u.search.replace(/[?&=]/g, "_").slice(0, 100)`. -/
def safeQueryOf (search : Str) : Str := (search.map sanitizeChar).take 100

/-- The replacement `.replace(/^\/+/, "")`: leading slashes are removed. -/
def stripLeadingSlashes (s : Str) : Str := s.dropWhile (· == '/')

/-- The closure `toLocalAssetPath` of `cloneWebsiteLandingPage`, applied to the URL object
`u = new URL(assetUrl)`; `rootOrigin` is the variable it closes over. -/
def toLocalAssetPath (rootOrigin : Str) (u : URL) : Str :=
  let finalPath := if u.search ≠ [] then u.pathname ++ safeQueryOf u.search else u.pathname
  if u.origin ≠ rootOrigin then
    stripLeadingSlashes ("external/".toList ++ u.hostname ++ finalPath)
  else
    stripLeadingSlashes finalPath

/-! ## Outcomes of a computation -/

/-- The outcome of a piece of the engine: a value, an exception that leaves the piece, or a
loop that is still running when the fuel of the model is used up. -/
inductive Run (α : Type) where
  /-- Normal completion. -/
  | done : α → Run α
  /-- An exception propagates to the caller. -/
  | thrown : Run α
  /-- The fuel was used up. -/
  | loops : Run α
deriving DecidableEq, Repr

/-- Apply `f` to the elements of a list in order, collecting the rewritten elements and, in
order, the URLs each application records; the first exception or loop ends the traversal.
This is the shape of cheerio's `.each` and of `Array.prototype.map` with a callback that calls
`assetSet.add`. -/
def mapRun {α β : Type} (f : α → Run (β × List Str)) : List α → Run (List β × List Str)
  | [] => Run.done ([], [])
  | a :: rest =>
    match f a with
    | Run.done (b, r1) =>
      match mapRun f rest with
      | Run.done (bs, r2) => Run.done (b :: bs, r1 ++ r2)
      | Run.thrown => Run.thrown
      | Run.loops => Run.loops
    | Run.thrown => Run.thrown
    | Run.loops => Run.loops

/-! ## The discovery set -/

/-- The call `assetSet.add(x)` on a `Set` of strings, kept in insertion order. -/
def setAdd (set : List Str) (x : Str) : List Str :=
  if x ∈ set then set else set ++ [x]

/-- The discovery set after the calls `assetSet.add(x)` for the `x` of a list, in order. -/
def setAddAll (set : List Str) (xs : List Str) : List Str := xs.foldl setAdd set

/-! ## Markup rewriting (src/agent.js, lines 95-207)

Each pass returns what it writes into the document and the list of the arguments of its
calls `assetSet.add(...)`, in order: the passes add to the discovery set and never read it.
The parameter `parse` is the constructor `new URL(input, base)`. -/

/-- The call `toLocalAssetPath(assetUrl)` on a string: the closure parses its argument, which
throws when the argument is not a URL. -/
def toLocalAssetPathOfString (parse : Str → Option Str → Option URL) (rootOrigin : Str)
    (assetUrl : Str) : Option Str :=
  (parse assetUrl none).map (toLocalAssetPath rootOrigin)

/-- The value `realUrl`: `new URLSearchParams(val.split('?')[1]).get('url')`. -/
def proxyUpstream (val : Str) : Option Str :=
  searchParamsGet ((splitOnChar '?' val)[1]?) "url".toList

/-- The body of the loop over `src`, `data-src` and `data-lazy-src` (lines 101-125) for one
attribute, whose value is `none` when the attribute is absent: the new value of the attribute
and the URLs recorded. -/
def processImgAttr (parse : Str → Option Str → Option URL) (url rootOrigin : Str)
    (val : Option Str) : Run (Option Str × List Str) :=
  match val with
  | none => Run.done (none, [])
  | some v =>
    if v.isEmpty || startsWith v "data:".toList then Run.done (some v, [])
    else if includes v "/_next/image".toList && includes v "url=".toList then
      match proxyUpstream v with
      | none => Run.done (some v, [])
      | some realUrl =>
        if realUrl.isEmpty then Run.done (some v, [])
        else
          match parse realUrl (some url) with
          | none => Run.done (some v, [])
          | some abs =>
            match toLocalAssetPathOfString parse rootOrigin abs.href with
            | none => Run.done (some v, [])
            | some localPath => Run.done (some localPath, [abs.href])
    else
      match parse v (some url) with
      | none => Run.thrown
      | some abs =>
        match toLocalAssetPathOfString parse rootOrigin abs.href with
        | none => Run.thrown
        | some localPath => Run.done (some localPath, [abs.href])

/-- The callback of `srcset.split(",").map` (lines 130-152) on one entry. -/
def rewriteSrcsetEntry (parse : Str → Option Str → Option URL) (url rootOrigin : Str)
    (entry : Str) : Run (Str × List Str) :=
  let toks := splitWs (jsTrim entry)
  let u := toks.headD []
  let descriptor := toks[1]?
  if u.isEmpty then Run.done (entry, [])
  else
    let fixedUrl :=
      if includes u "/_next/image?url=".toList then
        match proxyUpstream u with
        | some realUrl => if realUrl.isEmpty then u else realUrl
        | none => u
      else u
    match parse fixedUrl (some url) with
    | none => Run.thrown
    | some abs =>
      match toLocalAssetPathOfString parse rootOrigin abs.href with
      | none => Run.thrown
      | some localPath =>
        let suffix := match descriptor with
          | some d => if d.isEmpty then [] else ' ' :: d
          | none => []
        Run.done (localPath ++ suffix, [abs.href])

/-- The processing of the `srcset` attribute (lines 128-154). -/
def processSrcset (parse : Str → Option Str → Option URL) (url rootOrigin : Str)
    (srcset : Option Str) : Run (Option Str × List Str) :=
  match srcset with
  | none => Run.done (none, [])
  | some s =>
    if s.isEmpty then Run.done (some s, [])
    else
      match mapRun (rewriteSrcsetEntry parse url rootOrigin) (splitOnChar ',' s) with
      | Run.done (parts, rec) => Run.done (some (List.intercalate ", ".toList parts), rec)
      | Run.thrown => Run.thrown
      | Run.loops => Run.loops

/-- The asset-bearing attributes of an `img` element; `none` is an absent attribute.  The
attributes `data-nimg`, `decoding` and `loading`, which line 157 removes, carry no reference
and are not part of the model. -/
structure Img where
  /-- The attribute `src`. -/
  src : Option Str
  /-- The attribute `data-src`. -/
  dataSrc : Option Str
  /-- The attribute `data-lazy-src`. -/
  dataLazySrc : Option Str
  /-- The attribute `srcset`. -/
  srcset : Option Str
deriving DecidableEq, Repr

/-- The callback of `$("img").each` (lines 97-158). -/
def processImg (parse : Str → Option Str → Option URL) (url rootOrigin : Str) (img : Img) :
    Run (Img × List Str) :=
  match processImgAttr parse url rootOrigin img.src with
  | Run.done (a1, r1) =>
    match processImgAttr parse url rootOrigin img.dataSrc with
    | Run.done (a2, r2) =>
      match processImgAttr parse url rootOrigin img.dataLazySrc with
      | Run.done (a3, r3) =>
        match processSrcset parse url rootOrigin img.srcset with
        | Run.done (a4, r4) =>
          Run.done ({ src := a1, dataSrc := a2, dataLazySrc := a3, srcset := a4 },
            r1 ++ r2 ++ r3 ++ r4)
        | Run.thrown => Run.thrown
        | Run.loops => Run.loops
      | Run.thrown => Run.thrown
      | Run.loops => Run.loops
    | Run.thrown => Run.thrown
    | Run.loops => Run.loops
  | Run.thrown => Run.thrown
  | Run.loops => Run.loops

/-- The callback of `$("link[href]").each` (lines 162-171) and of `$("script[src]").each`
(lines 175-184), which are the same code on the attribute `href` or `src`. -/
def processRef (parse : Str → Option Str → Option URL) (url rootOrigin : Str) (ref : Str) :
    Run (Str × List Str) :=
  if ref.isEmpty || startsWith ref "data:".toList then Run.done (ref, [])
  else
    match parse ref (some url) with
    | none => Run.thrown
    | some abs =>
      match toLocalAssetPathOfString parse rootOrigin abs.href with
      | none => Run.thrown
      | some localPath => Run.done (localPath, [abs.href])

/-- The replacement text of the inline pass: the local path between `url("` and `")`. -/
def quotedUrl (localPath : Str) : Str :=
  "url(".toList ++ dquote :: localPath ++ [dquote, ')']

/-- The `while` loop of the inline style pass (lines 190-204) from a given text and
`lastIndex`: the text after the loop and the URLs recorded.  One unit of fuel is one call of
`exec`. -/
def rewriteInlineCss (parse : Str → Option Str → Option URL) (url rootOrigin : Str) :
    Nat → Str → Nat → Run (Str × List Str)
  | 0, _, _ => Run.loops
  | fuel + 1, cssContent, lastIndex =>
    match execUrl cssContent lastIndex with
    | none => Run.done (cssContent, [])
    | some (index, whole, group2) =>
      let imgUrl := jsTrim group2
      let next := index + utf16Length whole
      if !startsWith imgUrl "data:".toList && !startsWith imgUrl "#".toList then
        match (parse imgUrl (some url)).bind fun abs =>
            (toLocalAssetPathOfString parse rootOrigin abs.href).map fun lp => (abs, lp) with
        | some (abs, localPath) =>
          match rewriteInlineCss parse url rootOrigin fuel
              (jsReplace cssContent whole (quotedUrl localPath)) next with
          | Run.done (out, rec) => Run.done (out, abs.href :: rec)
          | Run.thrown => Run.thrown
          | Run.loops => Run.loops
        | none => rewriteInlineCss parse url rootOrigin fuel cssContent next
      else rewriteInlineCss parse url rootOrigin fuel cssContent next

/-- The callback of `$("style").each` (lines 187-207) on the text of one style element. -/
def processStyle (parse : Str → Option Str → Option URL) (url rootOrigin : Str) (fuel : Nat)
    (cssContent : Str) : Run (Str × List Str) :=
  if cssContent.isEmpty then Run.done (cssContent, [])
  else rewriteInlineCss parse url rootOrigin fuel cssContent 0

/-- The parts of the parsed document that the engine reads and writes, in document order
within each kind. -/
structure Document where
  /-- The `img` elements. -/
  imgs : List Img
  /-- The values of `href` of the elements matched by `link[href]`. -/
  links : List Str
  /-- The values of `src` of the elements matched by `script[src]`. -/
  scripts : List Str
  /-- The text content of the `style` elements. -/
  styles : List Str
deriving DecidableEq, Repr

/-- The four passes of markup rewriting (lines 95-207) in program order: the rewritten
document and the arguments of all calls `assetSet.add(...)`, in order. -/
def rewriteMarkupTrace (parse : Str → Option Str → Option URL) (url rootOrigin : Str)
    (fuel : Nat) (doc : Document) : Run (Document × List Str) :=
  match mapRun (processImg parse url rootOrigin) doc.imgs with
  | Run.done (imgs, r1) =>
    match mapRun (processRef parse url rootOrigin) doc.links with
    | Run.done (links, r2) =>
      match mapRun (processRef parse url rootOrigin) doc.scripts with
      | Run.done (scripts, r3) =>
        match mapRun (processStyle parse url rootOrigin fuel) doc.styles with
        | Run.done (styles, r4) =>
          Run.done ({ imgs := imgs, links := links, scripts := scripts, styles := styles },
            r1 ++ r2 ++ r3 ++ r4)
        | Run.thrown => Run.thrown
        | Run.loops => Run.loops
      | Run.thrown => Run.thrown
      | Run.loops => Run.loops
    | Run.thrown => Run.thrown
    | Run.loops => Run.loops
  | Run.thrown => Run.thrown
  | Run.loops => Run.loops

/-- Markup rewriting: the rewritten document and the discovery set `assetSet`, which is empty
before the first pass. -/
def rewriteMarkup (parse : Str → Option Str → Option URL) (url rootOrigin : Str)
    (fuel : Nat) (doc : Document) : Run (Document × List Str) :=
  match rewriteMarkupTrace parse url rootOrigin fuel doc with
  | Run.done (doc1, rec) => Run.done (doc1, setAddAll [] rec)
  | Run.thrown => Run.thrown
  | Run.loops => Run.loops

/-! ## The session state -/

/-- A location of the filesystem: the segments of an absolute, normalised path. -/
abbrev FsPath := List Str

/-- The content of a file: bytes written from a response body or from a rewritten
stylesheet, read as text, or the serialisation `$.html()` of the document that was loaded
from a page text and then rewritten. -/
inductive FileData where
  /-- Text written as it is. -/
  | raw : Str → FileData
  /-- The serialisation of the rewritten document of a page. -/
  | rendered (pageText : Str) (doc : Document) : FileData
deriving DecidableEq, Repr

/-- The mutable world of a session outside the document: the files and directories of the
local filesystem and the network requests issued so far, oldest first. -/
structure World where
  /-- Regular files, as pairs of a location and its content. -/
  files : List (FsPath × FileData)
  /-- Directories; the root directory always exists and is not listed. -/
  dirs : List FsPath
  /-- URLs passed to `fetch`, in the order of the calls. -/
  requests : List Str
deriving DecidableEq, Repr

/-! ## Platform: the filesystem (`fs`) and the network (`fetch`) -/

/-- The location a path string denotes for a process whose working directory is `cwd`. -/
def fsKey (cwd : FsPath) (p : Str) : FsPath := resolveSegs cwd p

/-- A regular file is stored at the location. -/
def World.isFile (w : World) (k : FsPath) : Bool := w.files.any fun f => f.1 == k

/-- The location is a directory. -/
def World.isDir (w : World) (k : FsPath) : Bool := k.isEmpty || w.dirs.contains k

/-- The call `fs.existsSync(p)`. -/
def existsSync (cwd : FsPath) (w : World) (p : Str) : Bool :=
  w.isFile (fsKey cwd p) || w.isDir (fsKey cwd p)

/-- The directories `mkdirSync(dir, { recursive: true })` has to make, outermost first: the
call throws, and makes nothing, when a regular file lies on the way. -/
def mkdirFrom (w : World) : FsPath → List Str → Option (List FsPath)
  | _, [] => some []
  | cur, seg :: more =>
    let k := cur ++ [seg]
    if w.isFile k then none
    else
      match mkdirFrom w k more with
      | none => none
      | some made => some (if w.isDir k then made else k :: made)

/-- The call `fs.mkdirSync(dir, { recursive: true })`; `none` stands for the exception. -/
def mkdirSync (cwd : FsPath) (w : World) (dir : Str) : Option World :=
  match mkdirFrom w [] (fsKey cwd dir) with
  | none => none
  | some made => some { w with dirs := w.dirs ++ made }

/-- The function `ensureDir` (lines 8-12). -/
def ensureDir (cwd : FsPath) (w : World) (dir : Str) : Option World :=
  if !existsSync cwd w dir then mkdirSync cwd w dir else some w

/-- The call `fs.writeFileSync(p, data)`: it throws when `p` is a directory or when the
parent of `p` is not a directory; otherwise the file is created or replaced. -/
def writeFileSync (cwd : FsPath) (w : World) (p : Str) (data : FileData) : Option World :=
  let k := fsKey cwd p
  if w.isDir k || !w.isDir k.dropLast then none
  else some { w with files := (w.files.filter fun f => f.1 != k) ++ [(k, data)] }

/-- The content of the file a path denotes, if there is one. -/
def readFile (cwd : FsPath) (w : World) (p : Str) : Option FileData :=
  (w.files.find? fun f => f.1 == fsKey cwd p).map Prod.snd

/-- What awaiting `fetch(url, ...)` gives: a response with a success status and its body, a
response with another status, or a rejection (network error, timeout). -/
inductive FetchResult where
  /-- A response whose `ok` is true, with its body. -/
  | ok : Str → FetchResult
  /-- A response whose `ok` is false, with its status. -/
  | status : Nat → FetchResult
  /-- The promise is rejected. -/
  | failed : FetchResult
deriving DecidableEq, Repr

/-- The environment of a session: the platform functions that the engine calls and that the
model does not fix. -/
structure Platform where
  /-- The constructor `new URL(input, base)`; `none` is the exception it throws. -/
  parse : Str → Option Str → Option URL
  /-- The outcome of a request for a URL. -/
  fetch : Str → FetchResult
  /-- The working directory of the process. -/
  cwd : FsPath
  /-- The elements of the document `cheerio.load(html)` that the engine reads. -/
  load : Str → Document

/-- Record a request. -/
def World.request (w : World) (url : Str) : World := { w with requests := w.requests ++ [url] }

/-! ## The download batch (src/agent.js, lines 209-279) -/

/-- The test `assetUrl.match(/\.css(\?|$)/i)`: the text `.css`, in any case, is followed by a
question mark or ends the string. -/
def isCssUrl : Str → Bool
  | [] => false
  | c :: cs =>
    let l := (c :: cs).map Char.toLower
    ".css?".toList.isPrefixOf l || l == ".css".toList || isCssUrl cs

/-- The download of an embedded asset "if not already downloaded" (lines 246-256): the world
afterwards, and whether the step completed without an exception. -/
def fetchEmbedded (P : Platform) (w : World) (href embeddedFilePath : Str) : World × Bool :=
  if !existsSync P.cwd w embeddedFilePath then
    let w1 := w.request href
    match P.fetch href with
    | FetchResult.failed => (w1, false)
    | FetchResult.status _ => (w1, true)
    | FetchResult.ok body =>
      match ensureDir P.cwd w1 (pathDirname embeddedFilePath) with
      | none => (w1, false)
      | some w2 =>
        match writeFileSync P.cwd w2 embeddedFilePath (FileData.raw body) with
        | none => (w2, false)
        | some w3 => (w3, true)
  else (w, true)

/-- The replacement text of the pass over a downloaded stylesheet: the relative path, with
every backslash turned into a slash, between `url("` and `")`. -/
def relativeUrl (P : Platform) (filePath embeddedFilePath : Str) : Str :=
  quotedUrl ((pathRelative P.cwd (pathDirname filePath) embeddedFilePath).map fun c =>
    if c = backslash then '/' else c)

/-- The `while` loop over a downloaded stylesheet (lines 238-266) from a given text,
`lastIndex`, value of `cssModified` and world; `none` when the fuel is used up.  One unit of
fuel is one call of `exec`. -/
def rewriteDownloadedCss (P : Platform) (rootOrigin outDir assetUrl filePath : Str) :
    Nat → Str → Nat → Bool → World → Option (Str × Bool × World)
  | 0, _, _, _, _ => none
  | fuel + 1, cssContent, lastIndex, cssModified, w =>
    match execUrl cssContent lastIndex with
    | none => some (cssContent, cssModified, w)
    | some (index, whole, group2) =>
      let embeddedUrl := jsTrim group2
      let next := index + utf16Length whole
      if !startsWith embeddedUrl "data:".toList && !startsWith embeddedUrl "#".toList then
        match (P.parse embeddedUrl (some assetUrl)).bind fun abs =>
            (toLocalAssetPathOfString P.parse rootOrigin abs.href).map fun lp => (abs, lp) with
        | some (abs, embeddedLocalPath) =>
          let embeddedFilePath := pathJoin outDir embeddedLocalPath
          match fetchEmbedded P w abs.href embeddedFilePath with
          | (w1, true) =>
            rewriteDownloadedCss P rootOrigin outDir assetUrl filePath fuel
              (jsReplace cssContent whole (relativeUrl P filePath embeddedFilePath)) next true w1
          | (w1, false) =>
            rewriteDownloadedCss P rootOrigin outDir assetUrl filePath fuel cssContent next
              cssModified w1
        | none =>
          rewriteDownloadedCss P rootOrigin outDir assetUrl filePath fuel cssContent next
            cssModified w
      else
        rewriteDownloadedCss P rootOrigin outDir assetUrl filePath fuel cssContent next
          cssModified w

/-- The task of the batch for one member of the discovery set (lines 213-277), run to its
end: the world afterwards.  Every exception is caught inside the task; `none` when the fuel is
used up. -/
def downloadTask (P : Platform) (rootOrigin outDir : Str) (fuel : Nat) (assetUrl : Str)
    (w : World) : Option World :=
  match P.parse assetUrl none with
  | none => some w
  | some u =>
    if u.protocol != "http:".toList && u.protocol != "https:".toList then some w
    else
      let w1 := w.request assetUrl
      match P.fetch assetUrl with
      | FetchResult.failed => some w1
      | FetchResult.status _ => some w1
      | FetchResult.ok body =>
        let filePath := pathJoin outDir (toLocalAssetPath rootOrigin u)
        match ensureDir P.cwd w1 (pathDirname filePath) with
        | none => some w1
        | some w2 =>
          match writeFileSync P.cwd w2 filePath (FileData.raw body) with
          | none => some w2
          | some w3 =>
            if isCssUrl assetUrl then
              match rewriteDownloadedCss P rootOrigin outDir assetUrl filePath fuel body 0
                  false w3 with
              | none => none
              | some (cssContent, cssModified, w4) =>
                if cssModified then
                  match writeFileSync P.cwd w4 filePath (FileData.raw cssContent) with
                  | none => some w4
                  | some w5 => some w5
                else some w4
            else some w3

/-- The batch `Promise.all([...assetSet].map(...))`, with the tasks run one after the other in
the order of the set.  The engine lets up to ten tasks overlap; a task touches the files of
its own asset and of the assets its stylesheet embeds and the list of requests, so the files
written do not depend on the overlap when these are distinct. -/
def downloadAll (P : Platform) (rootOrigin outDir : Str) (fuel : Nat) :
    List Str → World → Option World
  | [], w => some w
  | assetUrl :: rest, w =>
    match downloadTask P rootOrigin outDir fuel assetUrl w with
    | none => none
    | some w1 => downloadAll P rootOrigin outDir fuel rest w1

/-- The number of members of the discovery set that the batch downloads: those with an http
or https scheme whose request gives a success status and whose file is written. -/
def successfulDownloads (P : Platform) (rootOrigin outDir : Str) :
    List Str → World → Nat
  | [], _ => 0
  | assetUrl :: rest, w =>
    match P.parse assetUrl none, P.fetch assetUrl with
    | some u, FetchResult.ok _ =>
      (if (u.protocol == "http:".toList || u.protocol == "https:".toList) &&
          readFile P.cwd w (pathJoin outDir (toLocalAssetPath rootOrigin u)) != none
        then 1 else 0) + successfulDownloads P rootOrigin outDir rest w
    | _, _ => successfulDownloads P rootOrigin outDir rest w

/-! ## The function `cloneWebsiteLandingPage` (src/agent.js, lines 14-295) -/

/-- The reason of an `{ error }` result: the step whose exception reached the outer `catch`. -/
inductive Cause where
  /-- The argument is not a URL (line 16). -/
  | invalidUrl
  /-- A directory of the output tree could not be made (lines 21-30). -/
  | mkdir
  /-- The request for the page was rejected (line 81). -/
  | pageFetch
  /-- The page came with a status that is not a success (line 89). -/
  | pageStatus
  /-- An exception left markup rewriting (lines 97-207). -/
  | markup
  /-- The final document could not be written (line 283). -/
  | writeIndex
deriving DecidableEq, Repr

/-- The value `cloneWebsiteLandingPage` resolves to. -/
inductive CloneResult where
  /-- The record with `message`, `directory` and `assetsDownloaded` (lines 286-290); the
  message is determined by the directory and the URL. -/
  | success (directory : Str) (assetsDownloaded : Nat)
  /-- The record with `error` (line 293). -/
  | error (cause : Cause)
deriving DecidableEq, Repr

/-- The five calls of `ensureDir` of lines 21-30, in order. -/
def makeOutputTree (cwd : FsPath) (outDir : Str) (w : World) : Option World :=
  (ensureDir cwd w outDir).bind fun w1 =>
  (ensureDir cwd w1 (pathJoin outDir "images".toList)).bind fun w2 =>
  (ensureDir cwd w2 (pathJoin outDir "css".toList)).bind fun w3 =>
  (ensureDir cwd w3 (pathJoin outDir "js".toList)).bind fun w4 =>
  ensureDir cwd w4 (pathJoin outDir "external".toList)

/-- The steps of `cloneWebsiteLandingPage` after markup rewriting (lines 209-290). -/
def finishClone (P : Platform) (rootOrigin outDir : Str) (fuel : Nat) (html : Str)
    (doc : Document) (assetSet : List Str) (w : World) : Option (CloneResult × World) :=
  match downloadAll P rootOrigin outDir fuel assetSet w with
  | none => none
  | some w1 =>
    match writeFileSync P.cwd w1 (pathJoin outDir "index.html".toList)
      (FileData.rendered html doc) with
    | none => some (CloneResult.error Cause.writeIndex, w1)
    | some w2 => some (CloneResult.success outDir assetSet.length, w2)

/-- The function `cloneWebsiteLandingPage`: the value it resolves to and the world it leaves;
`none` when the fuel is used up. -/
def cloneWebsiteLandingPage (P : Platform) (fuel : Nat) (url : Str) (w : World) :
    Option (CloneResult × World) :=
  match P.parse url none with
  | none => some (CloneResult.error Cause.invalidUrl, w)
  | some root =>
    let outDir := "./cloned-".toList ++ root.hostname
    match makeOutputTree P.cwd outDir w with
    | none => some (CloneResult.error Cause.mkdir, w)
    | some w1 =>
      let w2 := w1.request url
      match P.fetch url with
      | FetchResult.failed => some (CloneResult.error Cause.pageFetch, w2)
      | FetchResult.status _ => some (CloneResult.error Cause.pageStatus, w2)
      | FetchResult.ok html =>
        match rewriteMarkup P.parse url root.origin fuel (P.load html) with
        | Run.loops => none
        | Run.thrown => some (CloneResult.error Cause.markup, w2)
        | Run.done (doc, assetSet) => finishClone P root.origin outDir fuel html doc assetSet w2

/-! ## Concrete URLs used as inputs below -/

/-- The target origin of the examples: the origin of `https://example.com/`. -/
def exampleOrigin : Str := "https://example.com".toList

/-- The getters of `new URL("mailto:a@b.c")`. -/
def mailtoUrl : URL :=
  { href := "mailto:a@b.c".toList, protocol := "mailto:".toList, hostname := [],
    pathname := "a@b.c".toList, search := [], origin := "null".toList }

/-- The getters of `new URL("https://example.com/a=b&c?x=1")`. -/
def equalsInPathUrl : URL :=
  { href := "https://example.com/a=b&c?x=1".toList, protocol := "https:".toList,
    hostname := "example.com".toList, pathname := "/a=b&c".toList, search := "?x=1".toList,
    origin := "https://example.com".toList }

/-- The getters of `new URL("https://example.com/x?a=b")`. -/
def queryEqUrl : URL :=
  { href := "https://example.com/x?a=b".toList, protocol := "https:".toList,
    hostname := "example.com".toList, pathname := "/x".toList, search := "?a=b".toList,
    origin := "https://example.com".toList }

/-- The getters of `new URL("https://example.com/x?a&b")`. -/
def queryAmpUrl : URL :=
  { href := "https://example.com/x?a&b".toList, protocol := "https:".toList,
    hostname := "example.com".toList, pathname := "/x".toList, search := "?a&b".toList,
    origin := "https://example.com".toList }

/-- The getters of `new URL("https://example.com/x?a=c")`. -/
def queryEqOtherUrl : URL :=
  { href := "https://example.com/x?a=c".toList, protocol := "https:".toList,
    hostname := "example.com".toList, pathname := "/x".toList, search := "?a=c".toList,
    origin := "https://example.com".toList }

/-- The getters of `new URL("https://cdn.example.com/app.css?v=1")`. -/
def cdnQueryUrl : URL :=
  { href := "https://cdn.example.com/app.css?v=1".toList, protocol := "https:".toList,
    hostname := "cdn.example.com".toList, pathname := "/app.css".toList,
    search := "?v=1".toList, origin := "https://cdn.example.com".toList }

/-! ## Scenarios used as inputs below -/

/-- The target page of the scenarios. -/
def examplePage : Str := "https://example.com/".toList

/-- The output directory of a session on `examplePage`. -/
def exampleOutDir : Str := "./cloned-example.com".toList

/-- An `img` element with a `src` attribute only. -/
def imgWithSrc (src : Str) : Img :=
  { src := some src, dataSrc := none, dataLazySrc := none, srcset := none }

/-- The image-proxy reference of the proxy-unwrapping property. -/
def proxyRef : Str := "/_next/image?url=https%3A%2F%2Fcdn.example.com%2Fa.png&w=640".toList

/-- The getters of `new URL("https://cdn.example.com/a.png")`. -/
def cdnImageUrl : URL :=
  { href := "https://cdn.example.com/a.png".toList, protocol := "https:".toList,
    hostname := "cdn.example.com".toList, pathname := "/a.png".toList, search := [],
    origin := "https://cdn.example.com".toList }

/-- The document of the first scenario: `<img src="/logo.png">`,
`<link href="https://cdn.example.com/app.css">` and an inline style. -/
def scenarioDoc : Document :=
  { imgs := [imgWithSrc "/logo.png".toList]
    links := ["https://cdn.example.com/app.css".toList]
    scripts := []
    styles := ["body\x7bbackground:url(\x27/bg.jpg\x27)\x7d".toList] }

/-- The document of the first scenario after markup rewriting. -/
def scenarioDocRewritten : Document :=
  { imgs := [imgWithSrc "logo.png".toList]
    links := ["external/cdn.example.com/app.css".toList]
    scripts := []
    styles := ["body\x7bbackground:url(\x22bg.jpg\x22)\x7d".toList] }

/-- The discovery set of the first scenario. -/
def scenarioSet : List Str :=
  ["https://example.com/logo.png".toList, "https://cdn.example.com/app.css".toList,
   "https://example.com/bg.jpg".toList]

/-- A document whose image and whose inline style reference the same resource, spelled
`/a.png` and `a.png`. -/
def sharedRefDoc : Document :=
  { imgs := [imgWithSrc "/a.png".toList]
    links := []
    scripts := []
    styles := ["p\x7bbackground:url(a.png)\x7d".toList] }

/-- The references found by reading a text from left to right with the `url(...)` pattern,
each match starting after the end of the one before.  The first argument counts the
characters of the current match still to be passed. -/
def urlRefsAux : Nat → Str → List Str
  | _, [] => []
  | skip + 1, _ :: cs => urlRefsAux skip cs
  | 0, c :: cs =>
    match matchUrlToken (c :: cs) with
    | some (whole, group2) => group2 :: urlRefsAux (whole.length - 1) cs
    | none => urlRefsAux 0 cs

/-- A reference that is neither empty nor inline data. -/
def isRemoteRef (v : Str) : Bool := !(v.isEmpty || startsWith v "data:".toList)


/-- The number M of the discovery-completeness property: the distinct `url()` references of
the inline style blocks that are neither inline data nor anchors. -/
def inlineUrlCount (doc : Document) : Nat :=
  ((doc.styles.flatMap (urlRefsAux 0)).filter fun v =>
    !(startsWith v "data:".toList || startsWith v "#".toList)).dedup.length

/-- The world before a session: an empty working directory `/work`. -/
def emptyWorld : World := { files := [], dirs := [["work".toList]], requests := [] }

/-- The stylesheet of the second scenario and its text. -/
def sheetUrl : Str := "https://cdn.example.com/css/app.css".toList

/-- The text of the stylesheet of the second scenario. -/
def sheetText : Str := "@font-face\x7bsrc:url(\x22fonts/a.woff2\x22)\x7d".toList

/-- The font the stylesheet of the second scenario refers to. -/
def fontUrl : Str := "https://cdn.example.com/css/fonts/a.woff2".toList

/-- The page text of the second scenario. -/
def sheetPageText : Str := "<link rel=stylesheet href=https://cdn.example.com/css/app.css>".toList

/-- The document of the second scenario: one link to the stylesheet. -/
def sheetDoc : Document := { imgs := [], links := [sheetUrl], scripts := [], styles := [] }

/-- The network of the second scenario: the page, the stylesheet and the font are served,
every other request is answered with status 404. -/
def sheetNet (u : Str) : FetchResult :=
  if u = examplePage then FetchResult.ok sheetPageText
  else if u = sheetUrl then FetchResult.ok sheetText
  else if u = fontUrl then FetchResult.ok "FONT".toList
  else FetchResult.status 404

/-- The environment of the second scenario. -/
def sheetPlatform : Platform :=
  { parse := parseURL, fetch := sheetNet, cwd := ["work".toList], load := fun _ => sheetDoc }

/-- The location of a path below the output directory of the scenarios. -/
def inOutDir (rel : List String) : FsPath :=
  ["work".toList, "cloned-example.com".toList] ++ rel.map String.toList

/-- The page text of the partial-failure scenario. -/
def logoPageText : Str := "<img src=/logo.png>".toList

/-- The network of the partial-failure scenario: the page is served, every other request is
answered with status 404. -/
def logoNet (u : Str) : FetchResult :=
  if u = examplePage then FetchResult.ok logoPageText else FetchResult.status 404

/-- The environment of the partial-failure scenario: the page holds `<img src="/logo.png">`. -/
def logoPlatform : Platform :=
  { parse := parseURL, fetch := logoNet, cwd := ["work".toList],
    load := fun _ => { imgs := [imgWithSrc "/logo.png".toList], links := [], scripts := [],
                       styles := [] } }

/-! ## The function `fixHtmlAssets` (src/agent.js, lines 297-340) -/

/-- The replacement `.replace(/\/+/g, '/')`: every run of slashes becomes one slash.  The
flag tells that the character before the input was a slash. -/
def collapseSlashesAux : Bool → Str → Str
  | _, [] => []
  | prev, c :: cs =>
    if c = '/' then
      if prev then collapseSlashesAux true cs else '/' :: collapseSlashesAux true cs
    else c :: collapseSlashesAux false cs

/-- The replacement `.replace(/\/+/g, '/')` on a whole string. -/
def collapseSlashes (s : Str) : Str := collapseSlashesAux false s

/-- The replacement `.replace(/^\//, '')`: one leading slash is removed. -/
def stripOneSlash : Str → Str
  | [] => []
  | c :: cs => if c = '/' then cs else c :: cs

/-- The guard of the three callbacks: the value is not empty and begins with none of `http`,
`//` and `data:`. -/
def needsCleaning (v : Str) : Bool :=
  !v.isEmpty && !startsWith v "http".toList && !startsWith v "//".toList &&
    !startsWith v "data:".toList

/-- The body shared by the three callbacks of `fixHtmlAssets`, on the value of the attribute
(`none` when it is absent): the value of the attribute afterwards. -/
def cleanRef (v : Option Str) : Option Str :=
  match v with
  | none => none
  | some s => if needsCleaning s then some (stripOneSlash (collapseSlashes s)) else some s

/-- The attributes of a mirrored document that `fixHtmlAssets` reads and writes. -/
structure MirrorDoc where
  /-- The attribute `src` of the elements matched by `img`. -/
  imgSrcs : List (Option Str)
  /-- The attribute `href` of the elements matched by `link[rel="stylesheet"]`. -/
  stylesheetHrefs : List (Option Str)
  /-- The attribute `src` of the elements matched by `script[src]`. -/
  scriptSrcs : List (Option Str)
deriving DecidableEq, Repr

/-- The three passes of `fixHtmlAssets` (lines 313-336) on the loaded document. -/
def fixHtmlAssetsDoc (d : MirrorDoc) : MirrorDoc :=
  { imgSrcs := d.imgSrcs.map cleanRef
    stylesheetHrefs := d.stylesheetHrefs.map cleanRef
    scriptSrcs := d.scriptSrcs.map cleanRef }

/-- A string without two slashes in a row. -/
def noDoubleSlash : Str → Bool
  | a :: b :: t => !(a == '/' && b == '/') && noDoubleSlash (b :: t)
  | _ => true

/-! ## Scenarios of the download batch and of the rewriting loops -/

/-- The environment of the repeated-request scenario: the page links the stylesheet
`https://cdn.example.com/css/app.css` and then, as a second link, the font
`https://cdn.example.com/css/fonts/a.woff2` that the stylesheet refers to; all three are
served. -/
def preloadPlatform : Platform :=
  { parse := parseURL, fetch := sheetNet, cwd := ["work".toList],
    load := fun _ => { imgs := [], links := [sheetUrl, fontUrl], scripts := [], styles := [] } }

/-- A style text with two references: an absolute one and, after it, `/b.png`. -/
def twoRefsCss : Str :=
  ".a\x7bbackground:url(https://example.com/images/a.png)\x7d .b\x7bbackground:url(/b.png)\x7d".toList

/-- The text `twoRefsCss` after the inline style pass. -/
def twoRefsCssRewritten : Str :=
  ".a\x7bbackground:url(\x22images/a.png\x22)\x7d .b\x7bbackground:url(/b.png)\x7d".toList

/-- An `img` element with a `srcset` attribute only. -/
def imgWithSrcset (srcset : Str) : Img :=
  { src := none, dataSrc := none, dataLazySrc := none, srcset := some srcset }

/-- A proxy reference whose upstream `https://` is not a URL. -/
def badProxyRef : Str := "/_next/image?url=https%3A%2F%2F&w=1".toList

/-- The environment of the undecodable-proxy scenario in a `srcset`: the page holds
`<img srcset="/_next/image?url=https%3A%2F%2F&w=1 1x">`. -/
def badSrcsetPlatform : Platform :=
  { parse := parseURL, fetch := logoNet, cwd := ["work".toList],
    load := fun _ => { imgs := [imgWithSrcset (badProxyRef ++ " 1x".toList)], links := [],
                       scripts := [], styles := [] } }

/-- The environment of the undecodable-proxy scenario in a `src`: the page holds
`<img src="/_next/image?url=https%3A%2F%2F&w=1">`. -/
def badSrcPlatform : Platform :=
  { parse := parseURL, fetch := logoNet, cwd := ["work".toList],
    load := fun _ => { imgs := [imgWithSrc badProxyRef], links := [], scripts := [],
                       styles := [] } }

/-- A proxy reference whose `url` parameter is not the first parameter. -/
def lateUrlProxyRef : Str := "/_next/image?w=640&url=%2Fa.png".toList

/-- The base URL of the non-terminating scenario: a page in the directory `/a/url(b)/`. -/
def loopBase : Str := "https://example.com/a/url(b)/".toList

/-- The text `url("a/`, which each turn of the non-terminating loop puts before the token. -/
def loopUnit : Str := "url(\x22a/".toList

/-- The token `url(b)` that each turn of the non-terminating loop finds again. -/
def loopToken : Str := "url(b)".toList

/-- The text that is `k` copies of `loopUnit`. -/
def loopUnits : Nat → Str
  | 0 => []
  | k + 1 => loopUnit ++ loopUnits k

/-! ## Names for two values of the `srcset` callback -/

/-- The value `fixedUrl` of the `srcset` callback (lines 134-146) for the candidate URL `u`. -/
def srcsetFixedUrl (u : Str) : Str :=
  if includes u "/_next/image?url=".toList then
    match proxyUpstream u with
    | some realUrl => if realUrl.isEmpty then u else realUrl
    | none => u
  else u

/-- The text `descriptor ? " " + descriptor : ""` of line 151; `none` is `undefined`. -/
def descriptorSuffix (descriptor : Option Str) : Str :=
  match descriptor with
  | some d => if d.isEmpty then [] else ' ' :: d
  | none => []

/-! ## The references that the rewriters resolve

Each rewriter first decides, from the text of a reference alone, whether it goes on to
resolve something and what; the functions below are those decisions, read off the source,
with `none` for a reference that the rewriter leaves as it is without resolving anything. -/

/-- The string that the loop over `src`, `data-src` and `data-lazy-src` passes to `new URL`
for a value `v` of the attribute (lines 103-123): nothing for an empty value or a value that
begins with `data:` (line 103); for a value that holds `/_next/image` and `url=` the
parameter `url` of its query, and nothing when that parameter is missing or empty (lines
106-110); the value itself otherwise (line 120). -/
def imgAttrTarget (v : Str) : Option Str :=
  if v.isEmpty || startsWith v "data:".toList then none
  else if includes v "/_next/image".toList && includes v "url=".toList then
    match proxyUpstream v with
    | none => none
    | some realUrl => if realUrl.isEmpty then none else some realUrl
  else some v

/-- The string that the `srcset` callback passes to `new URL` for an entry (lines 131-148):
nothing for an entry without a URL token (line 132), else the value `fixedUrl`. -/
def candidateTarget (entry : Str) : Option Str :=
  let u := (splitWs (jsTrim entry)).headD []
  if u.isEmpty then none else some (srcsetFixedUrl u)

/-- The string that the callbacks of `link[href]` and `script[src]` pass to `new URL` (lines
165-167 and 178-180): nothing for an empty value or a value that begins with `data:`, else
the value. -/
def refTarget (ref : Str) : Option Str :=
  if ref.isEmpty || startsWith ref "data:".toList then none else some ref

/-- The string that the loops over a style text pass to `new URL` for the second group of a
match (lines 193-196 and 244-247): the group without the white space around it, and nothing
when that begins with `data:` or `#`. -/
def cssTarget (group2 : Str) : Option Str :=
  if !startsWith (jsTrim group2) "data:".toList && !startsWith (jsTrim group2) "#".toList then
    some (jsTrim group2)
  else none

/-- The absolute URL `abs.href` of `abs = new URL(t, base)`, when `t` resolves against the
base and `toLocalAssetPath(abs.href)`, which parses `abs.href` once more, does not throw. -/
def resolveHref (parse : Str → Option Str → Option URL) (base t : Str) : Option Str :=
  match parse t (some base) with
  | none => none
  | some abs =>
    match parse abs.href none with
    | none => none
    | some _ => some abs.href

/-- The absolute URL that a value of `src`, `data-src` or `data-lazy-src` stands for, if any;
`none` as the value is an absent attribute. -/
def imgAttrUrl (parse : Str → Option Str → Option URL) (url : Str) (val : Option Str) :
    Option Str :=
  (val.bind imgAttrTarget).bind (resolveHref parse url)

/-- The absolute URLs that the candidates of a `srcset` value stand for, in order. -/
def srcsetUrls (parse : Str → Option Str → Option URL) (url : Str) (srcset : Option Str) :
    List Str :=
  match srcset with
  | none => []
  | some s =>
    (splitOnChar ',' s).flatMap fun entry =>
      ((candidateTarget entry).bind (resolveHref parse url)).toList

/-- The absolute URLs that the references of one `img` element stand for, in the order in
which the callback visits them. -/
def imgUrls (parse : Str → Option Str → Option URL) (url : Str) (img : Img) : List Str :=
  (imgAttrUrl parse url img.src).toList ++ (imgAttrUrl parse url img.dataSrc).toList ++
    (imgAttrUrl parse url img.dataLazySrc).toList ++ srcsetUrls parse url img.srcset

/-- The absolute URL that a value of `href` of a link or of `src` of a script stands for. -/
def refUrl (parse : Str → Option Str → Option URL) (url : Str) (ref : Str) : Option Str :=
  (refTarget ref).bind (resolveHref parse url)

/-- The absolute URLs that the image, link and script references of a document stand for:
the images first, then the links, then the scripts, each kind in document order. -/
def attributeUrls (parse : Str → Option Str → Option URL) (url : Str) (doc : Document) :
    List Str :=
  (doc.imgs.flatMap (imgUrls parse url) ++
    doc.links.flatMap fun ref => (refUrl parse url ref).toList) ++
    doc.scripts.flatMap fun ref => (refUrl parse url ref).toList

/-- The URL tokens of the candidates of a `srcset` value. -/
def srcsetCandidates (srcset : Option Str) : List Str :=
  match srcset with
  | none => []
  | some s => (splitOnChar ',' s).map fun entry => (splitWs (jsTrim entry)).headD []

/-- The number N of the discovery-completeness property: the distinct remote references in
the source attributes of the images, among the candidates of their `srcset` values, in the
link references and in the script sources. -/
def remoteRefCount (doc : Document) : Nat :=
  (((doc.imgs.flatMap fun i => i.src.toList ++ i.dataSrc.toList ++ i.dataLazySrc.toList ++
      srcsetCandidates i.srcset) ++
    doc.links ++ doc.scripts).filter isRemoteRef).dedup.length

/-- A document with one image (`src`, a proxy reference in `data-lazy-src`, two `srcset`
candidates), one link, one script and one inline style; the image `/a.png` is referred to
three times. -/
def mixedDoc : Document :=
  { imgs := [{ src := some "/a.png".toList, dataSrc := none, dataLazySrc := some proxyRef,
               srcset := some "/a.png 1x, /b.png 2x".toList }]
    links := ["https://cdn.example.com/app.css".toList]
    scripts := ["/app.js".toList]
    styles := ["p\x7bbackground:url(a.png)\x7d".toList] }

/-- The document `mixedDoc` after markup rewriting on the page `https://example.com/`. -/
def mixedDocRewritten : Document :=
  { imgs := [{ src := some "a.png".toList, dataSrc := none,
               dataLazySrc := some "external/cdn.example.com/a.png".toList,
               srcset := some "a.png 1x, b.png 2x".toList }]
    links := ["external/cdn.example.com/app.css".toList]
    scripts := ["app.js".toList]
    styles := ["p\x7bbackground:url(\x22a.png\x22)\x7d".toList] }

/-- The discovery set of `mixedDoc` on the page `https://example.com/`. -/
def mixedSet : List Str :=
  ["https://example.com/a.png".toList, "https://cdn.example.com/a.png".toList,
   "https://example.com/b.png".toList, "https://cdn.example.com/app.css".toList,
   "https://example.com/app.js".toList]

/-- The getters of `new URL("https://example.com/a.png")`. -/
def pngAUrl : URL :=
  { href := "https://example.com/a.png".toList, protocol := "https:".toList,
    hostname := "example.com".toList, pathname := "/a.png".toList, search := [],
    origin := "https://example.com".toList }

/-- The getters of `new URL("data:text/css,x")`, which `DATA:text/css,x` parses to. -/
def upperDataUrl : URL :=
  { href := "data:text/css,x".toList, protocol := "data:".toList, hostname := [],
    pathname := "text/css,x".toList, search := [], origin := "null".toList }

/-- An inline style whose reference is a `mailto:` URL. -/
def mailtoCss : Str := "a\x7bb:url(mailto:a@b.c)\x7d".toList

/-- The getters of `new URL("b", "https://example.com/a/url(b)/")`. -/
def loopUrlB : URL :=
  { href := "https://example.com/a/url(b)/b".toList, protocol := "https:".toList,
    hostname := "example.com".toList, pathname := "/a/url(b)/b".toList, search := [],
    origin := "https://example.com".toList }

/-- The getters of `new URL("x", "https://example.com/a/url(b)/")`. -/
def loopUrlX : URL :=
  { href := "https://example.com/a/url(b)/x".toList, protocol := "https:".toList,
    hostname := "example.com".toList, pathname := "/a/url(b)/x".toList, search := [],
    origin := "https://example.com".toList }

/-! ## The function `retryWithBackoff` (src/agent.js, lines 352-372) -/

/-- The value a call of `func` rejects with: an `Error` object, whose `message` is a string,
with the numeric `status` it may carry (`none` when it has none). -/
structure JsError where
  /-- The property `status`, when it is a number. -/
  status : Option Nat
  /-- The property `message`. -/
  message : Str
deriving DecidableEq, Repr

/-- The method `String.prototype.toLowerCase` on the letters A to Z.  The only other
characters whose lower case holds a letter of the text `rate limit` are followed, once lowered,
by a combining mark, so the test of line 361 gives the same answer with this model. -/
def toLowerCase (s : Str) : Str := s.map Char.toLower

/-- The condition of lines 358-362: the error counts as a rate-limit error. -/
def isRateLimitError (e : JsError) : Bool :=
  e.status == some 429 || includes e.message "429".toList ||
    includes (toLowerCase e.message) "rate limit".toList

/-- What awaiting one call of `func` gives. -/
inductive CallOutcome (α : Type) where
  /-- The promise is fulfilled with a value. -/
  | ok : α → CallOutcome α
  /-- The promise is rejected with an error. -/
  | fails : JsError → CallOutcome α
deriving DecidableEq, Repr

/-- How a run of `retryWithBackoff` ends. -/
inductive RetryEnd (α : Type) where
  /-- The statement `return result` of line 356. -/
  | returned : α → RetryEnd α
  /-- The statement `throw error` of line 367. -/
  | rethrown : JsError → RetryEnd α
  /-- The statement `throw new Error(...)` of line 371, whose message is
  `failedMessage maxRetries`. -/
  | exhausted : RetryEnd α
deriving DecidableEq, Repr

/-- The message of the error of line 371. -/
def failedMessage (maxRetries : Nat) : Str :=
  "Failed after ".toList ++ (Nat.repr maxRetries).toList ++
    " retries due to rate limits.".toList

/-- What a run of `retryWithBackoff` does that a caller can observe, in order. -/
inductive RetryEvent where
  /-- The call `func()` of line 355 in the turn whose `attempt` is given. -/
  | call : Nat → RetryEvent
  /-- The timer of line 365, awaited to its end; the argument is `delay`, in seconds. -/
  | wait : ℚ → RetryEvent
deriving DecidableEq, Repr

/-- A run of `retryWithBackoff`: how it ends, and the calls of `func` and the timers awaited,
in the order in which they happened. -/
structure RetryRun (α : Type) where
  /-- The way the run ends. -/
  outcome : RetryEnd α
  /-- The calls and the timers, oldest first. -/
  events : List RetryEvent
deriving DecidableEq, Repr

/-- The number of calls of `func` in a run. -/
def RetryRun.calls {α : Type} (r : RetryRun α) : Nat :=
  (r.events.filter fun e => match e with
    | RetryEvent.call _ => true
    | RetryEvent.wait _ => false).length

/-- The delays of the timers awaited in a run, oldest first. -/
def RetryRun.waits {α : Type} (r : RetryRun α) : List ℚ :=
  r.events.filterMap fun e => match e with
    | RetryEvent.call _ => none
    | RetryEvent.wait d => some d

/-- The value `delay` of line 363 for a given `attempt`; `random attempt` is the value of
`Math.random()` in that turn. -/
def backoffDelay (baseDelay : ℚ) (random : Nat → ℚ) (attempt : Nat) : ℚ :=
  baseDelay * 2 ^ attempt + random attempt

/-- The `for` loop of `retryWithBackoff` from a given value of `attempt`: the first argument
is the number of turns left, `maxRetries - attempt`, the last one what has happened so far.
The call of `func` made in turn `k` gives `func k`. -/
def retryLoop {α : Type} (func : Nat → CallOutcome α) (random : Nat → ℚ) (baseDelay : ℚ) :
    Nat → Nat → List RetryEvent → RetryRun α
  | 0, _, events => { outcome := RetryEnd.exhausted, events := events }
  | left + 1, attempt, events =>
    match func attempt with
    | CallOutcome.ok result =>
      { outcome := RetryEnd.returned result, events := events ++ [RetryEvent.call attempt] }
    | CallOutcome.fails error =>
      if isRateLimitError error then
        retryLoop func random baseDelay left (attempt + 1)
          (events ++ [RetryEvent.call attempt,
            RetryEvent.wait (backoffDelay baseDelay random attempt)])
      else { outcome := RetryEnd.rethrown error, events := events ++ [RetryEvent.call attempt] }

/-- The function `retryWithBackoff(func, maxRetries, baseDelay)`. -/
def retryWithBackoff {α : Type} (func : Nat → CallOutcome α) (random : Nat → ℚ)
    (maxRetries : Nat) (baseDelay : ℚ) : RetryRun α :=
  retryLoop func random baseDelay maxRetries 0 []

/-- Every call before call `k`, from call `start` on, is rejected with a rate-limit error. -/
def AllRateLimited {α : Type} (func : Nat → CallOutcome α) (start k : Nat) : Prop :=
  ∀ i, start ≤ i → i < k → ∃ e, func i = CallOutcome.fails e ∧ isRateLimitError e = true

/-- The calls `0, ..., m - 1`, each followed by the timer of its turn. -/
def retryTrace (baseDelay : ℚ) (random : Nat → ℚ) : Nat → List RetryEvent
  | 0 => []
  | m + 1 => retryTrace baseDelay random m ++
      [RetryEvent.call m, RetryEvent.wait (backoffDelay baseDelay random m)]

/-- A caller whose first call is rejected with status 429 and whose second call succeeds. -/
def flakyFunc : Nat → CallOutcome Str
  | 0 => CallOutcome.fails { status := some 429, message := "Too Many Requests".toList }
  | _ => CallOutcome.ok "done".toList

/-- The constant `1/2` as the values of `Math.random()`. -/
def halfRandom : Nat → ℚ := fun _ => 1 / 2

/-! # Theorems -/

/-! ## Lemmas on the string helpers -/

theorem stripLeadingSlashes_cons_ne (c : Char) (s : Str) (h : c ≠ '/') :
    stripLeadingSlashes (c :: s) = c :: s := by
  simp [stripLeadingSlashes, List.dropWhile_cons, h]

theorem stripLeadingSlashes_external (s : Str) :
    stripLeadingSlashes ("external/".toList ++ s) = "external/".toList ++ s := by
  have h : "external/".toList = 'e' :: "xternal/".toList := by decide
  rw [h, List.cons_append]
  exact stripLeadingSlashes_cons_ne _ _ (by decide)

theorem stripLeadingSlashes_append (p q : Str) (hq : q.head? ≠ some '/') :
    stripLeadingSlashes (p ++ q) = stripLeadingSlashes p ++ q := by
  induction p with
  | nil =>
    cases q with
    | nil => rfl
    | cons c t =>
      have hc : c ≠ '/' := by simpa using hq
      simp [stripLeadingSlashes, List.dropWhile_cons, hc]
  | cons c t ih =>
    by_cases hc : c = '/'
    · subst hc
      simpa [stripLeadingSlashes, List.dropWhile_cons] using ih
    · simp [stripLeadingSlashes, List.dropWhile_cons, hc]

theorem stripLeadingSlashes_suffix (s : Str) : stripLeadingSlashes s <:+ s :=
  List.dropWhile_suffix _

theorem sanitizeChar_ne (c d : Char) (hd : d = '?' ∨ d = '&' ∨ d = '=') :
    sanitizeChar c ≠ d := by
  unfold sanitizeChar
  split
  · rcases hd with h | h | h <;> subst h <;> decide
  · rename_i hc
    intro h
    exact hc (h ▸ hd)

theorem not_mem_safeQueryOf (search : Str) (d : Char) (hd : d = '?' ∨ d = '&' ∨ d = '=') :
    d ∉ safeQueryOf search := by
  intro hmem
  have h1 : d ∈ search.map sanitizeChar := List.mem_of_mem_take hmem
  obtain ⟨c, -, hc⟩ := List.mem_map.mp h1
  exact sanitizeChar_ne c d hd hc

theorem safeQueryOf_head (search : Str) (h : search = [] ∨ search.head? = some '?') :
    (safeQueryOf search).head? ≠ some '/' := by
  rcases h with h | h
  · subst h
    simp [safeQueryOf]
  · cases search with
    | nil => simp at h
    | cons c t =>
      have hc : c = '?' := by simpa using h
      subst hc
      simp [safeQueryOf, sanitizeChar]

/-- The value of `finalPath` is the path name followed by `safeQuery`, which is empty when
the query is. -/
theorem toLocalAssetPath_eq (rootOrigin : Str) (u : URL) :
    toLocalAssetPath rootOrigin u =
      if u.origin ≠ rootOrigin then
        "external/".toList ++ u.hostname ++ (u.pathname ++ safeQueryOf u.search)
      else stripLeadingSlashes (u.pathname ++ safeQueryOf u.search) := by
  have hfp : (if u.search ≠ [] then u.pathname ++ safeQueryOf u.search else u.pathname)
      = u.pathname ++ safeQueryOf u.search := by
    by_cases hs : u.search = []
    · simp [hs, safeQueryOf]
    · simp [hs]
  unfold toLocalAssetPath
  simp only [hfp]
  by_cases ho : u.origin = rootOrigin
  · simp [ho]
  · simp only [ho, ne_eq, not_false_eq_true, if_true, List.append_assoc]
    exact stripLeadingSlashes_external _

/-! ## C1: origin segregation -/

/-- C1, as amended: for every URL whose path name begins with a slash (every http and https
URL) and whose origin differs from the target origin, the local path starts with
`external/`, the host name and a slash. -/
theorem toLocalAssetPath_external_prefix (rootOrigin : Str) (u : URL)
    (hOrigin : u.origin ≠ rootOrigin) (hPath : u.pathname.head? = some '/') :
    ("external/".toList ++ u.hostname ++ ['/']) <+: toLocalAssetPath rootOrigin u := by
  rw [toLocalAssetPath_eq]
  simp only [hOrigin, ne_eq, not_false_eq_true, if_true]
  cases hp : u.pathname with
  | nil => simp [hp] at hPath
  | cons c t =>
    have hc : c = '/' := by simpa [hp] using hPath
    subst hc
    exact ⟨t ++ safeQueryOf u.search, by simp⟩

/-- Witness of C1 as amended: the stylesheet `https://cdn.example.com/app.css?v=1` seen from
the target `https://example.com`. -/
theorem toLocalAssetPath_external_prefix_witness :
    cdnQueryUrl.origin ≠ exampleOrigin ∧ cdnQueryUrl.pathname.head? = some '/' ∧
    ("external/".toList ++ cdnQueryUrl.hostname ++ ['/']) <+:
      toLocalAssetPath exampleOrigin cdnQueryUrl :=
  ⟨by decide, by decide,
    toLocalAssetPath_external_prefix exampleOrigin cdnQueryUrl (by decide) (by decide)⟩

/-- C1 as stated fails: `mailto:a@b.c` is an absolute URL of another origin than the target,
its host name is empty, and its local path `external/a@b.c` does not start with
`external//`. -/
theorem toLocalAssetPath_external_prefix_fails_mailto :
    parseURL "mailto:a@b.c".toList none = some mailtoUrl ∧
    mailtoUrl.origin ≠ exampleOrigin ∧
    toLocalAssetPath exampleOrigin mailtoUrl = "external/a@b.c".toList ∧
    ¬ (("external/".toList ++ mailtoUrl.hostname ++ ['/']) <+:
      toLocalAssetPath exampleOrigin mailtoUrl) := by
  refine ⟨by decide, by decide, by decide, ?_⟩
  rw [← List.isPrefixOf_iff_prefix]
  decide

/-! ## C2: traversal through the query string -/

/-- C2, the code at the failing input: the asset URL `https://example.com/a?/../../../x` of
the target `https://example.com/` is given the local path `a_/../../../x`, which `path.join`
resolves from the output root `./cloned-example.com` to `../x`, outside that root. -/
theorem toLocalAssetPath_query_escapes_root :
    (parseURL "https://example.com/a?/../../../x".toList none).map
        (toLocalAssetPath exampleOrigin) = some "a_/../../../x".toList ∧
    pathJoin "./cloned-example.com".toList "a_/../../../x".toList = "../x".toList := by
  constructor <;> decide

/-! ## C3: query safety -/

/-- C3, as amended: for a URL whose query begins with a question mark, the local path is a
part that comes from the host name and the path name, followed by `safeQuery`; `safeQuery`
holds none of the three characters, and the whole local path holds none of them when the
path name and the host name hold none. -/
theorem toLocalAssetPath_query_safe (rootOrigin : Str) (u : URL)
    (hq : u.search.head? = some '?') (d : Char) (hd : d = '?' ∨ d = '&' ∨ d = '=') :
    (∃ pre, toLocalAssetPath rootOrigin u = pre ++ safeQueryOf u.search ∧
        pre <:+ "external/".toList ++ u.hostname ++ u.pathname) ∧
    d ∉ safeQueryOf u.search ∧
    (d ∉ u.pathname → d ∉ u.hostname → d ∉ toLocalAssetPath rootOrigin u) := by
  have hsq := not_mem_safeQueryOf u.search d hd
  have hdec : ∃ pre, toLocalAssetPath rootOrigin u = pre ++ safeQueryOf u.search ∧
      pre <:+ "external/".toList ++ u.hostname ++ u.pathname := by
    rw [toLocalAssetPath_eq]
    by_cases ho : u.origin = rootOrigin
    · refine ⟨stripLeadingSlashes u.pathname, ?_, ?_⟩
      · simp only [ho, ne_eq, not_true_eq_false, if_false]
        exact stripLeadingSlashes_append _ _ (safeQueryOf_head _ (Or.inr hq))
      · exact (stripLeadingSlashes_suffix _).trans (List.suffix_append _ _)
    · refine ⟨"external/".toList ++ u.hostname ++ u.pathname, ?_, List.suffix_refl _⟩
      simp [ho]
  refine ⟨hdec, hsq, ?_⟩
  intro hp hh hmem
  obtain ⟨pre, hpre, hsuf⟩ := hdec
  rw [hpre, List.mem_append] at hmem
  rcases hmem with hm | hm
  · have h2 := hsuf.subset hm
    rw [List.mem_append, List.mem_append] at h2
    rcases h2 with (h3 | h3) | h3
    · have : d ∉ "external/".toList := by
        rcases hd with h | h | h <;> subst h <;> decide
      exact this h3
    · exact hh h3
    · exact hp h3
  · exact hsq hm

/-- Witness of C3 as amended: `https://cdn.example.com/app.css?v=1` and the equals sign. -/
theorem toLocalAssetPath_query_safe_witness :
    cdnQueryUrl.search.head? = some '?' ∧
    ((∃ pre, toLocalAssetPath exampleOrigin cdnQueryUrl = pre ++ safeQueryOf cdnQueryUrl.search ∧
        pre <:+ "external/".toList ++ cdnQueryUrl.hostname ++ cdnQueryUrl.pathname) ∧
      '=' ∉ safeQueryOf cdnQueryUrl.search ∧
      ('=' ∉ cdnQueryUrl.pathname → '=' ∉ cdnQueryUrl.hostname →
        '=' ∉ toLocalAssetPath exampleOrigin cdnQueryUrl)) :=
  ⟨by decide,
    toLocalAssetPath_query_safe exampleOrigin cdnQueryUrl (by decide) '=' (Or.inr (Or.inr rfl))⟩

/-- C3 as stated fails: `https://example.com/a=b&c?x=1` has a non-empty query and its local
path `a=b&c_x_1` holds an equals sign and an ampersand, both from the path name. -/
theorem toLocalAssetPath_query_safe_fails_pathname :
    parseURL "https://example.com/a=b&c?x=1".toList none = some equalsInPathUrl ∧
    equalsInPathUrl.search ≠ [] ∧
    toLocalAssetPath exampleOrigin equalsInPathUrl = "a=b&c_x_1".toList ∧
    '=' ∈ toLocalAssetPath exampleOrigin equalsInPathUrl ∧
    '&' ∈ toLocalAssetPath exampleOrigin equalsInPathUrl := by
  refine ⟨by decide, by decide, by decide, by decide, by decide⟩

/-! ## C4: collisions of the path mapping -/

/-- C4, as amended: two URLs with the same path name that are both of the target origin, or
both foreign with the same host name, are given the same local path exactly when their
queries agree after the replacement of the three separator characters by an underscore and
the cut to 100 characters. -/
theorem toLocalAssetPath_eq_iff_safeQuery (rootOrigin : Str) (u v : URL)
    (hPath : u.pathname = v.pathname)
    (hSide : (u.origin = rootOrigin ∧ v.origin = rootOrigin) ∨
      (u.origin ≠ rootOrigin ∧ v.origin ≠ rootOrigin ∧ u.hostname = v.hostname))
    (hu : u.search = [] ∨ u.search.head? = some '?')
    (hv : v.search = [] ∨ v.search.head? = some '?') :
    toLocalAssetPath rootOrigin u = toLocalAssetPath rootOrigin v ↔
      safeQueryOf u.search = safeQueryOf v.search := by
  rw [toLocalAssetPath_eq, toLocalAssetPath_eq]
  rcases hSide with ⟨h1, h2⟩ | ⟨h1, h2, h3⟩
  · simp only [h1, h2, ne_eq, not_true_eq_false, if_false]
    rw [stripLeadingSlashes_append _ _ (safeQueryOf_head _ hu),
      stripLeadingSlashes_append _ _ (safeQueryOf_head _ hv), hPath]
    exact List.append_right_inj _
  · simp only [h1, h2, ne_eq, not_false_eq_true, if_true]
    rw [hPath, h3]
    constructor
    · intro h
      exact List.append_cancel_left (List.append_cancel_left h)
    · intro h
      rw [h]

/-- Witness of C4 as amended: `https://example.com/x?a=b` and `https://example.com/x?a=c`
differ after sanitising, so their local paths differ. -/
theorem toLocalAssetPath_eq_iff_safeQuery_witness :
    queryEqUrl.pathname = queryEqOtherUrl.pathname ∧
    (toLocalAssetPath exampleOrigin queryEqUrl = toLocalAssetPath exampleOrigin queryEqOtherUrl ↔
      safeQueryOf queryEqUrl.search = safeQueryOf queryEqOtherUrl.search) :=
  ⟨by decide,
    toLocalAssetPath_eq_iff_safeQuery exampleOrigin queryEqUrl queryEqOtherUrl (by decide)
      (Or.inl ⟨by decide, by decide⟩) (Or.inr (by decide)) (Or.inr (by decide))⟩

/-- C4 as stated fails: `https://example.com/x?a=b` and `https://example.com/x?a&b` are
distinct URLs with the same path name and different non-empty queries, and both are given
the local path `x_a_b`. -/
theorem toLocalAssetPath_not_injective :
    parseURL "https://example.com/x?a=b".toList none = some queryEqUrl ∧
    parseURL "https://example.com/x?a&b".toList none = some queryAmpUrl ∧
    queryEqUrl.href ≠ queryAmpUrl.href ∧
    queryEqUrl.pathname = queryAmpUrl.pathname ∧
    queryEqUrl.search ≠ queryAmpUrl.search ∧
    toLocalAssetPath exampleOrigin queryEqUrl = "x_a_b".toList ∧
    toLocalAssetPath exampleOrigin queryAmpUrl = "x_a_b".toList := by
  refine ⟨by decide, by decide, by decide, by decide, by decide, by decide, by decide⟩

/-! ## C6: proxy unwrapping -/

theorem splitOnChar_append_sep (sep : Char) (p q : Str) (hp : sep ∉ p) :
    splitOnChar sep (p ++ sep :: q) = p :: splitOnChar sep q := by
  induction p with
  | nil => simp [splitOnChar]
  | cons c t ih =>
    have hc : c ≠ sep := fun h => hp (h ▸ List.mem_cons_self _ _)
    have ht : sep ∉ t := fun h => hp (List.mem_cons_of_mem _ h)
    show splitOnChar sep (c :: (t ++ sep :: q)) = (c :: t) :: splitOnChar sep q
    rw [splitOnChar, if_neg hc, ih ht]

theorem splitOnChar_head (sep : Char) (q : Str) :
    (splitOnChar sep q)[0]? = some (q.takeWhile (· != sep)) := by
  induction q with
  | nil => simp [splitOnChar]
  | cons c t ih =>
    by_cases hc : c = sep
    · simp [splitOnChar, hc, List.takeWhile_cons]
    · cases hs : splitOnChar sep t with
      | nil => simp [hs] at ih
      | cons p ps =>
        rw [hs] at ih
        simp only [List.getElem?_cons_zero, Option.some.injEq] at ih
        simp [splitOnChar, hc, hs, List.takeWhile_cons, ih]

theorem takeWhile_append_all (f : Char → Bool) (p q : Str) (hp : ∀ c ∈ p, f c = true) :
    (p ++ q).takeWhile f = p ++ q.takeWhile f := by
  induction p with
  | nil => rfl
  | cons c t ih =>
    have hc : f c = true := hp c (List.mem_cons_self _ _)
    simp only [List.cons_append, List.takeWhile_cons, hc, if_true]
    rw [ih fun x hx => hp x (List.mem_cons_of_mem _ hx)]

theorem includes_nil_right (s : Str) : includes s [] = true := by
  cases s <;> simp [includes, List.isPrefixOf]

theorem includes_append_right (s t p : Str) (h : includes s p = true) :
    includes (s ++ t) p = true := by
  induction s with
  | nil =>
    have hp : p = [] := by simpa [includes] using h
    subst hp
    exact includes_nil_right _
  | cons c cs ih =>
    simp only [includes, Bool.or_eq_true] at h
    simp only [List.cons_append, includes, Bool.or_eq_true]
    rcases h with h | h
    · left
      rw [List.isPrefixOf_iff_prefix] at h ⊢
      exact h.trans (List.prefix_append _ _)
    · right
      exact ih h

theorem searchParamsGet_of_ne (s key : Str) (h : s.head? ≠ some '?') :
    searchParamsGet (some s) key
      = ((parseFormUrlencoded s).find? fun p => p.1 == key).map Prod.snd := by
  cases s with
  | nil => rfl
  | cons c t =>
    have hc : c ≠ '?' := by simpa using h
    unfold searchParamsGet
    split
    · rename_i heq
      cases heq
    · rename_i s1 heq
      cases heq
      split
      · rename_i r heq2
        cases heq2
        exact absurd rfl hc
      · rfl

theorem formPair_url (enc : Str) :
    formPair ("url=".toList ++ enc) = some ("url".toList, formDecode enc) := by
  have h : "url=".toList = ['u', 'r', 'l', '='] := by decide
  have hd : formDecode ['u', 'r', 'l'] = "url".toList := by decide
  rw [h]
  simp [formPair, List.takeWhile_cons, List.dropWhile_cons, hd]

theorem proxyUpstream_of_form (enc rest : Str) (h1 : '?' ∉ enc) (h2 : '&' ∉ enc) :
    proxyUpstream ("/_next/image?url=".toList ++ enc ++ '&' :: rest) = some (formDecode enc) := by
  have hv : "/_next/image?url=".toList ++ enc ++ '&' :: rest
      = "/_next/image".toList ++ '?' :: (("url=".toList ++ enc) ++ '&' :: rest) := by
    have : "/_next/image?url=".toList = "/_next/image".toList ++ '?' :: "url=".toList := by
      decide
    rw [this]
    simp
  have hu : ∀ c ∈ "url=".toList, (c != '?') = true := by decide
  have hq : ∀ c ∈ "url=".toList ++ enc, (c != '?') = true := by
    intro c hc
    rcases List.mem_append.mp hc with h | h
    · exact hu c h
    · simpa using fun hc : c = '?' => h1 (hc ▸ h)
  have hua : '&' ∉ "url=".toList := by decide
  have hamp : '&' ∉ "url=".toList ++ enc := by
    intro hc
    rcases List.mem_append.mp hc with h | h
    · exact hua h
    · exact h2 h
  have hhead : ("url=".toList ++ enc) ++ '&' :: rest.takeWhile (· != '?')
      = 'u' :: ("rl=".toList ++ enc ++ '&' :: rest.takeWhile (· != '?')) := by
    have : "url=".toList = 'u' :: "rl=".toList := by decide
    rw [this]
    simp
  have hkey : ("url".toList == "url".toList) = true := by decide
  unfold proxyUpstream
  rw [hv, splitOnChar_append_sep _ _ _ (by decide), List.getElem?_cons_succ, splitOnChar_head,
    takeWhile_append_all _ _ _ hq]
  have htw : ('&' :: rest).takeWhile (· != '?') = '&' :: rest.takeWhile (· != '?') := by
    simp [List.takeWhile_cons]
  rw [htw]
  rw [searchParamsGet_of_ne _ _ (by rw [hhead]; simp)]
  unfold parseFormUrlencoded
  rw [splitOnChar_append_sep _ _ _ hamp, List.filterMap_cons, formPair_url]
  simp only [List.find?_cons, hkey, Option.map_some']

/-- C6: for an `img` attribute value `/_next/image?url=<enc>&<rest>` whose encoded part holds
no raw question mark or ampersand, the image branch extracts the URL-decoded value of the
`url` parameter; when that upstream reference is not empty and resolves to an absolute URL,
this URL is the one recorded for the discovery set and the attribute becomes its local
path. -/
theorem processImgAttr_proxy (parse : Str → Option Str → Option URL) (url rootOrigin : Str)
    (enc rest : Str) (abs again : URL)
    (h1 : '?' ∉ enc) (h2 : '&' ∉ enc) (hne : formDecode enc ≠ [])
    (habs : parse (formDecode enc) (some url) = some abs)
    (hagain : parse abs.href none = some again) :
    proxyUpstream ("/_next/image?url=".toList ++ enc ++ '&' :: rest) = some (formDecode enc) ∧
    processImgAttr parse url rootOrigin (some ("/_next/image?url=".toList ++ enc ++ '&' :: rest))
      = Run.done (some (toLocalAssetPath rootOrigin again), [abs.href]) := by
  have hup := proxyUpstream_of_form enc rest h1 h2
  refine ⟨hup, ?_⟩
  have hassoc : "/_next/image?url=".toList ++ enc ++ '&' :: rest
      = "/_next/image?url=".toList ++ (enc ++ '&' :: rest) := by simp
  have hinc1 : includes ("/_next/image?url=".toList ++ enc ++ '&' :: rest)
      "/_next/image".toList = true := by
    rw [hassoc]
    exact includes_append_right _ _ _ (by decide)
  have hinc2 : includes ("/_next/image?url=".toList ++ enc ++ '&' :: rest)
      "url=".toList = true := by
    rw [hassoc]
    exact includes_append_right _ _ _ (by decide)
  have hslash : "/_next/image?url=".toList ++ enc ++ '&' :: rest
      = '/' :: ("_next/image?url=".toList ++ enc ++ '&' :: rest) := by
    have : "/_next/image?url=".toList = '/' :: "_next/image?url=".toList := by decide
    rw [this]
    simp
  have hempty : ("/_next/image?url=".toList ++ enc ++ '&' :: rest).isEmpty = false := by
    rw [hslash]
    rfl
  have hdata : startsWith ("/_next/image?url=".toList ++ enc ++ '&' :: rest) "data:".toList
      = false := by
    rw [hslash]
    have : "data:".toList = 'd' :: "ata:".toList := by decide
    rw [this]
    simp [startsWith, List.isPrefixOf]
  have hne2 : (formDecode enc).isEmpty = false := by
    cases hd : formDecode enc with
    | nil => exact absurd hd hne
    | cons c t => rfl
  unfold processImgAttr
  simp only [hempty, hdata, hinc1, hinc2, hup, hne2, habs, toLocalAssetPathOfString, hagain,
    Bool.or_self, Bool.and_self, Bool.false_eq_true, if_false, if_true, Option.map_some']

/-- Witness of C6: the value `/_next/image?url=https%3A%2F%2Fcdn.example.com%2Fa.png&w=640` on
the page `https://example.com/`: the upstream is `https://cdn.example.com/a.png`, which is
recorded, and the attribute becomes `external/cdn.example.com/a.png`. -/
theorem processImgAttr_proxy_witness :
    formDecode "https%3A%2F%2Fcdn.example.com%2Fa.png".toList
      = "https://cdn.example.com/a.png".toList ∧
    parseURL "https://cdn.example.com/a.png".toList (some examplePage) = some cdnImageUrl ∧
    toLocalAssetPath exampleOrigin cdnImageUrl = "external/cdn.example.com/a.png".toList ∧
    (proxyUpstream ("/_next/image?url=".toList ++
        "https%3A%2F%2Fcdn.example.com%2Fa.png".toList ++ '&' :: "w=640".toList)
      = some (formDecode "https%3A%2F%2Fcdn.example.com%2Fa.png".toList) ∧
    processImgAttr parseURL examplePage exampleOrigin
        (some ("/_next/image?url=".toList ++
          "https%3A%2F%2Fcdn.example.com%2Fa.png".toList ++ '&' :: "w=640".toList))
      = Run.done (some (toLocalAssetPath exampleOrigin cdnImageUrl), [cdnImageUrl.href])) :=
  ⟨by decide, by decide, by decide,
    processImgAttr_proxy parseURL examplePage exampleOrigin
      "https%3A%2F%2Fcdn.example.com%2Fa.png".toList "w=640".toList cdnImageUrl cdnImageUrl
      (by decide) (by decide) (by decide) (by decide) (by decide)⟩

/-! ## C7: the first scenario -/

/-- C7: on the target `https://example.com/`, markup rewriting of the document with
`<img src="/logo.png">`, `<link href="https://cdn.example.com/app.css">` and the inline style
`body{background:url('/bg.jpg')}` completes (two calls of `exec` suffice) with the discovery
set of the three absolute URLs, `img[src]` set to `logo.png`, `link[href]` set to
`external/cdn.example.com/app.css` and the inline style reference rewritten to
`url("bg.jpg")`. -/
theorem rewriteMarkup_scenario (n : Nat) :
    rewriteMarkup parseURL examplePage exampleOrigin (n + 2) scenarioDoc
      = Run.done (scenarioDocRewritten, scenarioSet) := by
  rfl

/-! ## C8: the second scenario, a stylesheet that refers to a font -/

/-- C8: on the target `https://example.com/` whose page links the stylesheet
`https://cdn.example.com/css/app.css` with the text `url("fonts/a.woff2")`, the session
requests the page, the stylesheet and then `https://cdn.example.com/css/fonts/a.woff2` (the
reference resolved against the stylesheet, not the page) and nothing else; the font is
mirrored; the stylesheet file holds the reference as `url("fonts/a.woff2")`, the path of the
mirrored font relative to the directory of the stylesheet; and `index.html` is the document as
markup rewriting left it. -/
theorem stylesheet_pass_scenario (n : Nat) :
    (cloneWebsiteLandingPage sheetPlatform (n + 2) examplePage emptyWorld).map
        (fun r => (r.1, r.2.requests,
          readFile sheetPlatform.cwd r.2
            "cloned-example.com/external/cdn.example.com/css/app.css".toList,
          readFile sheetPlatform.cwd r.2
            "cloned-example.com/external/cdn.example.com/css/fonts/a.woff2".toList,
          readFile sheetPlatform.cwd r.2 "cloned-example.com/index.html".toList))
      = some (CloneResult.success exampleOutDir 1,
          [examplePage, sheetUrl, fontUrl],
          some (FileData.raw "@font-face\x7bsrc:url(\x22fonts/a.woff2\x22)\x7d".toList),
          some (FileData.raw "FONT".toList),
          some (FileData.rendered sheetPageText
            { imgs := [], links := ["external/cdn.example.com/css/app.css".toList],
              scripts := [], styles := [] })) ∧
    pathRelative sheetPlatform.cwd
        (pathDirname "cloned-example.com/external/cdn.example.com/css/app.css".toList)
        "cloned-example.com/external/cdn.example.com/css/fonts/a.woff2".toList
      = "fonts/a.woff2".toList := by
  constructor
  · rfl
  · decide

/-! ## Lemmas on the discovery set -/

theorem mem_setAdd (s : List Str) (x y : Str) : y ∈ setAdd s x ↔ y ∈ s ∨ y = x := by
  unfold setAdd
  split
  · rename_i h
    constructor
    · exact Or.inl
    · rintro (h1 | h1)
      · exact h1
      · exact h1 ▸ h
  · simp

theorem setAdd_nodup (s : List Str) (x : Str) (h : s.Nodup) : (setAdd s x).Nodup := by
  unfold setAdd
  split
  · exact h
  · rename_i hx
    rw [List.nodup_append]
    refine ⟨h, List.nodup_singleton x, ?_⟩
    intro a ha hb
    rw [List.mem_singleton] at hb
    exact hx (hb ▸ ha)

theorem length_setAdd_le (s : List Str) (x : Str) : (setAdd s x).length ≤ s.length + 1 := by
  unfold setAdd
  split <;> simp

theorem setAddAll_nodup (xs : List Str) : ∀ s : List Str, s.Nodup → (setAddAll s xs).Nodup := by
  induction xs with
  | nil => intro s h; exact h
  | cons x t ih => intro s h; exact ih _ (setAdd_nodup s x h)

theorem mem_setAddAll (xs : List Str) :
    ∀ (s : List Str) (y : Str), y ∈ setAddAll s xs ↔ y ∈ s ∨ y ∈ xs := by
  induction xs with
  | nil => intro s y; simp [setAddAll]
  | cons x t ih =>
    intro s y
    show y ∈ setAddAll (setAdd s x) t ↔ _
    rw [ih, mem_setAdd, List.mem_cons]
    tauto

theorem length_setAddAll_le (xs : List Str) :
    ∀ s : List Str, (setAddAll s xs).length ≤ s.length + xs.length := by
  induction xs with
  | nil => intro s; simp [setAddAll]
  | cons x t ih =>
    intro s
    show (setAddAll (setAdd s x) t).length ≤ _
    have h1 := ih (setAdd s x)
    have h2 := length_setAdd_le s x
    simp only [List.length_cons]
    omega

theorem setAddAll_eq_of_nodup (xs : List Str) :
    ∀ s : List Str, (s ++ xs).Nodup → setAddAll s xs = s ++ xs := by
  induction xs with
  | nil => intro s _; simp [setAddAll]
  | cons x t ih =>
    intro s h
    have hx : x ∉ s := by
      intro hm
      have := (List.nodup_append.mp h).2.2
      exact this hm (List.mem_cons_self _ _)
    have hs : setAdd s x = s ++ [x] := by simp [setAdd, hx]
    show setAddAll (setAdd s x) t = _
    rw [hs, ih (s ++ [x]) (by simpa using h)]
    simp

theorem setAddAll_length_eq_iff (xs : List Str) :
    (setAddAll [] xs).length = xs.length ↔ xs.Nodup := by
  constructor
  · intro h
    have hnd := setAddAll_nodup xs [] List.nodup_nil
    have hsub : setAddAll [] xs ⊆ xs := fun y hy => by
      simpa using (mem_setAddAll xs [] y).mp hy
    have hsp : (setAddAll [] xs).Subperm xs := List.subperm_of_subset hnd hsub
    have hp : (setAddAll [] xs).Perm xs := hsp.perm_of_length_le (le_of_eq h.symm)
    exact hp.nodup_iff.mp hnd
  · intro h
    rw [setAddAll_eq_of_nodup xs [] (by simpa using h)]
    simp

/-! ## C9: the size of the discovery set as stated -/

/-- C9 as stated fails: the document with `<img src="/a.png">` and the inline style
`p{background:url(a.png)}` on the page `https://example.com/` has N = 1 distinct image
reference and M = 1 distinct `url()` reference, the two reference strings differ, and the
discovery set after markup rewriting has one entry, not N + M = 2. -/
theorem rewriteMarkup_set_not_sum :
    remoteRefCount sharedRefDoc = 1 ∧ inlineUrlCount sharedRefDoc = 1 ∧
    rewriteMarkup parseURL examplePage exampleOrigin 2 sharedRefDoc
      = Run.done ({ imgs := [imgWithSrc "a.png".toList], links := [], scripts := [],
                    styles := ["p\x7bbackground:url(\x22a.png\x22)\x7d".toList] },
          ["https://example.com/a.png".toList]) ∧
    ["https://example.com/a.png".toList].length
      ≠ remoteRefCount sharedRefDoc + inlineUrlCount sharedRefDoc := by
  refine ⟨by decide, by decide, by decide, by decide⟩

/-! ## C10: the count reported after a partial failure -/

/-- C10, the code at the failing input: the page `https://example.com/` is served and holds
`<img src="/logo.png">`, every other request is answered with status 404.  The session
returns the success record and writes `index.html`, the file of the image is not written
and no member of the discovery set is downloaded, yet `assetsDownloaded` is 1, the size of
the discovery set. -/
theorem assetsDownloaded_counts_discovered (fuel : Nat) :
    (cloneWebsiteLandingPage logoPlatform fuel examplePage emptyWorld).map
        (fun r => (r.1, r.2.requests,
          readFile logoPlatform.cwd r.2 "cloned-example.com/index.html".toList,
          readFile logoPlatform.cwd r.2 "cloned-example.com/logo.png".toList,
          successfulDownloads logoPlatform exampleOrigin exampleOutDir
            ["https://example.com/logo.png".toList] r.2))
      = some (CloneResult.success exampleOutDir 1,
          [examplePage, "https://example.com/logo.png".toList],
          some (FileData.rendered logoPageText
            { imgs := [imgWithSrc "logo.png".toList], links := [], scripts := [],
              styles := [] }),
          none, 0) := by
  rfl

/-! ## C11: requests repeated by the pass over a downloaded stylesheet -/

/-- C11, the code at the failing input: the page `https://example.com/` links the stylesheet
`https://cdn.example.com/css/app.css` and then the font
`https://cdn.example.com/css/fonts/a.woff2`, which the stylesheet refers to; all are served.
The font is a member of the discovery set, and the session requests it twice: once from the
pass over the downloaded stylesheet, whose file test finds nothing yet, and once from the
task of the batch for the font itself. -/
theorem embedded_asset_requested_twice (n : Nat) :
    rewriteMarkup parseURL examplePage exampleOrigin (n + 2)
        { imgs := [], links := [sheetUrl, fontUrl], scripts := [], styles := [] }
      = Run.done ({ imgs := [],
                    links := ["external/cdn.example.com/css/app.css".toList,
                              "external/cdn.example.com/css/fonts/a.woff2".toList],
                    scripts := [], styles := [] }, [sheetUrl, fontUrl]) ∧
    (cloneWebsiteLandingPage preloadPlatform (n + 2) examplePage emptyWorld).map
        (fun r => (r.1, r.2.requests, r.2.requests.count fontUrl))
      = some (CloneResult.success exampleOutDir 2,
          [examplePage, sheetUrl, fontUrl, fontUrl], 2) := by
  constructor <;> rfl

/-! ## C12: an argument that is not a URL -/

/-- C12: when the argument does not parse as an absolute URL, `cloneWebsiteLandingPage`
returns the `{ error }` record and leaves the world as it was: no directory is made, no
request is issued and no file is written. -/
theorem cloneWebsiteLandingPage_invalid_url (P : Platform) (fuel : Nat) (url : Str) (w : World)
    (h : P.parse url none = none) :
    cloneWebsiteLandingPage P fuel url w = some (CloneResult.error Cause.invalidUrl, w) := by
  simp [cloneWebsiteLandingPage, h]

/-- Witness of C12: the argument `not a url` in the environment of the second scenario. -/
theorem cloneWebsiteLandingPage_invalid_url_witness :
    sheetPlatform.parse "not a url".toList none = none ∧
    cloneWebsiteLandingPage sheetPlatform 3 "not a url".toList emptyWorld
      = some (CloneResult.error Cause.invalidUrl, emptyWorld) :=
  ⟨by decide,
    cloneWebsiteLandingPage_invalid_url sheetPlatform 3 "not a url".toList emptyWorld
      (by decide)⟩

/-! ## C14: a reference skipped by the rewriting loop -/

/-- C14, the code at the failing input: the inline style
`.a{background:url(https://example.com/images/a.png)} .b{background:url(/b.png)}` of the
page `https://example.com/` holds two references that are neither inline data nor anchors.
The loop rewrites the first one to `url("images/a.png")`, which is shorter than the token it
replaces, and resumes at the old end of that token, past the start of the second token in
the new text: the second reference is neither rewritten nor recorded. -/
theorem rewriteInlineCss_skips_reference (n : Nat) :
    urlRefsAux 0 twoRefsCss = ["https://example.com/images/a.png".toList, "/b.png".toList] ∧
    processStyle parseURL examplePage exampleOrigin (n + 2) twoRefsCss
      = Run.done (twoRefsCssRewritten, ["https://example.com/images/a.png".toList]) ∧
    includes twoRefsCssRewritten "url(/b.png)".toList = true := by
  refine ⟨by decide, rfl, by decide⟩

/-! ## C16: a proxy reference whose upstream is not a URL -/

/-- C16, the code at the failing input: on the page `https://example.com/`, the proxy
reference `/_next/image?url=https%3A%2F%2F&w=1`, whose upstream `https://` is not a URL, is
left in place when it is the value of `src` (the session succeeds with an empty discovery
set), but as a `srcset` candidate it makes the session return `{ error }` after the request
for the page, without writing `index.html`. -/
theorem srcset_bad_proxy_aborts (fuel : Nat) :
    proxyUpstream badProxyRef = some "https://".toList ∧
    parseURL "https://".toList (some examplePage) = none ∧
    processImgAttr parseURL examplePage exampleOrigin (some badProxyRef)
      = Run.done (some badProxyRef, []) ∧
    (cloneWebsiteLandingPage badSrcPlatform fuel examplePage emptyWorld).map
        (fun r => (r.1, readFile badSrcPlatform.cwd r.2 "cloned-example.com/index.html".toList))
      = some (CloneResult.success exampleOutDir 0,
          some (FileData.rendered logoPageText
            { imgs := [imgWithSrc badProxyRef], links := [], scripts := [], styles := [] })) ∧
    rewriteSrcsetEntry parseURL examplePage exampleOrigin (badProxyRef ++ " 1x".toList)
      = Run.thrown ∧
    (cloneWebsiteLandingPage badSrcsetPlatform fuel examplePage emptyWorld).map
        (fun r => (r.1, r.2.requests, r.2.files))
      = some (CloneResult.error Cause.markup, [examplePage], []) := by
  refine ⟨by decide, by decide, by decide, rfl, by decide, rfl⟩

/-! ## C19: the two recognisers of a proxy reference -/

/-- C19, the code at the failing input: for the reference `/_next/image?w=640&url=%2Fa.png` on
the page `https://example.com/`, the branch of `src` unwraps the upstream `/a.png` and mirrors
`https://example.com/a.png`, while the branch of `srcset`, which looks for the text
`/_next/image?url=`, does not recognise the reference and mirrors the proxy URL itself. -/
theorem proxy_recognisers_differ :
    proxyUpstream lateUrlProxyRef = some "/a.png".toList ∧
    processImgAttr parseURL examplePage exampleOrigin (some lateUrlProxyRef)
      = Run.done (some "a.png".toList, ["https://example.com/a.png".toList]) ∧
    includes lateUrlProxyRef "/_next/image?url=".toList = false ∧
    rewriteSrcsetEntry parseURL examplePage exampleOrigin lateUrlProxyRef
      = Run.done ("_next/image_w_640_url_%2Fa.png".toList,
          ["https://example.com/_next/image?w=640&url=%2Fa.png".toList]) := by
  refine ⟨by decide, by decide, by decide, by decide⟩

/-! ## C13: the cleanup of `fixHtmlAssets` is idempotent -/

theorem noDoubleSlash_cons (a : Char) (t : Str) :
    noDoubleSlash (a :: t) = true ↔
      (a ≠ '/' ∨ t.head? ≠ some '/') ∧ noDoubleSlash t = true := by
  cases t with
  | nil => simp [noDoubleSlash]
  | cons b u =>
    simp only [noDoubleSlash, Bool.and_eq_true, Bool.not_eq_true', Bool.and_eq_false_iff,
      beq_eq_false_iff_ne, List.head?_cons, ne_eq, Option.some.injEq]

theorem collapseSlashesAux_spec (s : Str) :
    ∀ prev : Bool, noDoubleSlash (collapseSlashesAux prev s) = true ∧
      (prev = true → (collapseSlashesAux prev s).head? ≠ some '/') := by
  induction s with
  | nil => intro prev; simp [collapseSlashesAux, noDoubleSlash]
  | cons c cs ih =>
    intro prev
    by_cases hc : c = '/'
    · subst hc
      cases prev with
      | true =>
        have h := ih true
        simpa [collapseSlashesAux] using h
      | false =>
        simp only [collapseSlashesAux, if_true, Bool.false_eq_true, if_false]
        refine ⟨?_, fun h => absurd h (by decide)⟩
        rw [noDoubleSlash_cons]
        exact ⟨Or.inr ((ih true).2 rfl), (ih true).1⟩
    · simp only [collapseSlashesAux, hc, if_false]
      refine ⟨?_, fun _ => by simpa using hc⟩
      rw [noDoubleSlash_cons]
      exact ⟨Or.inl hc, (ih false).1⟩

theorem collapseSlashesAux_fixed (s : Str) :
    ∀ prev : Bool, noDoubleSlash s = true → (prev = true → s.head? ≠ some '/') →
      collapseSlashesAux prev s = s := by
  induction s with
  | nil => intro prev _ _; rfl
  | cons c cs ih =>
    intro prev hnd hhead
    rw [noDoubleSlash_cons] at hnd
    by_cases hc : c = '/'
    · subst hc
      have hprev : prev = false := by
        cases prev with
        | false => rfl
        | true => exact absurd rfl (hhead rfl)
      subst hprev
      have hcs : cs.head? ≠ some '/' := by
        rcases hnd.1 with h | h
        · exact absurd rfl h
        · exact h
      simp only [collapseSlashesAux, if_true, Bool.false_eq_true, if_false]
      rw [ih true hnd.2 (fun _ => hcs)]
    · simp only [collapseSlashesAux, hc, if_false]
      rw [ih false hnd.2 (fun h => absurd h (by decide))]

theorem stripOneSlash_spec (x : Str) (h : noDoubleSlash x = true) :
    noDoubleSlash (stripOneSlash x) = true ∧ (stripOneSlash x).head? ≠ some '/' := by
  cases x with
  | nil => simp [stripOneSlash, noDoubleSlash]
  | cons c t =>
    rw [noDoubleSlash_cons] at h
    by_cases hc : c = '/'
    · subst hc
      simp only [stripOneSlash, if_true]
      refine ⟨h.2, ?_⟩
      rcases h.1 with h1 | h1
      · exact absurd rfl h1
      · exact h1
    · simp only [stripOneSlash, hc, if_false]
      refine ⟨?_, by simpa using hc⟩
      rw [noDoubleSlash_cons]
      exact h

theorem stripOneSlash_fixed (t : Str) (h : t.head? ≠ some '/') : stripOneSlash t = t := by
  cases t with
  | nil => rfl
  | cons c u =>
    have hc : c ≠ '/' := by simpa using h
    simp [stripOneSlash, hc]

theorem cleaned_is_fixed (s : Str) :
    stripOneSlash (collapseSlashes (stripOneSlash (collapseSlashes s)))
      = stripOneSlash (collapseSlashes s) := by
  have h1 := (collapseSlashesAux_spec s false).1
  have h2 := stripOneSlash_spec (collapseSlashes s) h1
  have h3 : collapseSlashes (stripOneSlash (collapseSlashes s))
      = stripOneSlash (collapseSlashes s) :=
    collapseSlashesAux_fixed _ false h2.1 (fun h => absurd h (by decide))
  rw [h3, stripOneSlash_fixed _ h2.2]

theorem cleanRef_idem (v : Option Str) : cleanRef (cleanRef v) = cleanRef v := by
  cases v with
  | none => rfl
  | some s =>
    cases h : needsCleaning s with
    | true =>
      have e1 : cleanRef (some s) = some (stripOneSlash (collapseSlashes s)) := by
        simp [cleanRef, h]
      rw [e1]
      cases h2 : needsCleaning (stripOneSlash (collapseSlashes s)) with
      | true => simp [cleanRef, h2, cleaned_is_fixed]
      | false => simp [cleanRef, h2]
    | false =>
      have e1 : cleanRef (some s) = some s := by simp [cleanRef, h]
      rw [e1, e1]

/-- C13: the cleanup that `fixHtmlAssets` applies to the `src` of an image, the `href` of a
stylesheet link and the `src` of a script gives, applied to a cleaned value, that value
again; so the three passes applied to a document they have already cleaned change no
attribute. -/
theorem fixHtmlAssets_idempotent (v : Option Str) (d : MirrorDoc) :
    cleanRef (cleanRef v) = cleanRef v ∧
    fixHtmlAssetsDoc (fixHtmlAssetsDoc d) = fixHtmlAssetsDoc d := by
  refine ⟨cleanRef_idem v, ?_⟩
  have hmap : ∀ l : List (Option Str), (l.map cleanRef).map cleanRef = l.map cleanRef := by
    intro l
    rw [List.map_map]
    exact List.map_congr_left fun a _ => cleanRef_idem a
  simp only [fixHtmlAssetsDoc, hmap]

/-! ## C15: the rewritten `srcset` -/

theorem mapRun_forall₂ {α β : Type} (f : α → Run (β × List Str)) (l : List α) :
    ∀ (bs : List β) (rec : List Str), mapRun f l = Run.done (bs, rec) →
      List.Forall₂ (fun a b => ∃ r, f a = Run.done (b, r)) l bs := by
  induction l with
  | nil =>
    intro bs rec h
    simp only [mapRun, Run.done.injEq, Prod.mk.injEq] at h
    rw [← h.1]
    exact List.Forall₂.nil
  | cons a rest ih =>
    intro bs rec h
    unfold mapRun at h
    cases hf : f a with
    | thrown => simp [hf] at h
    | loops => simp [hf] at h
    | done p =>
      obtain ⟨b, r1⟩ := p
      cases hm : mapRun f rest with
      | thrown => simp [hf, hm] at h
      | loops => simp [hf, hm] at h
      | done q =>
        obtain ⟨bs1, r2⟩ := q
        simp only [hf, hm, Run.done.injEq, Prod.mk.injEq] at h
        rw [← h.1]
        exact List.Forall₂.cons ⟨r1, hf⟩ (ih bs1 r2 hm)

theorem rewriteSrcsetEntry_eq (parse : Str → Option Str → Option URL) (url rootOrigin : Str)
    (entry : Str) :
    rewriteSrcsetEntry parse url rootOrigin entry =
      if ((splitWs (jsTrim entry)).headD []).isEmpty then Run.done (entry, [])
      else
        match parse (srcsetFixedUrl ((splitWs (jsTrim entry)).headD [])) (some url) with
        | none => Run.thrown
        | some abs =>
          match toLocalAssetPathOfString parse rootOrigin abs.href with
          | none => Run.thrown
          | some localPath =>
            Run.done (localPath ++ descriptorSuffix (splitWs (jsTrim entry))[1]?, [abs.href]) :=
  rfl

/-- C15, as amended: when the processing of a non-empty `srcset` value completes, the new
value is the rewritten entries, one for each comma-separated entry of the original and in the
same order, joined with a comma followed by a space, whatever the original had between its
entries.  An entry without a URL token is kept as it is; any other entry becomes the local
path of the absolute URL that its URL token (or the upstream unwrapped from it) resolves to,
which is the URL recorded, followed by a space and the second token of the entry when there
is one. -/
theorem processSrcset_entries (parse : Str → Option Str → Option URL) (url rootOrigin : Str)
    (s : Str) (out : Option Str) (rec : List Str) (hs : s ≠ [])
    (h : processSrcset parse url rootOrigin (some s) = Run.done (out, rec)) :
    (∃ parts, out = some (List.intercalate ", ".toList parts) ∧
      List.Forall₂ (fun entry part =>
          ∃ r, rewriteSrcsetEntry parse url rootOrigin entry = Run.done (part, r))
        (splitOnChar ',' s) parts) ∧
    (∀ entry part r, rewriteSrcsetEntry parse url rootOrigin entry = Run.done (part, r) →
      ((splitWs (jsTrim entry)).headD [] = [] ∧ part = entry ∧ r = []) ∨
      (∃ abs again,
        parse (srcsetFixedUrl ((splitWs (jsTrim entry)).headD [])) (some url) = some abs ∧
        parse abs.href none = some again ∧ r = [abs.href] ∧
        part = toLocalAssetPath rootOrigin again
          ++ descriptorSuffix (splitWs (jsTrim entry))[1]?)) := by
  constructor
  · have hse : s.isEmpty = false := by
      cases s with
      | nil => exact absurd rfl hs
      | cons c t => rfl
    unfold processSrcset at h
    simp only [hse, Bool.false_eq_true, if_false] at h
    cases hm : mapRun (rewriteSrcsetEntry parse url rootOrigin) (splitOnChar ',' s) with
    | thrown => simp [hm] at h
    | loops => simp [hm] at h
    | done q =>
      obtain ⟨parts, r⟩ := q
      simp only [hm, Run.done.injEq, Prod.mk.injEq] at h
      exact ⟨parts, h.1.symm, mapRun_forall₂ _ _ parts r hm⟩
  · intro entry part r he
    rw [rewriteSrcsetEntry_eq] at he
    by_cases hu : ((splitWs (jsTrim entry)).headD []).isEmpty = true
    · left
      rw [if_pos hu] at he
      injection he with he
      injection he with he1 he2
      exact ⟨List.isEmpty_iff.mp hu, he1.symm, he2.symm⟩
    · right
      rw [if_neg hu] at he
      cases hp : parse (srcsetFixedUrl ((splitWs (jsTrim entry)).headD [])) (some url) with
      | none =>
        rw [hp] at he
        cases he
      | some abs =>
        rw [hp] at he
        dsimp only at he
        cases hq : parse abs.href none with
        | none =>
          have hl : toLocalAssetPathOfString parse rootOrigin abs.href = none := by
            simp [toLocalAssetPathOfString, hq]
          rw [hl] at he
          cases he
        | some again =>
          have hl : toLocalAssetPathOfString parse rootOrigin abs.href
              = some (toLocalAssetPath rootOrigin again) := by
            simp [toLocalAssetPathOfString, hq]
          rw [hl] at he
          dsimp only at he
          injection he with he
          injection he with he1 he2
          exact ⟨abs, again, rfl, hq, he2.symm, he1.symm⟩

/-- Witness of C15 as amended: the value `/a.png 1x,/b.png 2x` on the page
`https://example.com/`. -/
theorem processSrcset_entries_witness :
    "/a.png 1x,/b.png 2x".toList ≠ [] ∧
    processSrcset parseURL examplePage exampleOrigin (some "/a.png 1x,/b.png 2x".toList)
      = Run.done (some "a.png 1x, b.png 2x".toList,
          ["https://example.com/a.png".toList, "https://example.com/b.png".toList]) ∧
    ((∃ parts, some "a.png 1x, b.png 2x".toList = some (List.intercalate ", ".toList parts) ∧
      List.Forall₂ (fun entry part =>
          ∃ r, rewriteSrcsetEntry parseURL examplePage exampleOrigin entry = Run.done (part, r))
        (splitOnChar ',' "/a.png 1x,/b.png 2x".toList) parts) ∧
    (∀ entry part r,
      rewriteSrcsetEntry parseURL examplePage exampleOrigin entry = Run.done (part, r) →
      ((splitWs (jsTrim entry)).headD [] = [] ∧ part = entry ∧ r = []) ∨
      (∃ abs again,
        parseURL (srcsetFixedUrl ((splitWs (jsTrim entry)).headD [])) (some examplePage)
          = some abs ∧
        parseURL abs.href none = some again ∧ r = [abs.href] ∧
        part = toLocalAssetPath exampleOrigin again
          ++ descriptorSuffix (splitWs (jsTrim entry))[1]?))) :=
  ⟨by decide, by decide,
    processSrcset_entries parseURL examplePage exampleOrigin "/a.png 1x,/b.png 2x".toList
      (some "a.png 1x, b.png 2x".toList)
      ["https://example.com/a.png".toList, "https://example.com/b.png".toList]
      (by decide) (by decide)⟩

/-- C15 as stated fails: the value `/a.png 1x,/b.png 2x`, whose candidates are separated by a
comma alone, is rewritten to `a.png 1x, b.png 2x`, with a comma and a space; joining the
rewritten candidates with the separator of the original would give `a.png 1x,b.png 2x`. -/
theorem processSrcset_changes_separator :
    includes "/a.png 1x,/b.png 2x".toList ", ".toList = false ∧
    processSrcset parseURL examplePage exampleOrigin (some "/a.png 1x,/b.png 2x".toList)
      = Run.done (some "a.png 1x, b.png 2x".toList,
          ["https://example.com/a.png".toList, "https://example.com/b.png".toList]) ∧
    "a.png 1x, b.png 2x".toList
      ≠ List.intercalate ",".toList ["a.png 1x".toList, "b.png 2x".toList] := by
  refine ⟨by decide, by decide, by decide⟩

/-! ## C20: which references are rejected before the call of `toLocalAssetPath` -/

theorem toLocalAssetPathOfString_of_parse (parse : Str → Option Str → Option URL)
    (rootOrigin href : Str) (again : URL) (h : parse href none = some again) :
    toLocalAssetPathOfString parse rootOrigin href = some (toLocalAssetPath rootOrigin again) := by
  simp [toLocalAssetPathOfString, h]

/-- C20, as amended: no rewriter tests the scheme of a reference.  Whether a rewriter goes on
to resolve something, and what, is decided from the text of the reference alone
(`imgAttrTarget`, `candidateTarget`, `refTarget`, `cssTarget`).  A reference for which it
resolves nothing is left as it is and nothing is recorded.  When the string `t` it resolves
gives an absolute URL `abs`, of whatever scheme, whose `href` the platform parses again,
`toLocalAssetPath` is called on that URL: the markup rewriter (attributes of `img`, `srcset`
candidates, `href` of `link`, `src` of `script`) and the loop over an inline style put the
local path in the place of the reference and record `abs.href` for the discovery set; the
loop over a downloaded stylesheet requests the URL unless the local file exists, and replaces
the reference when that step does not throw.  In the two loops over a style text this holds
of every reference that `exec` matches. -/
theorem rejected_before_toLocalAssetPath (P : Platform) (base rootOrigin t : Str)
    (abs again : URL) (habs : P.parse t (some base) = some abs)
    (hagain : P.parse abs.href none = some again) :
    (∀ v, imgAttrTarget v = none →
      processImgAttr P.parse base rootOrigin (some v) = Run.done (some v, [])) ∧
    (∀ v, imgAttrTarget v = some t →
      processImgAttr P.parse base rootOrigin (some v)
        = Run.done (some (toLocalAssetPath rootOrigin again), [abs.href])) ∧
    (∀ entry, candidateTarget entry = none →
      rewriteSrcsetEntry P.parse base rootOrigin entry = Run.done (entry, [])) ∧
    (∀ entry, candidateTarget entry = some t →
      rewriteSrcsetEntry P.parse base rootOrigin entry
        = Run.done (toLocalAssetPath rootOrigin again ++
            descriptorSuffix (splitWs (jsTrim entry))[1]?, [abs.href])) ∧
    (∀ ref, refTarget ref = none →
      processRef P.parse base rootOrigin ref = Run.done (ref, [])) ∧
    (∀ ref, refTarget ref = some t →
      processRef P.parse base rootOrigin ref
        = Run.done (toLocalAssetPath rootOrigin again, [abs.href])) ∧
    (∀ (fuel : Nat) (css : Str) (lastIndex index : Nat) (whole group2 : Str),
      execUrl css lastIndex = some (index, whole, group2) → cssTarget group2 = none →
      rewriteInlineCss P.parse base rootOrigin (fuel + 1) css lastIndex
        = rewriteInlineCss P.parse base rootOrigin fuel css (index + utf16Length whole)) ∧
    (∀ (fuel : Nat) (css : Str) (lastIndex index : Nat) (whole group2 : Str),
      execUrl css lastIndex = some (index, whole, group2) → cssTarget group2 = some t →
      rewriteInlineCss P.parse base rootOrigin (fuel + 1) css lastIndex
        = match rewriteInlineCss P.parse base rootOrigin fuel
              (jsReplace css whole (quotedUrl (toLocalAssetPath rootOrigin again)))
              (index + utf16Length whole) with
          | Run.done (out, rec) => Run.done (out, abs.href :: rec)
          | Run.thrown => Run.thrown
          | Run.loops => Run.loops) ∧
    (∀ (outDir filePath : Str) (fuel : Nat) (css : Str) (lastIndex : Nat) (modified : Bool)
        (w : World) (index : Nat) (whole group2 : Str),
      execUrl css lastIndex = some (index, whole, group2) → cssTarget group2 = none →
      rewriteDownloadedCss P rootOrigin outDir base filePath (fuel + 1) css lastIndex modified w
        = rewriteDownloadedCss P rootOrigin outDir base filePath fuel css
            (index + utf16Length whole) modified w) ∧
    (∀ (outDir filePath : Str) (fuel : Nat) (css : Str) (lastIndex : Nat) (modified : Bool)
        (w : World) (index : Nat) (whole group2 : Str),
      execUrl css lastIndex = some (index, whole, group2) → cssTarget group2 = some t →
      rewriteDownloadedCss P rootOrigin outDir base filePath (fuel + 1) css lastIndex modified w
        = match fetchEmbedded P w abs.href
              (pathJoin outDir (toLocalAssetPath rootOrigin again)) with
          | (w1, true) =>
            rewriteDownloadedCss P rootOrigin outDir base filePath fuel
              (jsReplace css whole
                (relativeUrl P filePath (pathJoin outDir (toLocalAssetPath rootOrigin again))))
              (index + utf16Length whole) true w1
          | (w1, false) =>
            rewriteDownloadedCss P rootOrigin outDir base filePath fuel css
              (index + utf16Length whole) modified w1) := by
  have hlocal := toLocalAssetPathOfString_of_parse P.parse rootOrigin abs.href again hagain
  have hbind : ((P.parse t (some base)).bind fun a =>
      Option.map (fun lp => (a, lp)) (toLocalAssetPathOfString P.parse rootOrigin a.href))
      = some (abs, toLocalAssetPath rootOrigin again) := by
    rw [habs]
    show Option.map (fun lp => (abs, lp))
      (toLocalAssetPathOfString P.parse rootOrigin abs.href) = _
    rw [hlocal]
    rfl
  have hcssNone : ∀ g, cssTarget g = none →
      (!startsWith (jsTrim g) "data:".toList && !startsWith (jsTrim g) "#".toList) = false := by
    intro g hg
    unfold cssTarget at hg
    cases hc : (!startsWith (jsTrim g) "data:".toList && !startsWith (jsTrim g) "#".toList) with
    | false => rfl
    | true =>
      rw [hc] at hg
      simp at hg
  have hcssSome : ∀ g, cssTarget g = some t →
      (!startsWith (jsTrim g) "data:".toList && !startsWith (jsTrim g) "#".toList) = true ∧
      jsTrim g = t := by
    intro g hg
    unfold cssTarget at hg
    cases hc : (!startsWith (jsTrim g) "data:".toList && !startsWith (jsTrim g) "#".toList) with
    | false =>
      rw [hc] at hg
      simp at hg
    | true =>
      rw [hc] at hg
      simp only [if_true, Option.some.injEq] at hg
      exact ⟨rfl, hg⟩
  refine ⟨?_, ?_, ?_, ?_, ?_, ?_, ?_, ?_, ?_, ?_⟩
  · intro v hv
    unfold imgAttrTarget at hv
    unfold processImgAttr
    dsimp only
    split_ifs at hv ⊢ with h1 h2
    · rfl
    · cases hp : proxyUpstream v with
      | none => rfl
      | some realUrl =>
        rw [hp] at hv
        dsimp only at hv ⊢
        split_ifs at hv ⊢ with h3
        rfl
  · intro v hv
    unfold imgAttrTarget at hv
    unfold processImgAttr
    dsimp only
    split_ifs at hv ⊢ with h1 h2
    · cases hp : proxyUpstream v with
      | none =>
        rw [hp] at hv
        cases hv
      | some realUrl =>
        rw [hp] at hv
        dsimp only at hv ⊢
        split_ifs at hv ⊢ with h3
        injection hv with hv
        subst hv
        rw [habs]
        dsimp only
        rw [hlocal]
    · injection hv with hv
      subst hv
      rw [habs]
      dsimp only
      rw [hlocal]
  · intro entry he
    unfold candidateTarget at he
    rw [rewriteSrcsetEntry_eq]
    dsimp only at he
    split_ifs at he ⊢ with h1
    rfl
  · intro entry he
    unfold candidateTarget at he
    rw [rewriteSrcsetEntry_eq]
    dsimp only at he
    split_ifs at he ⊢ with h1
    injection he with he
    rw [he, habs]
    dsimp only
    rw [hlocal]
  · intro ref hr
    unfold refTarget at hr
    unfold processRef
    split_ifs at hr ⊢ with h1
    rfl
  · intro ref hr
    unfold refTarget at hr
    unfold processRef
    split_ifs at hr ⊢ with h1
    injection hr with hr
    subst hr
    rw [habs]
    dsimp only
    rw [hlocal]
  · intro fuel css lastIndex index whole group2 hexec hg
    rw [rewriteInlineCss, hexec]
    dsimp only
    rw [hcssNone group2 hg]
    rfl
  · intro fuel css lastIndex index whole group2 hexec hg
    obtain ⟨hc, ht⟩ := hcssSome group2 hg
    rw [rewriteInlineCss, hexec]
    dsimp only
    rw [if_pos hc, ht, hbind]
  · intro outDir filePath fuel css lastIndex modified w index whole group2 hexec hg
    rw [rewriteDownloadedCss, hexec]
    dsimp only
    rw [hcssNone group2 hg]
    rfl
  · intro outDir filePath fuel css lastIndex modified w index whole group2 hexec hg
    obtain ⟨hc, ht⟩ := hcssSome group2 hg
    rw [rewriteDownloadedCss, hexec]
    dsimp only
    rw [if_pos hc, ht, hbind]

/-- Witness of C20 as amended: the reference `mailto:a@b.c` on the page
`https://example.com/`, as the `href` of a link, as the value of `src` of an image, as a
`srcset` candidate with a descriptor and as the reference of an inline style. -/
theorem rejected_before_toLocalAssetPath_witness :
    sheetPlatform.parse "mailto:a@b.c".toList (some examplePage) = some mailtoUrl ∧
    sheetPlatform.parse mailtoUrl.href none = some mailtoUrl ∧
    refTarget "mailto:a@b.c".toList = some "mailto:a@b.c".toList ∧
    processRef sheetPlatform.parse examplePage exampleOrigin "mailto:a@b.c".toList
      = Run.done (toLocalAssetPath exampleOrigin mailtoUrl, [mailtoUrl.href]) ∧
    processImgAttr sheetPlatform.parse examplePage exampleOrigin (some "mailto:a@b.c".toList)
      = Run.done (some (toLocalAssetPath exampleOrigin mailtoUrl), [mailtoUrl.href]) ∧
    rewriteSrcsetEntry sheetPlatform.parse examplePage exampleOrigin " mailto:a@b.c 2x".toList
      = Run.done (toLocalAssetPath exampleOrigin mailtoUrl ++
          descriptorSuffix (splitWs (jsTrim " mailto:a@b.c 2x".toList))[1]?, [mailtoUrl.href]) ∧
    rewriteInlineCss sheetPlatform.parse examplePage exampleOrigin (1 + 1) mailtoCss 0
      = (match rewriteInlineCss sheetPlatform.parse examplePage exampleOrigin 1
            (jsReplace mailtoCss "url(mailto:a@b.c)".toList
              (quotedUrl (toLocalAssetPath exampleOrigin mailtoUrl)))
            (4 + utf16Length "url(mailto:a@b.c)".toList) with
        | Run.done (out, rec) => Run.done (out, mailtoUrl.href :: rec)
        | Run.thrown => Run.thrown
        | Run.loops => Run.loops) ∧
    processImgAttr sheetPlatform.parse examplePage exampleOrigin
        (some "/_next/image?w=1&url=".toList)
      = Run.done (some "/_next/image?w=1&url=".toList, []) :=
  have h := rejected_before_toLocalAssetPath sheetPlatform examplePage exampleOrigin
    "mailto:a@b.c".toList mailtoUrl mailtoUrl (by decide) (by decide)
  ⟨by decide, by decide, by decide,
    h.2.2.2.2.2.1 "mailto:a@b.c".toList (by decide),
    h.2.1 "mailto:a@b.c".toList (by decide),
    h.2.2.2.1 " mailto:a@b.c 2x".toList (by decide),
    h.2.2.2.2.2.2.2.1 1 mailtoCss 0 4 "url(mailto:a@b.c)".toList "mailto:a@b.c".toList
      (by decide) (by decide),
    h.1 "/_next/image?w=1&url=".toList (by decide)⟩

/-- C20 as stated fails: on the page `https://example.com/` the link reference
`mailto:a@b.c`, whose scheme is neither http nor https, is rewritten to `external/a@b.c` and
added to the discovery set; so is `DATA:text/css,x`, which the test for the prefix `data:`
lets through, and so is the reference of the inline style `a{b:url(mailto:a@b.c)}`. -/
theorem non_http_reference_is_mirrored :
    mailtoUrl.protocol ≠ "http:".toList ∧ mailtoUrl.protocol ≠ "https:".toList ∧
    processRef parseURL examplePage exampleOrigin "mailto:a@b.c".toList
      = Run.done ("external/a@b.c".toList, ["mailto:a@b.c".toList]) ∧
    parseURL "DATA:text/css,x".toList (some examplePage) = some upperDataUrl ∧
    processRef parseURL examplePage exampleOrigin "DATA:text/css,x".toList
      = Run.done ("external/text/css,x".toList, ["data:text/css,x".toList]) ∧
    processImgAttr parseURL examplePage exampleOrigin (some "DATA:text/css,x".toList)
      = Run.done (some "external/text/css,x".toList, ["data:text/css,x".toList]) ∧
    processStyle parseURL examplePage exampleOrigin 2 mailtoCss
      = Run.done ("a\x7bb:url(\x22external/a@b.c\x22)\x7d".toList, ["mailto:a@b.c".toList]) := by
  refine ⟨by decide, by decide, by decide, by decide, by decide, by decide, by decide⟩

/-! ## C9: the discovery set and the references of the document -/

theorem resolveHref_some (parse : Str → Option Str → Option URL) (base t href : Str)
    (h : resolveHref parse base t = some href) :
    ∃ abs again, parse t (some base) = some abs ∧ parse abs.href none = some again ∧
      href = abs.href := by
  unfold resolveHref at h
  cases habs : parse t (some base) with
  | none => simp [habs] at h
  | some abs =>
    cases hagain : parse abs.href none with
    | none => simp [habs, hagain] at h
    | some again =>
      simp only [habs, hagain, Option.some.injEq] at h
      exact ⟨abs, again, rfl, hagain, h.symm⟩

/-- What a rewriter of the markup records for a string it resolves: the absolute URL, when
the rewriter completes. -/
theorem resolved_rec (parse : Str → Option Str → Option URL) (base rootOrigin t : Str)
    {β : Type} (k : Str → β) (fallback : Run (β × List Str)) (out : β) (rec : List Str)
    (hfb : fallback = Run.done (out, rec) → rec = [])
    (h : (match parse t (some base) with
        | none => fallback
        | some abs =>
          match toLocalAssetPathOfString parse rootOrigin abs.href with
          | none => fallback
          | some localPath => Run.done (k localPath, [abs.href])) = Run.done (out, rec)) :
    rec = (resolveHref parse base t).toList := by
  unfold resolveHref
  unfold toLocalAssetPathOfString at h
  cases habs : parse t (some base) with
  | none =>
    rw [habs] at h
    rw [hfb h]
    rfl
  | some abs =>
    rw [habs] at h
    dsimp only at h ⊢
    cases hagain : parse abs.href none with
    | none =>
      rw [hagain] at h
      rw [hfb h]
      rfl
    | some again =>
      rw [hagain] at h
      simp only [Option.map_some', Run.done.injEq, Prod.mk.injEq] at h
      rw [← h.2]
      rfl

theorem processImgAttr_rec (parse : Str → Option Str → Option URL) (url rootOrigin : Str)
    (val out : Option Str) (rec : List Str)
    (h : processImgAttr parse url rootOrigin val = Run.done (out, rec)) :
    rec = (imgAttrUrl parse url val).toList := by
  cases val with
  | none =>
    simp only [processImgAttr, Run.done.injEq, Prod.mk.injEq] at h
    rw [← h.2]
    rfl
  | some v =>
    unfold processImgAttr at h
    unfold imgAttrUrl
    simp only [Option.bind]
    unfold imgAttrTarget
    dsimp only at h ⊢
    split_ifs at h ⊢ with h1 h2
    · simp only [Run.done.injEq, Prod.mk.injEq] at h
      rw [← h.2]
      rfl
    · cases hp : proxyUpstream v with
      | none =>
        rw [hp] at h
        simp only [Run.done.injEq, Prod.mk.injEq] at h
        rw [← h.2]
        rfl
      | some realUrl =>
        rw [hp] at h
        dsimp only at h ⊢
        split_ifs at h ⊢ with h3
        · simp only [Run.done.injEq, Prod.mk.injEq] at h
          rw [← h.2]
          rfl
        · exact resolved_rec parse url rootOrigin realUrl some (Run.done (some v, [])) out rec
            (fun hc => by
              simp only [Run.done.injEq, Prod.mk.injEq] at hc
              exact hc.2.symm) h
    · exact resolved_rec parse url rootOrigin v some Run.thrown out rec
        (fun hc => by cases hc) h

theorem rewriteSrcsetEntry_rec (parse : Str → Option Str → Option URL) (url rootOrigin : Str)
    (entry out : Str) (rec : List Str)
    (h : rewriteSrcsetEntry parse url rootOrigin entry = Run.done (out, rec)) :
    rec = ((candidateTarget entry).bind (resolveHref parse url)).toList := by
  rw [rewriteSrcsetEntry_eq] at h
  unfold candidateTarget
  dsimp only
  split_ifs at h ⊢ with h1
  · simp only [Run.done.injEq, Prod.mk.injEq] at h
    rw [← h.2]
    rfl
  · exact resolved_rec parse url rootOrigin _
      (fun lp => lp ++ descriptorSuffix (splitWs (jsTrim entry))[1]?) Run.thrown out rec
      (fun hc => by cases hc) h

theorem processRef_rec (parse : Str → Option Str → Option URL) (url rootOrigin : Str)
    (ref out : Str) (rec : List Str)
    (h : processRef parse url rootOrigin ref = Run.done (out, rec)) :
    rec = (refUrl parse url ref).toList := by
  unfold processRef at h
  unfold refUrl refTarget
  split_ifs at h ⊢ with h1
  · simp only [Run.done.injEq, Prod.mk.injEq] at h
    rw [← h.2]
    rfl
  · exact resolved_rec parse url rootOrigin ref id Run.thrown out rec
      (fun hc => by cases hc) h

/-- The URLs recorded by a traversal that completes are those of its steps, in order. -/
theorem mapRun_rec {α β : Type} (f : α → Run (β × List Str)) (g : α → List Str)
    (hfg : ∀ a b r, f a = Run.done (b, r) → r = g a) (l : List α) :
    ∀ (bs : List β) (rec : List Str), mapRun f l = Run.done (bs, rec) →
      rec = l.flatMap g := by
  induction l with
  | nil =>
    intro bs rec h
    simp only [mapRun, Run.done.injEq, Prod.mk.injEq] at h
    rw [← h.2]
    rfl
  | cons a rest ih =>
    intro bs rec h
    unfold mapRun at h
    cases hf : f a with
    | thrown => simp [hf] at h
    | loops => simp [hf] at h
    | done p =>
      obtain ⟨b, r1⟩ := p
      cases hm : mapRun f rest with
      | thrown => simp [hf, hm] at h
      | loops => simp [hf, hm] at h
      | done q =>
        obtain ⟨bs1, r2⟩ := q
        simp only [hf, hm, Run.done.injEq, Prod.mk.injEq] at h
        rw [← h.2, hfg a b r1 hf, ih bs1 r2 hm]
        rfl

/-- What one step of a traversal that completes records is recorded by the traversal. -/
theorem mapRun_mem {α β : Type} (f : α → Run (β × List Str)) (l : List α) :
    ∀ (bs : List β) (rec : List Str), mapRun f l = Run.done (bs, rec) →
      ∀ a ∈ l, ∃ b r, f a = Run.done (b, r) ∧ ∀ x ∈ r, x ∈ rec := by
  induction l with
  | nil => intro bs rec _ a ha; cases ha
  | cons a0 rest ih =>
    intro bs rec h a ha
    unfold mapRun at h
    cases hf : f a0 with
    | thrown => simp [hf] at h
    | loops => simp [hf] at h
    | done p =>
      obtain ⟨b, r1⟩ := p
      cases hm : mapRun f rest with
      | thrown => simp [hf, hm] at h
      | loops => simp [hf, hm] at h
      | done q =>
        obtain ⟨bs1, r2⟩ := q
        simp only [hf, hm, Run.done.injEq, Prod.mk.injEq] at h
        rcases List.mem_cons.1 ha with h0 | hr
        · subst h0
          exact ⟨b, r1, hf, fun x hx => by rw [← h.2]; exact List.mem_append_left _ hx⟩
        · obtain ⟨b', r', hfa, hsub⟩ := ih bs1 r2 hm a hr
          exact ⟨b', r', hfa, fun x hx => by
            rw [← h.2]; exact List.mem_append_right _ (hsub x hx)⟩

theorem processSrcset_rec (parse : Str → Option Str → Option URL) (url rootOrigin : Str)
    (srcset out : Option Str) (rec : List Str)
    (h : processSrcset parse url rootOrigin srcset = Run.done (out, rec)) :
    rec = srcsetUrls parse url srcset := by
  cases srcset with
  | none =>
    simp only [processSrcset, Run.done.injEq, Prod.mk.injEq] at h
    rw [← h.2]
    rfl
  | some s =>
    unfold processSrcset at h
    dsimp only at h
    split_ifs at h with h1
    · simp only [Run.done.injEq, Prod.mk.injEq] at h
      have hs : s = [] := by
        cases s with
        | nil => rfl
        | cons c t => cases h1
      rw [← h.2, hs]
      rfl
    · cases hm : mapRun (rewriteSrcsetEntry parse url rootOrigin) (splitOnChar ',' s) with
      | thrown => simp [hm] at h
      | loops => simp [hm] at h
      | done q =>
        obtain ⟨parts, r⟩ := q
        simp only [hm, Run.done.injEq, Prod.mk.injEq] at h
        rw [← h.2]
        exact mapRun_rec _ _ (fun a b r0 hr => rewriteSrcsetEntry_rec parse url rootOrigin a b r0 hr)
          _ parts r hm

theorem processImg_rec (parse : Str → Option Str → Option URL) (url rootOrigin : Str)
    (img out : Img) (rec : List Str)
    (h : processImg parse url rootOrigin img = Run.done (out, rec)) :
    rec = imgUrls parse url img := by
  unfold processImg at h
  cases h1 : processImgAttr parse url rootOrigin img.src with
  | thrown => simp [h1] at h
  | loops => simp [h1] at h
  | done p1 =>
    obtain ⟨a1, r1⟩ := p1
    cases h2 : processImgAttr parse url rootOrigin img.dataSrc with
    | thrown => simp [h1, h2] at h
    | loops => simp [h1, h2] at h
    | done p2 =>
      obtain ⟨a2, r2⟩ := p2
      cases h3 : processImgAttr parse url rootOrigin img.dataLazySrc with
      | thrown => simp [h1, h2, h3] at h
      | loops => simp [h1, h2, h3] at h
      | done p3 =>
        obtain ⟨a3, r3⟩ := p3
        cases h4 : processSrcset parse url rootOrigin img.srcset with
        | thrown => simp [h1, h2, h3, h4] at h
        | loops => simp [h1, h2, h3, h4] at h
        | done p4 =>
          obtain ⟨a4, r4⟩ := p4
          simp only [h1, h2, h3, h4, Run.done.injEq, Prod.mk.injEq] at h
          rw [← h.2, processImgAttr_rec parse url rootOrigin _ _ _ h1,
            processImgAttr_rec parse url rootOrigin _ _ _ h2,
            processImgAttr_rec parse url rootOrigin _ _ _ h3,
            processSrcset_rec parse url rootOrigin _ _ _ h4]
          rfl

/-- The first reference of a style text is recorded when the loop over the text ends. -/
theorem processStyle_first (parse : Str → Option Str → Option URL) (url rootOrigin : Str)
    (fuel : Nat) (css out : Str) (rec : List Str) (index : Nat) (whole group2 t href : Str)
    (h : processStyle parse url rootOrigin fuel css = Run.done (out, rec))
    (hexec : execUrl css 0 = some (index, whole, group2)) (ht : cssTarget group2 = some t)
    (hres : resolveHref parse url t = some href) : href ∈ rec := by
  obtain ⟨abs, again, habs, hagain, hhref⟩ := resolveHref_some parse url t href hres
  have hne : css.isEmpty = false := by
    cases css with
    | nil => cases hexec
    | cons c cs => rfl
  unfold processStyle at h
  rw [hne] at h
  simp only [Bool.false_eq_true, if_false] at h
  cases fuel with
  | zero => cases h
  | succ n =>
    unfold cssTarget at ht
    cases hc : (!startsWith (jsTrim group2) "data:".toList &&
        !startsWith (jsTrim group2) "#".toList) with
    | false =>
      rw [hc] at ht
      simp at ht
    | true =>
      rw [hc] at ht
      simp only [if_true, Option.some.injEq] at ht
      have hbind : ((parse (jsTrim group2) (some url)).bind fun a =>
          Option.map (fun lp => (a, lp)) (toLocalAssetPathOfString parse rootOrigin a.href))
          = some (abs, toLocalAssetPath rootOrigin again) := by
        rw [ht, habs]
        show Option.map (fun lp => (abs, lp))
          (toLocalAssetPathOfString parse rootOrigin abs.href) = _
        simp [toLocalAssetPathOfString, hagain]
      rw [rewriteInlineCss, hexec] at h
      dsimp only at h
      rw [if_pos hc, hbind] at h
      dsimp only at h
      cases hrest : rewriteInlineCss parse url rootOrigin n
          (jsReplace css whole (quotedUrl (toLocalAssetPath rootOrigin again)))
          (index + utf16Length whole) with
      | thrown => simp [hrest] at h
      | loops => simp [hrest] at h
      | done q =>
        obtain ⟨out1, rec1⟩ := q
        simp only [hrest, Run.done.injEq, Prod.mk.injEq] at h
        rw [← h.2, hhref]
        exact List.mem_cons_self _ _

/-- C9, as amended: whenever markup rewriting completes, the discovery set holds, each
exactly once and in the order of their first recording, the absolute URLs that the image
references (the values of `src`, `data-src` and `data-lazy-src` and the `srcset`
candidates, after proxy unwrapping), the link references and the script references of the
document resolve to, followed by the absolute URLs that the loop over the inline styles
records, among which is the one of the first `url()` reference of every style text.
References that resolve to the same absolute URL are counted once, across the passes too:
the number of entries is the number of distinct such URLs (for a document without style
elements, of distinct URLs that its image, link and script references resolve to); it is at
most the number of URLs recorded and equal to it exactly when these are pairwise
distinct. -/
theorem rewriteMarkup_set_of_references (parse : Str → Option Str → Option URL)
    (url rootOrigin : Str) (fuel : Nat) (doc doc1 : Document) (set : List Str)
    (h : rewriteMarkup parse url rootOrigin fuel doc = Run.done (doc1, set)) :
    ∃ styles styleUrls,
      mapRun (processStyle parse url rootOrigin fuel) doc.styles
        = Run.done (styles, styleUrls) ∧
      set = setAddAll [] (attributeUrls parse url doc ++ styleUrls) ∧
      set.Nodup ∧
      (∀ x, x ∈ set ↔ x ∈ attributeUrls parse url doc ∨ x ∈ styleUrls) ∧
      set.length = (attributeUrls parse url doc ++ styleUrls).toFinset.card ∧
      set.length ≤ (attributeUrls parse url doc).length + styleUrls.length ∧
      (set.length = (attributeUrls parse url doc).length + styleUrls.length ↔
        (attributeUrls parse url doc ++ styleUrls).Nodup) ∧
      (doc.styles = [] → set.length = (attributeUrls parse url doc).toFinset.card) ∧
      (∀ css ∈ doc.styles, ∀ (index : Nat) (whole group2 t href : Str),
        execUrl css 0 = some (index, whole, group2) → cssTarget group2 = some t →
        resolveHref parse url t = some href → href ∈ set) := by
  unfold rewriteMarkup at h
  cases htrace : rewriteMarkupTrace parse url rootOrigin fuel doc with
  | thrown => simp [htrace] at h
  | loops => simp [htrace] at h
  | done p =>
    obtain ⟨d, rec⟩ := p
    simp only [htrace, Run.done.injEq, Prod.mk.injEq] at h
    obtain ⟨-, hset⟩ := h
    unfold rewriteMarkupTrace at htrace
    cases h1 : mapRun (processImg parse url rootOrigin) doc.imgs with
    | thrown => simp [h1] at htrace
    | loops => simp [h1] at htrace
    | done p1 =>
      obtain ⟨imgs, r1⟩ := p1
      cases h2 : mapRun (processRef parse url rootOrigin) doc.links with
      | thrown => simp [h1, h2] at htrace
      | loops => simp [h1, h2] at htrace
      | done p2 =>
        obtain ⟨links, r2⟩ := p2
        cases h3 : mapRun (processRef parse url rootOrigin) doc.scripts with
        | thrown => simp [h1, h2, h3] at htrace
        | loops => simp [h1, h2, h3] at htrace
        | done p3 =>
          obtain ⟨scripts, r3⟩ := p3
          cases h4 : mapRun (processStyle parse url rootOrigin fuel) doc.styles with
          | thrown => simp [h1, h2, h3, h4] at htrace
          | loops => simp [h1, h2, h3, h4] at htrace
          | done p4 =>
            obtain ⟨styles, r4⟩ := p4
            simp only [h1, h2, h3, h4, Run.done.injEq, Prod.mk.injEq] at htrace
            have hr1 : r1 = doc.imgs.flatMap (imgUrls parse url) :=
              mapRun_rec _ _ (fun a b r hr => processImg_rec parse url rootOrigin a b r hr)
                _ imgs r1 h1
            have hr2 : r2 = doc.links.flatMap fun ref => (refUrl parse url ref).toList :=
              mapRun_rec _ _ (fun a b r hr => processRef_rec parse url rootOrigin a b r hr)
                _ links r2 h2
            have hr3 : r3 = doc.scripts.flatMap fun ref => (refUrl parse url ref).toList :=
              mapRun_rec _ _ (fun a b r hr => processRef_rec parse url rootOrigin a b r hr)
                _ scripts r3 h3
            have hrec : rec = attributeUrls parse url doc ++ r4 := by
              rw [← htrace.2, hr1, hr2, hr3]
              rfl
            have hmem : ∀ x, x ∈ set ↔ x ∈ attributeUrls parse url doc ∨ x ∈ r4 := by
              intro x
              rw [← hset, hrec]
              simpa using mem_setAddAll (attributeUrls parse url doc ++ r4) [] x
            have hnodup : set.Nodup := by
              rw [← hset]
              exact setAddAll_nodup rec [] List.nodup_nil
            have hcard : set.length = (attributeUrls parse url doc ++ r4).toFinset.card := by
              rw [← List.toFinset_card_of_nodup hnodup]
              congr 1
              ext x
              simp only [List.mem_toFinset, List.mem_append]
              exact hmem x
            refine ⟨styles, r4, rfl, by rw [← hset, hrec], hnodup, hmem, hcard, ?_, ?_, ?_, ?_⟩
            · rw [← hset, hrec, ← List.length_append]
              simpa using length_setAddAll_le (attributeUrls parse url doc ++ r4) []
            · rw [← hset, hrec, ← List.length_append]
              exact setAddAll_length_eq_iff _
            · intro hnone
              rw [hnone] at h4
              simp only [mapRun, Run.done.injEq, Prod.mk.injEq] at h4
              rw [hcard, ← h4.2, List.append_nil]
            · intro css hcss index whole group2 t href hexec ht hres
              obtain ⟨out, r, hstyle, hsub⟩ := mapRun_mem _ _ styles r4 h4 css hcss
              exact (hmem href).2 (Or.inr (hsub href
                (processStyle_first parse url rootOrigin fuel css out r index whole group2 t
                  href hstyle hexec ht hres)))

/-- Witness of C9 as amended: the document `mixedDoc` on the page `https://example.com/`.
Its image, link and script references resolve to six absolute URLs, of which
`https://example.com/a.png` occurs twice, and the inline style records that URL once
more: the discovery set has five entries. -/
theorem rewriteMarkup_set_of_references_witness :
    rewriteMarkup parseURL examplePage exampleOrigin 2 mixedDoc
      = Run.done (mixedDocRewritten, mixedSet) ∧
    attributeUrls parseURL examplePage mixedDoc
      = ["https://example.com/a.png".toList, "https://cdn.example.com/a.png".toList,
         "https://example.com/a.png".toList, "https://example.com/b.png".toList,
         "https://cdn.example.com/app.css".toList, "https://example.com/app.js".toList] ∧
    mixedSet.length = 5 ∧
    ∃ styles styleUrls,
      mapRun (processStyle parseURL examplePage exampleOrigin 2) mixedDoc.styles
        = Run.done (styles, styleUrls) ∧
      mixedSet = setAddAll [] (attributeUrls parseURL examplePage mixedDoc ++ styleUrls) ∧
      mixedSet.Nodup ∧
      (∀ x, x ∈ mixedSet ↔ x ∈ attributeUrls parseURL examplePage mixedDoc ∨ x ∈ styleUrls) ∧
      mixedSet.length
        = (attributeUrls parseURL examplePage mixedDoc ++ styleUrls).toFinset.card ∧
      mixedSet.length ≤ (attributeUrls parseURL examplePage mixedDoc).length
        + styleUrls.length ∧
      (mixedSet.length = (attributeUrls parseURL examplePage mixedDoc).length
          + styleUrls.length ↔
        (attributeUrls parseURL examplePage mixedDoc ++ styleUrls).Nodup) ∧
      (mixedDoc.styles = [] →
        mixedSet.length = (attributeUrls parseURL examplePage mixedDoc).toFinset.card) ∧
      (∀ css ∈ mixedDoc.styles, ∀ (index : Nat) (whole group2 t href : Str),
        execUrl css 0 = some (index, whole, group2) → cssTarget group2 = some t →
        resolveHref parseURL examplePage t = some href → href ∈ mixedSet) :=
  ⟨by decide, by decide, by decide,
    rewriteMarkup_set_of_references parseURL examplePage exampleOrigin 2 mixedDoc
      mixedDocRewritten mixedSet (by decide)⟩

/-! ## C18: a style text on which the rewriting loop does not end -/

theorem length_loopUnits (j : Nat) : (loopUnits j).length = 7 * j := by
  induction j with
  | zero => rfl
  | succ k ih =>
    have hu : loopUnit.length = 7 := by decide
    simp only [loopUnits, List.length_append, ih, hu]
    omega

theorem drop_loopUnits (j : Nat) (X : Str) : (loopUnits j ++ X).drop (7 * j) = X := by
  rw [← length_loopUnits j]
  exact List.drop_left _ _

theorem loopUnits_comm (k : Nat) : loopUnits k ++ loopUnit = loopUnit ++ loopUnits k := by
  induction k with
  | zero => simp [loopUnits]
  | succ n ih => simp only [loopUnits, List.append_assoc, ih]

theorem matchUrlToken_loopToken (S : Str) :
    matchUrlToken (loopToken ++ S) = some (loopToken, ['b']) := by
  have hW : loopToken = ['u', 'r', 'l', '(', 'b', ')'] := by decide
  have h1 : isJsSpace '(' = false := by decide
  have h2 : isJsSpace 'b' = false := by decide
  have h3 : isJsSpace ')' = false := by decide
  have h4 : isRefChar 'b' = true := by decide
  have h5 : isRefChar ')' = false := by decide
  have h6 : ('b' == squote || 'b' == dquote) = false := by decide
  have h7 : 'u'.toLower = 'u' ∧ 'r'.toLower = 'r' ∧ 'l'.toLower = 'l' := by decide
  rw [hW]
  simp [matchUrlToken, matchUrlTail, List.dropWhile_cons, List.takeWhile_cons, h1, h2, h3, h4,
    h5, h6, h7]
  have hlen : S.length + 1 + 1 + 1 + 1 + 1 + 1 - S.length = 6 := by omega
  rw [hlen]
  rfl

theorem length_le_utf16Length (s : Str) : s.length ≤ utf16Length s := by
  induction s with
  | nil => exact le_refl _
  | cons c cs ih =>
    have hc : 1 ≤ utf16Units c := by
      unfold utf16Units
      split <;> omega
    simp only [List.length_cons, utf16Length]
    omega

theorem dropUnits_append (p X : Str) (hp : ∀ c ∈ p, utf16Units c = 1) :
    dropUnits p.length (p ++ X) = (0, X) := by
  induction p with
  | nil => cases X <;> rfl
  | cons c cs ih =>
    have hc : utf16Units c = 1 := hp c (List.mem_cons_self _ _)
    have hcs : ∀ d ∈ cs, utf16Units d = 1 := fun d hd => hp d (List.mem_cons_of_mem _ hd)
    show dropUnits (cs.length + 1) (c :: (cs ++ X)) = (0, X)
    rw [dropUnits, hc, if_pos (by omega)]
    exact ih hcs

theorem utf16Units_loopUnits (j : Nat) : ∀ c ∈ loopUnits j, utf16Units c = 1 := by
  induction j with
  | zero => intro c hc; cases hc
  | succ k ih =>
    intro c hc
    have hu : ∀ d ∈ loopUnit, utf16Units d = 1 := by decide
    rcases List.mem_append.1 hc with h | h
    · exact hu c h
    · exact ih c h

theorem execUrl_loop (j : Nat) (S : Str) :
    execUrl (loopUnits (j + 1) ++ loopToken ++ S) (7 * j + 6)
      = some (7 * j + 7, loopToken, ['b']) := by
  have hlen : ¬ utf16Length (loopUnits (j + 1) ++ loopToken ++ S) < 7 * j + 6 := by
    have h := length_le_utf16Length (loopUnits (j + 1) ++ loopToken ++ S)
    simp only [List.length_append, length_loopUnits] at h
    omega
  have hshape : loopUnits (j + 1) ++ loopToken ++ S
      = (loopUnits j ++ "url(\x22a".toList) ++ ('/' :: (loopToken ++ S)) := by
    show (loopUnit ++ loopUnits j) ++ loopToken ++ S = _
    rw [← loopUnits_comm]
    have hu : loopUnit = "url(\x22a".toList ++ ['/'] := by decide
    rw [hu]
    simp only [List.append_assoc]
    rfl
  have hpre : (loopUnits j ++ "url(\x22a".toList).length = 7 * j + 6 := by
    rw [List.length_append, length_loopUnits]
    rfl
  have hbmp : ∀ c ∈ loopUnits j ++ "url(\x22a".toList, utf16Units c = 1 := by
    intro c hc
    have hu : ∀ d ∈ "url(\x22a".toList, utf16Units d = 1 := by decide
    rcases List.mem_append.1 hc with h | h
    · exact utf16Units_loopUnits j c h
    · exact hu c h
  have hdrop : dropUnits (7 * j + 6) (loopUnits (j + 1) ++ loopToken ++ S)
      = (0, '/' :: (loopToken ++ S)) := by
    rw [hshape, ← hpre]
    exact dropUnits_append _ _ hbmp
  have hslash : matchUrlToken ('/' :: (loopToken ++ S)) = none := by
    have hW : loopToken = ['u', 'r', 'l', '(', 'b', ')'] := by decide
    have h7 : ('/'.toLower = 'u') = False := by decide
    rw [hW]
    simp [matchUrlToken, h7]
  unfold execUrl
  rw [if_neg hlen, hdrop]
  have hne : loopToken ++ S ≠ [] := by
    have hW : loopToken = 'u' :: "rl(b)".toList := by decide
    rw [hW]
    simp
  have hscan : scanUrl (loopToken ++ S) (7 * j + 7) = some (7 * j + 7, loopToken, ['b']) := by
    cases hts : loopToken ++ S with
    | nil => exact absurd hts hne
    | cons c t =>
      rw [scanUrl, ← hts, matchUrlToken_loopToken]
  have hidx : 7 * j + 6 + 0 + utf16Units '/' = 7 * j + 7 := by
    have h1 : utf16Units '/' = 1 := by decide
    rw [h1]
  show scanUrl ('/' :: (loopToken ++ S)) (7 * j + 6 + 0) = _
  rw [scanUrl, hslash]
  show scanUrl (loopToken ++ S) (7 * j + 6 + 0 + utf16Units '/') = _
  rw [hidx]
  exact hscan

theorem findSub_loopUnit (Y before after : Str)
    (h : findSub loopToken Y = some (before, after)) :
    findSub loopToken (loopUnit ++ Y) = some (loopUnit ++ before, after) := by
  have hW : loopToken = ['u', 'r', 'l', '(', 'b', ')'] := by decide
  have hU : loopUnit = ['u', 'r', 'l', '(', dquote, 'a', '/'] := by decide
  have hq : ('b' == dquote) = false := by decide
  rw [hW] at h ⊢
  rw [hU]
  simp [findSub, List.isPrefixOf, hq, h]

theorem findSub_loop (k : Nat) (S : Str) :
    findSub loopToken (loopUnits k ++ loopToken ++ S) = some (loopUnits k, S) := by
  induction k with
  | zero =>
    have hW : loopToken = ['u', 'r', 'l', '(', 'b', ')'] := by decide
    rw [hW]
    simp [loopUnits, findSub, List.isPrefixOf]
  | succ n ih =>
    have hshape : loopUnits (n + 1) ++ loopToken ++ S
        = loopUnit ++ (loopUnits n ++ loopToken ++ S) := by
      simp only [loopUnits, List.append_assoc]
    rw [hshape, findSub_loopUnit _ _ _ ih]
    rfl

theorem expandReplacement_loop (before after : Str) :
    expandReplacement loopToken before after (quotedUrl "a/url(b)/b".toList)
      = loopUnit ++ loopToken ++ "/b\x22)".toList := by
  rfl

theorem jsReplace_loop (k : Nat) (S : Str) :
    jsReplace (loopUnits k ++ loopToken ++ S) loopToken (quotedUrl "a/url(b)/b".toList)
      = loopUnits (k + 1) ++ loopToken ++ ("/b\x22)".toList ++ S) := by
  unfold jsReplace
  rw [findSub_loop]
  show loopUnits k ++ expandReplacement loopToken (loopUnits k) S
      (quotedUrl "a/url(b)/b".toList) ++ S = _
  rw [expandReplacement_loop]
  show _ = (loopUnit ++ loopUnits k) ++ loopToken ++ ("/b\x22)".toList ++ S)
  rw [← loopUnits_comm]
  simp only [List.append_assoc]

theorem loop_state_never_ends (fuel : Nat) :
    ∀ (j : Nat) (S : Str),
      rewriteInlineCss parseURL loopBase exampleOrigin fuel
        (loopUnits (j + 1) ++ loopToken ++ S) (7 * j + 6) = Run.loops := by
  induction fuel with
  | zero => intro j S; rfl
  | succ n ih =>
    intro j S
    have hcond : (!startsWith (jsTrim ['b']) "data:".toList &&
        !startsWith (jsTrim ['b']) "#".toList) = true := by decide
    have hres : ((parseURL (jsTrim ['b']) (some loopBase)).bind fun abs =>
        (toLocalAssetPathOfString parseURL exampleOrigin abs.href).map fun lp => (abs, lp))
        = some (loopUrlB, "a/url(b)/b".toList) := by decide
    have hnext : 7 * j + 7 + utf16Length loopToken = 7 * (j + 1) + 6 := by
      have hl : utf16Length loopToken = 6 := by decide
      rw [hl]
      omega
    rw [rewriteInlineCss, execUrl_loop]
    dsimp only
    rw [if_pos hcond, hres]
    dsimp only
    rw [jsReplace_loop, hnext, ih (j + 1)]

/-- C18, the code at the failing input: on a page whose URL is
`https://example.com/a/url(b)/`, the loop over the inline style `url(x)` never ends.  The
first turn replaces the token by `url("a/url(b)/x")`; from then on every turn finds the token
`url(b)` ahead of `lastIndex` and replaces it by `url("a/url(b)/b")`, which holds the same
token seven characters further.  Whatever the number of calls of `exec` allowed, the loop is
still running. -/
theorem rewriteInlineCss_never_ends (fuel : Nat) :
    processStyle parseURL loopBase exampleOrigin fuel "url(x)".toList = Run.loops := by
  have hne : ("url(x)".toList).isEmpty = false := by decide
  unfold processStyle
  rw [hne]
  simp only [Bool.false_eq_true, if_false]
  cases fuel with
  | zero => rfl
  | succ n =>
    have hexec : execUrl "url(x)".toList 0 = some (0, "url(x)".toList, ['x']) := by decide
    have hcond : (!startsWith (jsTrim ['x']) "data:".toList &&
        !startsWith (jsTrim ['x']) "#".toList) = true := by decide
    have hres : ((parseURL (jsTrim ['x']) (some loopBase)).bind fun abs =>
        (toLocalAssetPathOfString parseURL exampleOrigin abs.href).map fun lp => (abs, lp))
        = some (loopUrlX, "a/url(b)/x".toList) := by decide
    have hrepl : jsReplace "url(x)".toList "url(x)".toList (quotedUrl "a/url(b)/x".toList)
        = loopUnits (0 + 1) ++ loopToken ++ "/x\x22)".toList := by decide
    have hnext : 0 + utf16Length "url(x)".toList = 7 * 0 + 6 := by decide
    rw [rewriteInlineCss, hexec]
    dsimp only
    rw [if_pos hcond, hres]
    dsimp only
    rw [hrepl, hnext, loop_state_never_ends n 0]

/-! ## C21: members of the discovery set with another scheme -/

theorem downloadAll_append (P : Platform) (rootOrigin outDir : Str) (fuel : Nat)
    (l₁ l₂ : List Str) :
    ∀ w : World, downloadAll P rootOrigin outDir fuel (l₁ ++ l₂) w
      = (downloadAll P rootOrigin outDir fuel l₁ w).bind
          (downloadAll P rootOrigin outDir fuel l₂) := by
  induction l₁ with
  | nil => intro w; rfl
  | cons a rest ih =>
    intro w
    show downloadAll P rootOrigin outDir fuel (a :: (rest ++ l₂)) w = _
    rw [downloadAll, downloadAll]
    cases downloadTask P rootOrigin outDir fuel a w with
    | none => rfl
    | some w1 => exact ih w1

/-- C21: for a member of the discovery set whose scheme is neither http nor https, the task
of the batch leaves the world as it was (no request, no file, no directory), and the batch
does to the other members, before and after it, what it does without that member. -/
theorem downloadTask_skips_other_schemes (P : Platform) (rootOrigin outDir : Str) (fuel : Nat)
    (assetUrl : Str) (u : URL) (before after : List Str) (w : World)
    (hparse : P.parse assetUrl none = some u)
    (hhttp : u.protocol ≠ "http:".toList) (hhttps : u.protocol ≠ "https:".toList) :
    downloadTask P rootOrigin outDir fuel assetUrl w = some w ∧
    downloadAll P rootOrigin outDir fuel (before ++ assetUrl :: after) w
      = downloadAll P rootOrigin outDir fuel (before ++ after) w := by
  have hguard : (u.protocol != "http:".toList && u.protocol != "https:".toList) = true := by
    rw [Bool.and_eq_true]
    exact ⟨bne_iff_ne.mpr hhttp, bne_iff_ne.mpr hhttps⟩
  have htask : ∀ w1 : World, downloadTask P rootOrigin outDir fuel assetUrl w1 = some w1 := by
    intro w1
    unfold downloadTask
    rw [hparse]
    dsimp only
    rw [if_pos hguard]
  refine ⟨htask w, ?_⟩
  rw [downloadAll_append, downloadAll_append]
  cases downloadAll P rootOrigin outDir fuel before w with
  | none => rfl
  | some w1 =>
    show downloadAll P rootOrigin outDir fuel (assetUrl :: after) w1 = _
    rw [downloadAll, htask w1]
    rfl

/-- Witness of C21: the member `mailto:a@b.c`, after `https://example.com/logo.png`, in the
environment of the partial-failure scenario. -/
theorem downloadTask_skips_other_schemes_witness :
    logoPlatform.parse "mailto:a@b.c".toList none = some mailtoUrl ∧
    mailtoUrl.protocol ≠ "http:".toList ∧ mailtoUrl.protocol ≠ "https:".toList ∧
    (downloadTask logoPlatform exampleOrigin exampleOutDir 2 "mailto:a@b.c".toList emptyWorld
        = some emptyWorld ∧
      downloadAll logoPlatform exampleOrigin exampleOutDir 2
          (["https://example.com/logo.png".toList] ++ "mailto:a@b.c".toList :: []) emptyWorld
        = downloadAll logoPlatform exampleOrigin exampleOutDir 2
          (["https://example.com/logo.png".toList] ++ []) emptyWorld) :=
  ⟨by decide, by decide, by decide,
    downloadTask_skips_other_schemes logoPlatform exampleOrigin exampleOutDir 2
      "mailto:a@b.c".toList mailtoUrl ["https://example.com/logo.png".toList] [] emptyWorld
      (by decide) (by decide) (by decide)⟩

/-! ## C22: `retryWithBackoff` -/

theorem retryLoop_succ_ok {α : Type} (func : Nat → CallOutcome α) (random : Nat → ℚ)
    (baseDelay : ℚ) (n attempt : Nat) (events : List RetryEvent) (a : α)
    (hf : func attempt = CallOutcome.ok a) :
    retryLoop func random baseDelay (n + 1) attempt events
      = { outcome := RetryEnd.returned a, events := events ++ [RetryEvent.call attempt] } := by
  rw [retryLoop, hf]

theorem retryLoop_succ_retry {α : Type} (func : Nat → CallOutcome α) (random : Nat → ℚ)
    (baseDelay : ℚ) (n attempt : Nat) (events : List RetryEvent) (e : JsError)
    (hf : func attempt = CallOutcome.fails e) (hrl : isRateLimitError e = true) :
    retryLoop func random baseDelay (n + 1) attempt events
      = retryLoop func random baseDelay n (attempt + 1)
          (events ++ [RetryEvent.call attempt,
            RetryEvent.wait (backoffDelay baseDelay random attempt)]) := by
  rw [retryLoop, hf]
  dsimp only
  rw [if_pos hrl]

theorem retryLoop_succ_rethrow {α : Type} (func : Nat → CallOutcome α) (random : Nat → ℚ)
    (baseDelay : ℚ) (n attempt : Nat) (events : List RetryEvent) (e : JsError)
    (hf : func attempt = CallOutcome.fails e) (hrl : isRateLimitError e = false) :
    retryLoop func random baseDelay (n + 1) attempt events
      = { outcome := RetryEnd.rethrown e, events := events ++ [RetryEvent.call attempt] } := by
  rw [retryLoop, hf]
  dsimp only
  rw [if_neg (by rw [hrl]; decide)]

theorem calls_retryTrace {α : Type} (o : RetryEnd α) (baseDelay : ℚ) (random : Nat → ℚ)
    (m : Nat) : ({ outcome := o, events := retryTrace baseDelay random m } : RetryRun α).calls
      = m := by
  induction m with
  | zero => rfl
  | succ n ih =>
    unfold RetryRun.calls at ih ⊢
    simp only [retryTrace, List.filter_append, List.length_append] at ih ⊢
    rw [ih]
    rfl

theorem calls_retryTrace_call {α : Type} (o : RetryEnd α) (baseDelay : ℚ)
    (random : Nat → ℚ) (m : Nat) :
    ({ outcome := o, events := retryTrace baseDelay random m ++ [RetryEvent.call m] } :
      RetryRun α).calls = m + 1 := by
  have h := calls_retryTrace o baseDelay random m
  unfold RetryRun.calls at h ⊢
  simp only [List.filter_append, List.length_append] at h ⊢
  rw [h]
  rfl

theorem waits_retryTrace {α : Type} (o : RetryEnd α) (baseDelay : ℚ) (random : Nat → ℚ)
    (m : Nat) : ({ outcome := o, events := retryTrace baseDelay random m } : RetryRun α).waits
      = (List.range m).map (backoffDelay baseDelay random) := by
  induction m with
  | zero => rfl
  | succ n ih =>
    unfold RetryRun.waits at ih ⊢
    simp only [retryTrace, List.filterMap_append] at ih ⊢
    rw [ih, List.range_succ, List.map_append]
    rfl

theorem waits_retryTrace_call {α : Type} (o : RetryEnd α) (baseDelay : ℚ)
    (random : Nat → ℚ) (m : Nat) :
    ({ outcome := o, events := retryTrace baseDelay random m ++ [RetryEvent.call m] } :
      RetryRun α).waits = (List.range m).map (backoffDelay baseDelay random) := by
  have h := waits_retryTrace o baseDelay random m
  unfold RetryRun.waits at h ⊢
  simp only [List.filterMap_append] at h ⊢
  rw [h]
  simp

/-- The part of the trace around call `k`, for `k < m`: call `k`, its timer, and after it
either nothing, when `m = k + 1`, or call `k + 1`. -/
theorem retryTrace_split (baseDelay : ℚ) (random : Nat → ℚ) (m : Nat) :
    ∀ k, k < m → ∃ post, retryTrace baseDelay random m
        = retryTrace baseDelay random k ++
          [RetryEvent.call k, RetryEvent.wait (backoffDelay baseDelay random k)] ++ post ∧
      ((post = [] ∧ m = k + 1) ∨ ∃ rest, post = RetryEvent.call (k + 1) :: rest) := by
  induction m with
  | zero => intro k hk; omega
  | succ n ih =>
    intro k hk
    by_cases hkn : k = n
    · subst hkn
      exact ⟨[], by rw [retryTrace, List.append_nil], Or.inl ⟨rfl, rfl⟩⟩
    · obtain ⟨post, hpost, hshape⟩ := ih k (by omega)
      refine ⟨post ++ [RetryEvent.call n,
        RetryEvent.wait (backoffDelay baseDelay random n)], ?_, Or.inr ?_⟩
      · rw [retryTrace, hpost, List.append_assoc]
      · rcases hshape with ⟨hnil, hn⟩ | ⟨rest, hrest⟩
        · subst hnil
          subst hn
          exact ⟨_, rfl⟩
        · subst hrest
          exact ⟨_, rfl⟩

/-- The closed form of a run of the loop that starts, in turn `attempt`, after the calls and
timers of the turns before it: the run makes the calls `0, ..., m - 1`, each followed by its
timer, and then either ends for want of turns or makes call `m` and ends with it. -/
theorem retryLoop_trace {α : Type} (func : Nat → CallOutcome α) (random : Nat → ℚ)
    (baseDelay : ℚ) (left : Nat) :
    ∀ attempt : Nat, ∃ m, attempt ≤ m ∧
      (((retryLoop func random baseDelay left attempt
            (retryTrace baseDelay random attempt)).outcome = RetryEnd.exhausted ∧
          m = attempt + left ∧
          (retryLoop func random baseDelay left attempt
            (retryTrace baseDelay random attempt)).events = retryTrace baseDelay random m) ∨
        ((retryLoop func random baseDelay left attempt
            (retryTrace baseDelay random attempt)).outcome ≠ RetryEnd.exhausted ∧
          m < attempt + left ∧
          (retryLoop func random baseDelay left attempt
            (retryTrace baseDelay random attempt)).events
              = retryTrace baseDelay random m ++ [RetryEvent.call m])) := by
  induction left with
  | zero => intro attempt; exact ⟨attempt, le_refl _, Or.inl ⟨rfl, rfl, rfl⟩⟩
  | succ n ih =>
    intro attempt
    cases hf : func attempt with
    | ok a =>
      rw [retryLoop_succ_ok func random baseDelay n attempt _ a hf]
      exact ⟨attempt, le_refl _, Or.inr ⟨(fun h => by cases h), by omega, rfl⟩⟩
    | fails e =>
      cases hrl : isRateLimitError e with
      | false =>
        rw [retryLoop_succ_rethrow func random baseDelay n attempt _ e hf hrl]
        exact ⟨attempt, le_refl _, Or.inr ⟨(fun h => by cases h), by omega, rfl⟩⟩
      | true =>
        rw [retryLoop_succ_retry func random baseDelay n attempt _ e hf hrl]
        have hws : retryTrace baseDelay random attempt ++ [RetryEvent.call attempt,
              RetryEvent.wait (backoffDelay baseDelay random attempt)]
            = retryTrace baseDelay random (attempt + 1) := rfl
        rw [hws]
        obtain ⟨m, hm, hcase⟩ := ih (attempt + 1)
        refine ⟨m, by omega, ?_⟩
        rcases hcase with ⟨h1, h2, h3⟩ | ⟨h1, h2, h3⟩
        · exact Or.inl ⟨h1, by omega, h3⟩
        · exact Or.inr ⟨h1, by omega, h3⟩

theorem retryLoop_first {α : Type} (func : Nat → CallOutcome α) (random : Nat → ℚ)
    (baseDelay : ℚ) (left : Nat) :
    ∀ (attempt k : Nat), attempt ≤ k → k < attempt + left →
      AllRateLimited func attempt k →
      (∀ a, func k = CallOutcome.ok a →
        retryLoop func random baseDelay left attempt (retryTrace baseDelay random attempt)
          = { outcome := RetryEnd.returned a,
              events := retryTrace baseDelay random k ++ [RetryEvent.call k] }) ∧
      (∀ e, func k = CallOutcome.fails e → isRateLimitError e = false →
        retryLoop func random baseDelay left attempt (retryTrace baseDelay random attempt)
          = { outcome := RetryEnd.rethrown e,
              events := retryTrace baseDelay random k ++ [RetryEvent.call k] }) := by
  induction left with
  | zero => intro attempt k h1 h2; omega
  | succ n ih =>
    intro attempt k h1 h2 hall
    by_cases hk : k = attempt
    · subst hk
      exact ⟨fun a ha => retryLoop_succ_ok func random baseDelay n k _ a ha,
        fun e he hrl => retryLoop_succ_rethrow func random baseDelay n k _ e he hrl⟩
    · obtain ⟨e0, he0, hrl0⟩ := hall attempt (le_refl _) (by omega)
      rw [retryLoop_succ_retry func random baseDelay n attempt _ e0 he0 hrl0]
      exact ih (attempt + 1) k (by omega) (by omega)
        (fun i hi1 hi2 => hall i (by omega) hi2)

theorem retryLoop_exhausted {α : Type} (func : Nat → CallOutcome α) (random : Nat → ℚ)
    (baseDelay : ℚ) (left : Nat) :
    ∀ (attempt : Nat) (events : List RetryEvent),
      (retryLoop func random baseDelay left attempt events).outcome = RetryEnd.exhausted ↔
        AllRateLimited func attempt (attempt + left) := by
  induction left with
  | zero =>
    intro attempt events
    constructor
    · intro _ i h1 h2
      omega
    · intro _
      rfl
  | succ n ih =>
    intro attempt events
    cases hf : func attempt with
    | ok a =>
      rw [retryLoop_succ_ok func random baseDelay n attempt events a hf]
      constructor
      · intro h
        cases h
      · intro h
        obtain ⟨e, he, _⟩ := h attempt (le_refl _) (by omega)
        rw [hf] at he
        cases he
    | fails e =>
      cases hrl : isRateLimitError e with
      | false =>
        rw [retryLoop_succ_rethrow func random baseDelay n attempt events e hf hrl]
        constructor
        · intro h
          cases h
        · intro h
          obtain ⟨e1, he1, hrl1⟩ := h attempt (le_refl _) (by omega)
          rw [hf] at he1
          cases he1
          rw [hrl] at hrl1
          cases hrl1
      | true =>
        rw [retryLoop_succ_retry func random baseDelay n attempt events e hf hrl,
          ih (attempt + 1) _]
        constructor
        · intro h i hi1 hi2
          by_cases hi : i = attempt
          · subst hi
            exact ⟨e, hf, hrl⟩
          · exact h i (by omega) (by omega)
        · intro h i hi1 hi2
          exact h i (by omega) (by omega)

/-- C22: `retryWithBackoff(func, maxRetries, baseDelay)` calls `func` at most `maxRetries`
times.  If call `k` is the first that is not rejected with a rate-limit error, the run ends
with that call, without a further call: it returns the result when the call succeeds and
rethrows the error when the call is rejected, after `k + 1` calls, each of the calls before
it followed by the timer of its turn.  The run ends with the error `Failed after
<maxRetries> retries due to rate limits.` exactly when all `maxRetries` calls are rejected
with a rate-limit error, and then every call, the last one too, is followed by its timer.
A call `k + 1` that is made comes directly after the timer of turn `k`, which directly
follows call `k`; that timer has the delay `baseDelay * 2 ^ k + Math.random()` seconds, which
is at least `baseDelay * 2 ^ k`.  No other timer is awaited: the run awaits one timer less
than it makes calls, or as many when it ends for want of turns. -/
theorem retryWithBackoff_spec {α : Type} (func : Nat → CallOutcome α) (random : Nat → ℚ)
    (maxRetries : Nat) (baseDelay : ℚ) (hrandom : ∀ k, 0 ≤ random k) :
    (retryWithBackoff func random maxRetries baseDelay).calls ≤ maxRetries ∧
    (∀ k a, k < maxRetries →
      (∀ i, i < k → ∃ e, func i = CallOutcome.fails e ∧ isRateLimitError e = true) →
      func k = CallOutcome.ok a →
      (retryWithBackoff func random maxRetries baseDelay).outcome = RetryEnd.returned a ∧
      (retryWithBackoff func random maxRetries baseDelay).calls = k + 1 ∧
      (retryWithBackoff func random maxRetries baseDelay).events
        = retryTrace baseDelay random k ++ [RetryEvent.call k]) ∧
    (∀ k e, k < maxRetries →
      (∀ i, i < k → ∃ e, func i = CallOutcome.fails e ∧ isRateLimitError e = true) →
      func k = CallOutcome.fails e → isRateLimitError e = false →
      (retryWithBackoff func random maxRetries baseDelay).outcome = RetryEnd.rethrown e ∧
      (retryWithBackoff func random maxRetries baseDelay).calls = k + 1 ∧
      (retryWithBackoff func random maxRetries baseDelay).events
        = retryTrace baseDelay random k ++ [RetryEvent.call k]) ∧
    ((retryWithBackoff func random maxRetries baseDelay).outcome = RetryEnd.exhausted ↔
      ∀ i, i < maxRetries →
        ∃ e, func i = CallOutcome.fails e ∧ isRateLimitError e = true) ∧
    ((retryWithBackoff func random maxRetries baseDelay).outcome = RetryEnd.exhausted →
      (retryWithBackoff func random maxRetries baseDelay).calls = maxRetries ∧
      (retryWithBackoff func random maxRetries baseDelay).events
        = retryTrace baseDelay random maxRetries) ∧
    (∀ k, k + 1 < (retryWithBackoff func random maxRetries baseDelay).calls →
      (∃ pre post, (retryWithBackoff func random maxRetries baseDelay).events
        = pre ++ [RetryEvent.call k, RetryEvent.wait (baseDelay * 2 ^ k + random k),
            RetryEvent.call (k + 1)] ++ post) ∧
      (retryWithBackoff func random maxRetries baseDelay).waits[k]?
        = some (baseDelay * 2 ^ k + random k) ∧
      baseDelay * 2 ^ k ≤ baseDelay * 2 ^ k + random k) ∧
    (∀ k d, (retryWithBackoff func random maxRetries baseDelay).waits[k]? = some d →
      d = baseDelay * 2 ^ k + random k ∧ baseDelay * 2 ^ k ≤ d ∧
      k < (retryWithBackoff func random maxRetries baseDelay).calls) ∧
    ((retryWithBackoff func random maxRetries baseDelay).waits.length
        = (retryWithBackoff func random maxRetries baseDelay).calls ∨
      (retryWithBackoff func random maxRetries baseDelay).waits.length + 1
        = (retryWithBackoff func random maxRetries baseDelay).calls) := by
  unfold retryWithBackoff
  have hstart : retryTrace baseDelay random 0 = [] := rfl
  have hall0 : ∀ k, (∀ i, i < k → ∃ e, func i = CallOutcome.fails e ∧
      isRateLimitError e = true) ↔ AllRateLimited func 0 k :=
    fun k => ⟨fun h i _ hi => h i hi, fun h i hi => h i (Nat.zero_le _) hi⟩
  -- the closed form of the run
  obtain ⟨m, -, hform⟩ := retryLoop_trace func random baseDelay maxRetries 0
  rw [hstart] at hform
  generalize hr : retryLoop func random baseDelay maxRetries 0 [] = r at hform ⊢
  have hrform : (r = { outcome := r.outcome, events := r.events }) := rfl
  have hcw : (r.calls = m ∧ m = maxRetries ∧ r.outcome = RetryEnd.exhausted ∧
        r.events = retryTrace baseDelay random m ∧
        r.waits = (List.range m).map (backoffDelay baseDelay random)) ∨
      (r.calls = m + 1 ∧ m < maxRetries ∧ r.outcome ≠ RetryEnd.exhausted ∧
        r.events = retryTrace baseDelay random m ++ [RetryEvent.call m] ∧
        r.waits = (List.range m).map (backoffDelay baseDelay random)) := by
    rcases hform with ⟨h1, h2, h3⟩ | ⟨h1, h2, h3⟩
    · left
      refine ⟨?_, by omega, h1, h3, ?_⟩
      · rw [hrform, h3]
        exact calls_retryTrace _ _ _ _
      · rw [hrform, h3]
        exact waits_retryTrace _ _ _ _
    · right
      refine ⟨?_, by omega, h1, h3, ?_⟩
      · rw [hrform, h3]
        exact calls_retryTrace_call _ _ _ _
      · rw [hrform, h3]
        exact waits_retryTrace_call _ _ _ _
  have hwaitsAt : ∀ k, k < m → r.waits[k]? = some (baseDelay * 2 ^ k + random k) := by
    intro k hk
    have hw : r.waits = (List.range m).map (backoffDelay baseDelay random) := by
      rcases hcw with h | h
      · exact h.2.2.2.2
      · exact h.2.2.2.2
    rw [hw, List.getElem?_map, List.getElem?_range hk]
    rfl
  refine ⟨?_, ?_, ?_, ?_, ?_, ?_, ?_, ?_⟩
  · rcases hcw with h | h
    · omega
    · omega
  · intro k a hk hall ha
    have h := (retryLoop_first func random baseDelay maxRetries 0 k (Nat.zero_le _)
      (by omega) ((hall0 k).1 hall)).1 a ha
    rw [hstart, hr] at h
    rw [h]
    exact ⟨rfl, calls_retryTrace_call _ _ _ _, rfl⟩
  · intro k e hk hall he hrl
    have h := (retryLoop_first func random baseDelay maxRetries 0 k (Nat.zero_le _)
      (by omega) ((hall0 k).1 hall)).2 e he hrl
    rw [hstart, hr] at h
    rw [h]
    exact ⟨rfl, calls_retryTrace_call _ _ _ _, rfl⟩
  · rw [hall0, ← hr]
    simpa using retryLoop_exhausted func random baseDelay maxRetries 0 []
  · intro hex
    rcases hcw with h | h
    · obtain ⟨h1, h2, -, h4, -⟩ := h
      subst h2
      exact ⟨h1, h4⟩
    · exact absurd hex h.2.2.1
  · intro k hk
    have hkm : k < m := by
      rcases hcw with h | h
      · omega
      · omega
    refine ⟨?_, hwaitsAt k hkm, le_add_of_nonneg_right (hrandom k)⟩
    obtain ⟨post, hpost, hshape⟩ := retryTrace_split baseDelay random m k hkm
    rcases hcw with h | h
    · obtain ⟨h1, -, -, h4, -⟩ := h
      rcases hshape with ⟨-, hm⟩ | ⟨rest, hrest⟩
      · omega
      · refine ⟨retryTrace baseDelay random k, rest, ?_⟩
        rw [h4, hpost, hrest]
        simp [backoffDelay]
    · obtain ⟨h1, -, -, h4, -⟩ := h
      rcases hshape with ⟨hnil, hm⟩ | ⟨rest, hrest⟩
      · refine ⟨retryTrace baseDelay random k, [], ?_⟩
        rw [h4, hpost, hnil, hm]
        simp [backoffDelay]
      · refine ⟨retryTrace baseDelay random k, rest ++ [RetryEvent.call m], ?_⟩
        rw [h4, hpost, hrest]
        simp [backoffDelay]
  · intro k d hd
    have hw : r.waits = (List.range m).map (backoffDelay baseDelay random) := by
      rcases hcw with h | h
      · exact h.2.2.2.2
      · exact h.2.2.2.2
    have hkm : k < m := by
      by_contra hge
      have hnone : r.waits[k]? = none := by
        rw [hw]
        exact List.getElem?_eq_none (by simp; omega)
      rw [hnone] at hd
      cases hd
    rw [hwaitsAt k hkm] at hd
    injection hd with hd
    subst hd
    refine ⟨rfl, le_add_of_nonneg_right (hrandom k), ?_⟩
    rcases hcw with h | h
    · omega
    · omega
  · rcases hcw with h | h
    · left
      rw [h.2.2.2.2, h.1]
      simp
    · right
      rw [h.2.2.2.2, h.1]
      simp

/-- Witness of C22: a caller whose first call is rejected with status 429 and whose second
call succeeds, with the defaults `maxRetries = 5` and `baseDelay = 1`: the first call, the
timer of `1 * 2 ^ 0 + 1/2` seconds, the second call, whose result is returned. -/
theorem retryWithBackoff_spec_witness :
    (∀ k, 0 ≤ halfRandom k) ∧
    (retryWithBackoff flakyFunc halfRandom 5 1).calls ≤ 5 ∧
    (retryWithBackoff flakyFunc halfRandom 5 1).outcome = RetryEnd.returned "done".toList ∧
    (retryWithBackoff flakyFunc halfRandom 5 1).calls = 1 + 1 ∧
    (retryWithBackoff flakyFunc halfRandom 5 1).events
      = retryTrace 1 halfRandom 1 ++ [RetryEvent.call 1] ∧
    (retryWithBackoff flakyFunc halfRandom 5 1).waits[0]? = some (1 * 2 ^ 0 + halfRandom 0) :=
  have hr : ∀ k, 0 ≤ halfRandom k := fun _ => by
    unfold halfRandom
    norm_num
  have hall : ∀ i, i < 1 → ∃ e, flakyFunc i = CallOutcome.fails e ∧
      isRateLimitError e = true := fun i hi =>
    ⟨{ status := some 429, message := "Too Many Requests".toList }, by
      have h0 : i = 0 := by omega
      subst h0
      exact ⟨rfl, by decide⟩⟩
  have hret := (retryWithBackoff_spec flakyFunc halfRandom 5 1 hr).2.1 1 "done".toList
    (by decide) hall rfl
  ⟨hr, (retryWithBackoff_spec flakyFunc halfRandom 5 1 hr).1, hret.1, hret.2.1, hret.2.2,
    ((retryWithBackoff_spec flakyFunc halfRandom 5 1 hr).2.2.2.2.2.1 0
      (by rw [hret.2.1]; decide)).2.1⟩

end ChaiClone
